import Mathlib

/-!
# ImageCompressor: a shallow embedding and its verified properties

The development follows the C++ sources file by file.

* `colors.cpp`: `colorDistanceSq`, `colorToGrayscale`, `readFromFileStream`.
* `compressor_funcs.cpp`: `findClosestColorId`, `toCompressed`, `toUncompressed`.
* `image_transforms.cpp`: `rotate90`, `rotate`, `mirror`, `applyKernel`, `sharpen`,
  `gaussianBlurApprox`, `edgeDetect`, `negative`, `toGrayscale`.
* `images.cpp`: the constructors and setters, the RAWIMAGE and CMPRIMAGE codecs,
  `matchUncompressedImages`.
* `libbmp.cpp`: the constructor, `read`, `write`, `set_pixel`, `get_pixel`.

Conventions.  A `uint8_t` is a `Byte = Fin 256`; arithmetic on bytes is written out on
`Nat` with an explicit `% 256`.  A `uint32_t` is a `Nat`, and every `uint32_t` operation
of the sources is written with an explicit `% U32`, where `U32 = 2 ^ 32`.  An `int64_t`
distance is an `Int` (its values never exceed `3 * 255 ^ 2`).  A
`std::map<uint8_t, ColorRGB>` is its lookup function, iterated in increasing key order.

Two families of image classes occur in the sources.  `images.h` and `images.cpp` declare
`UncompressedImage` and `CompressedImage` with a grid `image_data` (a vector of rows);
`compressor_funcs.cpp` and `image_transforms.cpp` use classes of the same names through
accessors on a flat row-major buffer (`getPixels`, `setPixels`, `getPixelIds`, ...), whose
declaration is not among the sources.  The former are the structures `UncompressedImage`
and `CompressedImage` below, the latter the structures of the namespace `Flat`.
-/

set_option autoImplicit false
set_option linter.unusedVariables false
set_option maxRecDepth 100000

/-! ## Bytes and colors -/

/-- An 8-bit unsigned value (`uint8_t`, `unsigned char`). -/
abbrev Byte := Fin 256

/-- The number of values of `uint32_t`. -/
def U32 : Nat := 4294967296

/-- Conversion of an integer value to `uint8_t` (reduction modulo 256). -/
def toByte (n : Nat) : Byte := ⟨n % 256, Nat.mod_lt n (by decide)⟩

/-- Modelled from the spec: the declaration of `ColorRGB` lives in `colors.h`, which is not
among the sources.  Per the data model a color is three 8-bit channels with channel-wise
equality. -/
structure ColorRGB where
  r : Byte
  g : Byte
  b : Byte
deriving DecidableEq, Repr

/-- Modelled from the spec: `Pixel` is declared in a header that is not among the sources.
The sources assign and compare `Pixel` and `ColorRGB` values interchangeably, so it is
the same three-channel color. -/
abbrev Pixel := ColorRGB

/-- The color with the given channel values, `ColorRGB{r, g, b}`. -/
def rgb (r g b : Nat) : ColorRGB := ⟨toByte r, toByte g, toByte b⟩

/-- The color `ColorRGB{0, 0, 0}`. -/
def black : ColorRGB := rgb 0 0 0

/-- The function `colorDistanceSq` of `colors.cpp`: the channels are widened to `int64_t`
before subtracting, so nothing wraps. -/
def colorDistanceSq (color1 color2 : ColorRGB) : Int :=
  let dr : Int := (color1.r.val : Int) - (color2.r.val : Int)
  let dg : Int := (color1.g.val : Int) - (color2.g.val : Int)
  let db : Int := (color1.b.val : Int) - (color2.b.val : Int)
  dr * dr + dg * dg + db * db

/-! ## Color tables (`std::map<uint8_t, ColorRGB>`) -/

/-- A `std::map<uint8_t, ColorRGB>`, given by its lookup function (`find`). -/
@[ext]
structure ColorTable where
  find : Byte → Option ColorRGB

namespace ColorTable

/-- The default-constructed (empty) map. -/
def empty : ColorTable := ⟨fun _ => none⟩

/-- The key/value pairs in iteration order of `std::map`, that is by increasing key. -/
def entries (t : ColorTable) : List (Byte × ColorRGB) :=
  (List.finRange 256).filterMap (fun id => (t.find id).map (fun c => (id, c)))

/-- The method `std::map::empty`. -/
def isEmpty (t : ColorTable) : Bool := t.entries.isEmpty

/-- The method `std::map::size`. -/
def size (t : ColorTable) : Nat := t.entries.length

/-- The assignment `table[id] = color`: inserts the key or overwrites its value. -/
def insert (t : ColorTable) (id : Byte) (color : ColorRGB) : ColorTable :=
  ⟨fun k => if k = id then some color else t.find k⟩

/-- A map built from a list of colors, the color at position `i` under key `i`
(positions from 256 on are not keys). -/
def ofList (colors : List ColorRGB) : ColorTable :=
  ⟨fun k => colors[k.val]?⟩

end ColorTable

/-! ## The flat-buffer image classes used by `compressor_funcs.cpp` and `image_transforms.cpp` -/

namespace Flat

/-- Modelled from the spec: `compressor_funcs.cpp` and `image_transforms.cpp` use an
`UncompressedImage` with the accessors `getPixels`, `setPixels`, `getPixel`, `isGrayscale`
and `setGrayscale`; the class declaration with these members is not among the sources.
Per the data model it holds a width, a height, a grayscale flag and a row-major buffer of
pixels. -/
structure UncompressedImage where
  width : Nat
  height : Nat
  grayscale : Bool
  pixels : List Pixel
deriving DecidableEq

/-- Modelled from the spec: the `CompressedImage` used by `compressor_funcs.cpp` and
`image_transforms.cpp`, with the accessors `getColorTable`, `setColorTable`, `getPixelIds`,
`setPixelIds`; its declaration is not among the sources.  Per the data model it holds a
width, a height, a palette and a row-major buffer of palette indices. -/
structure CompressedImage where
  width : Nat
  height : Nat
  grayscale : Bool
  colorTable : ColorTable
  pixelIds : List Byte

/-- Modelled from the spec: `getPixel(x, y)` is declared in the missing class; the buffer
is row-major, so it is the element at `y * width + x` (the same indexing the sources use
on their own scratch buffers), computed in `uint32_t`.  A position outside the buffer
yields black. -/
def UncompressedImage.getPixel (img : UncompressedImage) (x y : Nat) : Pixel :=
  img.pixels.getD ((y * img.width + x) % U32) black

end Flat

/-! ## `compressor_funcs.cpp` -/

/-- The constant `std::numeric_limits<int64_t>::max()`. -/
def INT64_MAX : Int := 9223372036854775807

/-- One iteration of the scan in `findClosestColorId`; the state is
`(closestId, minDistance)`. -/
def closestStep (color : ColorRGB) (st : Byte × Int) (e : Byte × ColorRGB) : Byte × Int :=
  let distance := colorDistanceSq color e.2
  if distance < st.2 then (e.1, distance) else st

/-- The function `findClosestColorId` of `compressor_funcs.cpp`. -/
def findClosestColorId (color : ColorRGB) (colorTable : ColorTable) : Byte :=
  if colorTable.isEmpty then toByte 0
  else (colorTable.entries.foldl (closestStep color) (toByte 0, INT64_MAX)).1

/-- State of the palette-building loop of `toCompressed`: the table, the `uint8_t`
counter `currentId`, and whether the outer loop has been left by `break`. -/
structure BuildState where
  table : ColorTable
  currentId : Nat
  stopped : Bool

/-- The inner loop of the palette builder: is some table color equal to the pixel? -/
def tableContains (table : ColorTable) (pixel : Pixel) : Bool :=
  table.entries.any (fun e => decide (e.2 = pixel))

/-- One iteration of the outer palette-building loop of `toCompressed`.  The counter is a
`uint8_t`, so `currentId++` wraps modulo 256. -/
def buildStep (st : BuildState) (pixel : Pixel) : BuildState :=
  if st.stopped then st
  else if tableContains st.table pixel then st
  else if st.currentId ≥ 256 then { st with stopped := true }
  else
    { table := st.table.insert (toByte st.currentId) pixel
      currentId := (st.currentId + 1) % 256
      stopped := false }

/-- The palette-building loop of `toCompressed` (taken when the supplied table is empty). -/
def buildTable (pixels : List Pixel) : ColorTable :=
  (pixels.foldl buildStep ⟨ColorTable.empty, 0, false⟩).table

/-- The function `toCompressed` of `compressor_funcs.cpp`. -/
def toCompressed (img : Flat.UncompressedImage) (color_table : ColorTable)
    (approximate allow_color_add : Bool) : Flat.CompressedImage :=
  let table := if color_table.isEmpty then buildTable img.pixels else color_table
  { width := img.width
    height := img.height
    grayscale := img.grayscale
    colorTable := table
    pixelIds := img.pixels.map (fun pixel => findClosestColorId pixel table) }

/-- The function `toUncompressed` of `compressor_funcs.cpp`. -/
def toUncompressed (img : Flat.CompressedImage) : Flat.UncompressedImage :=
  { width := img.width
    height := img.height
    grayscale := img.grayscale
    pixels := img.pixelIds.map (fun id =>
      match img.colorTable.find id with
      | some c => (⟨c.r, c.g, c.b⟩ : Pixel)
      | none => rgb 0 0 0) }

/-- The palette of the nearest-color example: black under 0, white under 1. -/
def blackWhite : ColorTable :=
  (ColorTable.empty.insert (toByte 0) (rgb 0 0 0)).insert (toByte 1) (rgb 255 255 255)


/-- A one-row image with the two pixels (10,10,10) and (255,255,255). -/
def sampleImage : Flat.UncompressedImage :=
  { width := 2, height := 1, grayscale := false, pixels := [rgb 10 10 10, rgb 255 255 255] }

/-- The distinct colors of a pixel list in order of first occurrence: the head comes
first, followed by the distinct colors of the tail other than the head. -/
def firstOccurrences : List Pixel → List Pixel
  | [] => []
  | p :: ps => p :: (firstOccurrences ps).filter (fun q => decide (q ≠ p))

/-- A one-row image with 257 pairwise distinct colors: pixel `i` is
`(i mod 256, i div 256, 0)`. -/
def image257 : Flat.UncompressedImage :=
  { width := 257, height := 1, grayscale := false
    pixels := (List.range 257).map (fun i => rgb (i % 256) (i / 256) 0) }

/-! ## `image_transforms.cpp` -/

namespace Flat

/-- A well-formed image: width, height and the pixel count `width * height` are values of
`uint32_t` (the type in which the sources hold dimensions and compute buffer positions),
and the buffer holds exactly `width * height` pixels. -/
def UncompressedImage.WellFormed (img : UncompressedImage) : Prop :=
  img.width < U32 ∧ img.height < U32 ∧ img.width * img.height < U32 ∧
    img.pixels.length = img.width * img.height

/-- A well-formed compressed image: as for `UncompressedImage`, on the index buffer. -/
def CompressedImage.WellFormed (img : CompressedImage) : Prop :=
  img.width < U32 ∧ img.height < U32 ∧ img.width * img.height < U32 ∧
    img.pixelIds.length = img.width * img.height

instance (img : UncompressedImage) : Decidable img.WellFormed := by
  unfold UncompressedImage.WellFormed
  exact inferInstance

instance (img : CompressedImage) : Decidable img.WellFormed := by
  unfold CompressedImage.WellFormed
  exact inferInstance

end Flat

/-- The function `rotate90` of `image_transforms.cpp`.  The two nested loops write into the
scratch buffer `rotated_pixels`; all positions are `uint32_t` values.  A write outside the
buffer (undefined behaviour in the source, not reached on well-formed images) leaves the
buffer as it is. -/
def rotate90 (img : Flat.UncompressedImage) (fill_color : ColorRGB)
    (smart_gap_interpolation : Bool) : Flat.UncompressedImage :=
  let original_width := img.width
  let original_height := img.height
  let rotated_pixels : List Pixel :=
    List.replicate ((original_width * original_height) % U32)
      (⟨fill_color.r, fill_color.g, fill_color.b⟩ : Pixel)
  let new_width := original_height
  let new_height := original_width
  let rotated_pixels :=
    (List.range original_height).foldl (fun buf y =>
      (List.range original_width).foldl (fun buf x =>
        let new_x := (original_height + U32 - 1 - y) % U32
        let new_y := x
        buf.set ((new_y * new_width + new_x) % U32) (img.getPixel x y)) buf) rotated_pixels
  { img with width := new_width, height := new_height, pixels := rotated_pixels }

/-- The function `rotate` of `image_transforms.cpp`; `%` and `/` on `int` truncate toward
zero. -/
def rotate (img : Flat.UncompressedImage) (angle : Int) (fill_color : ColorRGB)
    (smart_gap_interpolation : Bool) : Flat.UncompressedImage :=
  let angle1 := Int.tmod angle 360
  let angle2 := if angle1 < 0 then angle1 + 360 else angle1
  if Int.tmod angle2 90 ≠ 0 then img
  else
    let rotations := Int.tdiv angle2 90
    (List.range rotations.toNat).foldl
      (fun acc _ => rotate90 acc fill_color smart_gap_interpolation) img

/-- The call `std::swap(pixels[i], pixels[j])`.  A position outside the buffer (undefined
behaviour in the source, not reached on well-formed images) leaves the buffer as it is. -/
def swapAt {α : Type} (pixels : List α) (i j : Nat) : List α :=
  match pixels[i]?, pixels[j]? with
  | some a, some b => (pixels.set i b).set j a
  | _, _ => pixels

/-- Two swaps that share no position. -/
def disjointSwaps (p q : Nat × Nat) : Prop :=
  p.1 ≠ q.1 ∧ p.1 ≠ q.2 ∧ p.2 ≠ q.1 ∧ p.2 ≠ q.2

/-- The body of the template `mirror` of `image_transforms.cpp` on the buffer returned by
`getPixels`, for either image class; all positions are `uint32_t` values. -/
def mirrorBuffer {α : Type} (width height : Nat) (pixels : List α) (horizontal : Bool) :
    List α :=
  if horizontal then
    (List.range height).foldl (fun buf y =>
      (List.range (width / 2)).foldl (fun buf x =>
        swapAt buf ((y * width + x) % U32)
          ((y * width + (width + U32 - 1 - x) % U32) % U32)) buf) pixels
  else
    (List.range (height / 2)).foldl (fun buf y =>
      (List.range width).foldl (fun buf x =>
        swapAt buf ((y * width + x) % U32)
          (((height + U32 - 1 - y) % U32 * width + x) % U32)) buf) pixels

/-- The instance `mirror<UncompressedImage>`. -/
def mirror (img : Flat.UncompressedImage) (horizontal : Bool) : Flat.UncompressedImage :=
  { img with pixels := mirrorBuffer img.width img.height img.pixels horizontal }

/-- Modelled from the spec: the instance `mirror<CompressedImage>` calls `getPixels` and
`setPixels` on a `CompressedImage`, members that are not among the sources; per the spec
the transform acts on the grid of the image, which for a compressed image is its grid of
palette indices. -/
def mirrorCompressed (img : Flat.CompressedImage) (horizontal : Bool) :
    Flat.CompressedImage :=
  { img with pixelIds := mirrorBuffer img.width img.height img.pixelIds horizontal }

/-- A 3 by 2 image with six different pixels. -/
def image3x2 : Flat.UncompressedImage :=
  { width := 3, height := 2, grayscale := false
    pixels := [rgb 1 0 0, rgb 2 0 0, rgb 3 0 0, rgb 4 0 0, rgb 5 0 0, rgb 6 0 0] }

/-- A 3 by 2 compressed image with the palette black/white. -/
def compressed3x2 : Flat.CompressedImage :=
  { width := 3, height := 2, grayscale := false, colorTable := blackWhite
    pixelIds := [toByte 0, toByte 1, toByte 1, toByte 0, toByte 0, toByte 1] }

/-! ## `images.cpp`: the image classes of `images.h` and their codecs -/

/-- The class `UncompressedImage` of `images.h`. -/
structure UncompressedImage where
  width : Nat
  height : Nat
  is_grayscale : Bool
  image_data : List (List ColorRGB)
deriving DecidableEq

/-- The class `CompressedImage` of `images.h`; `color_to_id` is the
`std::unordered_map<ColorRGB, uint8_t>`, given by its lookup function. -/
structure CompressedImage where
  width : Nat
  height : Nat
  id_to_color : ColorTable
  color_to_id : ColorRGB → Option Byte
  image_data : List (List Byte)

/-- The default constructor `UncompressedImage()`. -/
def UncompressedImage.new : UncompressedImage :=
  { width := 0, height := 0, is_grayscale := false, image_data := [] }

/-- The default constructor `CompressedImage()`. -/
def CompressedImage.new : CompressedImage :=
  { width := 0, height := 0, id_to_color := ColorTable.empty, color_to_id := fun _ => none
    image_data := [] }

/-- An input file stream: the bytes not yet extracted and the failure state (`failbit`,
which `read` sets together with `eofbit`). -/
structure IStream where
  data : List Byte
  fail : Bool
deriving DecidableEq

/-- The call `infile.read(buffer, n)` where `dst` is the previous content of the `n`-byte
buffer.  On a stream in failure state nothing is extracted.  If fewer than `n` bytes are
left they are all stored, the rest of the buffer keeps its content, and the stream enters
the failure state. -/
def IStream.read (s : IStream) (dst : List Byte) : List Byte × IStream :=
  if s.fail then (dst, s)
  else if dst.length ≤ s.data.length then
    (s.data.take dst.length, { data := s.data.drop dst.length, fail := false })
  else (s.data ++ dst.drop s.data.length, { data := [], fail := true })

/-- The four bytes of a `uint32_t` in memory (little-endian). -/
def toLE32 (n : Nat) : List Byte :=
  [toByte n, toByte (n / 256), toByte (n / 65536), toByte (n / 16777216)]

/-- The `uint32_t` held by four bytes of memory (little-endian). -/
def ofLE32 (bs : List Byte) : Nat :=
  (bs.getD 0 0).val + 256 * (bs.getD 1 0).val + 65536 * (bs.getD 2 0).val +
    16777216 * (bs.getD 3 0).val

/-- The characters of a string literal, its terminating NUL included. -/
def literal (chars : List Nat) : List Byte := chars.map toByte ++ [toByte 0]

/-- The literal `"RAWIMAGE\0"`. -/
def RAWIMAGE : List Byte := literal [82, 65, 87, 73, 77, 65, 71, 69, 0]

/-- The literal `"RAWIMGEND\0"`. -/
def RAWIMGEND : List Byte := literal [82, 65, 87, 73, 77, 71, 69, 78, 68, 0]

/-- The literal `"CMPRIMAGE\0"`. -/
def CMPRIMAGE : List Byte := literal [67, 77, 80, 82, 73, 77, 65, 71, 69, 0]

/-- The literal `"CMPRIMGEND\0"`. -/
def CMPRIMGEND : List Byte := literal [67, 77, 80, 82, 73, 77, 71, 69, 78, 68, 0]

/-- The content of `char a[10] = lit`: the first ten characters of the literal, padded with
NUL when the literal is shorter. -/
def charArray10 (lit : List Byte) : List Byte :=
  (lit ++ List.replicate 10 (toByte 0)).take 10

/-- The character sequence that a literal denotes when it is passed as `const char*` (as
in the comparison of a `std::string` with a literal): the characters before the first
NUL. -/
def cString (lit : List Byte) : List Byte := lit.takeWhile (fun b => decide (b ≠ toByte 0))

/-- The comparison `std::string(buffer, 10) != lit`: the string holds all ten bytes of the
buffer, the literal is taken as a `const char*`. -/
def stringNe (buffer : List Byte) (lit : List Byte) : Bool := decide (buffer ≠ cString lit)

/-- The function `readFromFileStream` of `colors.cpp`: three one-byte reads into an
uninitialised `ColorRGB` (whose bytes hold `indet`), then black if the stream failed. -/
def readFromFileStream (s : IStream) (indet : Byte) : ColorRGB × IStream :=
  let r := s.read [indet]
  let g := r.2.read [indet]
  let b := g.2.read [indet]
  if b.2.fail then (rgb 0 0 0, b.2)
  else (⟨r.1.getD 0 indet, g.1.getD 0 indet, b.1.getD 0 indet⟩, b.2)

/-- The assignment `image_data[y][x] = v` (a position outside the grid, undefined
behaviour in the source, leaves the grid as it is). -/
def setAt {α : Type} (grid : List (List α)) (x y : Nat) (v : α) : List (List α) :=
  match grid[y]? with
  | some row => grid.set y (row.set x v)
  | none => grid

/-- State of a reading loop: `ok` is false once the loop body has executed `return false`. -/
structure ReadState (α : Type) where
  ok : Bool
  grid : List (List α)
  s : IStream

/-- The loop nest `for y < height, for x < width` shared by the decoders: the body reads
one grid element with `readOne` and stores it at `image_data[y][x]`; `readOne` yields
`none` where the body executes `return false`. -/
def readGrid {α : Type} (readOne : IStream → Option α × IStream) (width height : Nat)
    (grid : List (List α)) (s : IStream) : ReadState α :=
  (List.range height).foldl (fun st y =>
    (List.range width).foldl (fun st x =>
      if st.ok then
        match readOne st.s with
        | (some v, s2) => { ok := true, grid := setAt st.grid x y v, s := s2 }
        | (none, s2) => { ok := false, grid := st.grid, s := s2 }
      else st) st) { ok := true, grid := grid, s := s }

/-- Body of the grayscale pixel loop of `UncompressedImage::readFromFile`. -/
def readGrayPixel (indet : Byte) (s : IStream) : Option ColorRGB × IStream :=
  let r := s.read [indet]
  let gray := r.1.getD 0 indet
  (some ⟨gray, gray, gray⟩, r.2)

/-- Body of the color pixel loop of `UncompressedImage::readFromFile`. -/
def readColorPixel (indet : Byte) (s : IStream) : Option ColorRGB × IStream :=
  let r := readFromFileStream s indet
  (some r.1, r.2)

/-- Body of the index loop of `CompressedImage::readFromFile`, with its check
`infile.eof() || infile.fail()`. -/
def readIndex (indet : Byte) (s : IStream) : Option Byte × IStream :=
  let r := s.read [indet]
  if r.2.fail then (none, r.2) else (some (r.1.getD 0 indet), r.2)

/-- Lines 52 to 76 of `UncompressedImage::readFromFile`: width, height and flag are read,
the grid is resized and the pixels are read. -/
def UncompressedImage.readFields (img : UncompressedImage) (s : IStream) (indet : Byte) :
    UncompressedImage × IStream :=
  let w := s.read (toLE32 img.width)
  let h := w.2.read (toLE32 img.height)
  let width := ofLE32 w.1
  let height := ofLE32 h.1
  let f := h.2.read [indet]
  let is_grayscale := decide (f.1.getD 0 indet = toByte 1)
  let blank := List.replicate height (List.replicate width (rgb 0 0 0))
  let px :=
    if is_grayscale then readGrid (readGrayPixel indet) width height blank f.2
    else readGrid (readColorPixel indet) width height blank f.2
  ({ width := width, height := height, is_grayscale := is_grayscale, image_data := px.grid },
   px.s)

/-- The method `UncompressedImage::readFromFile` on the content `file` of an opened file;
the result is the returned flag and the image after the call.  Uninitialised local buffers
hold the byte `indet`. -/
def UncompressedImage.readFromFile (img : UncompressedImage) (file : List Byte)
    (indet : Byte) : Bool × UncompressedImage :=
  let format := (IStream.mk file false).read (List.replicate 10 indet)
  if stringNe format.1 RAWIMAGE then (false, img)
  else
    let version := format.2.read (List.replicate 3 indet)
    if version.1.getD 0 indet ≠ toByte 1 ∨ version.1.getD 1 indet ≠ toByte 0 ∨
        version.1.getD 2 indet ≠ toByte 0 then (false, img)
    else
      let body := img.readFields version.2 indet
      let trailer := body.2.read (List.replicate 10 indet)
      if stringNe trailer.1 RAWIMGEND then (false, body.1)
      else (true, body.1)

/-- The bytes written by `UncompressedImage::writeToFile` (the method returns `true`). -/
def UncompressedImage.writeToFile (img : UncompressedImage) : List Byte :=
  charArray10 RAWIMAGE ++ [toByte 1, toByte 0, toByte 0] ++
    toLE32 img.width ++ toLE32 img.height ++
    [if img.is_grayscale then toByte 1 else toByte 0] ++
    (if img.is_grayscale then
      img.image_data.flatMap (fun row => row.flatMap (fun pixel => [pixel.r]))
    else
      img.image_data.flatMap (fun row => row.flatMap (fun pixel => [pixel.r, pixel.g, pixel.b])))
    ++ charArray10 RAWIMGEND

/-- A 1 by 1 image with the grayscale flag set and the pixel (1, 2, 3). -/
def flaggedColorImage : UncompressedImage :=
  { width := 1, height := 1, is_grayscale := true, image_data := [[rgb 1 2 3]] }

/-- A 2 by 1 color image. -/
def rawSample : UncompressedImage :=
  { width := 2, height := 1, is_grayscale := false, image_data := [[rgb 1 2 3, rgb 4 5 6]] }

/-- The loop `while (std::pow(2, pow) < colorTableSize) pow++` of the CMPRIMAGE writers,
with `pow` an `unsigned char`.  A map keyed by `uint8_t` has at most 256 entries, so the
loop is left after at most eight increments; `fuel` bounds the number of iterations. -/
def powLoop (colorTableSize : Nat) : Nat → Nat → Nat
  | 0, pow => pow
  | fuel + 1, pow =>
    if 2 ^ pow < colorTableSize then powLoop colorTableSize fuel ((pow + 1) % 256) else pow

/-- The bytes written by `CompressedImage::writeToFile` (the method returns `true`). -/
def CompressedImage.writeToFile (img : CompressedImage) : List Byte :=
  charArray10 CMPRIMAGE ++ [toByte 6, toByte 6, toByte 6] ++
    toLE32 img.width ++ toLE32 img.height ++
    [toByte (powLoop img.id_to_color.size 9 0)] ++
    img.id_to_color.entries.flatMap (fun e => [e.2.r, e.2.g, e.2.b]) ++
    img.image_data.flatMap (fun row => row.flatMap (fun color_id => [color_id])) ++
    charArray10 CMPRIMGEND

/-- State of the palette-reading loop of `CompressedImage::readFromFile`. -/
structure PaletteState where
  id_to_color : ColorTable
  color_to_id : ColorRGB → Option Byte
  s : IStream

/-- One iteration of the palette-reading loop: a color is read and stored in both tables
under `static_cast<uint8_t>(i)`. -/
def paletteStep (indet : Byte) (st : PaletteState) (i : Nat) : PaletteState :=
  let c := readFromFileStream st.s indet
  { id_to_color := st.id_to_color.insert (toByte i) c.1
    color_to_id := fun k => if k = c.1 then some (toByte i) else st.color_to_id k
    s := c.2 }

/-- Lines 181 to 208 of `CompressedImage::readFromFile`: width, height and `pow` are read,
both tables are cleared and `2 ^ pow` colors are read into them, the grid is resized and
the indices are read.  The flag is false when the index loop executes `return false`. -/
def CompressedImage.readFields (img : CompressedImage) (s : IStream) (indet : Byte) :
    Bool × CompressedImage × IStream :=
  let w := s.read (toLE32 img.width)
  let h := w.2.read (toLE32 img.height)
  let width := ofLE32 w.1
  let height := ofLE32 h.1
  let p := h.2.read [indet]
  let pow := (p.1.getD 0 indet).val
  let colorTableSize := 2 ^ pow
  let tables := (List.range colorTableSize).foldl (paletteStep indet)
    { id_to_color := ColorTable.empty, color_to_id := fun _ => none, s := p.2 }
  let blank := List.replicate height (List.replicate width (toByte 0))
  let px := readGrid (readIndex indet) width height blank tables.s
  (px.ok,
   { width := width, height := height, id_to_color := tables.id_to_color
     color_to_id := tables.color_to_id, image_data := px.grid },
   px.s)

/-- The method `CompressedImage::readFromFile` on the content `file` of an opened file;
the result is the returned flag and the image after the call.  Uninitialised local buffers
hold the byte `indet`. -/
def CompressedImage.readFromFile (img : CompressedImage) (file : List Byte) (indet : Byte) :
    Bool × CompressedImage :=
  let format := (IStream.mk file false).read (List.replicate 10 indet)
  if stringNe format.1 CMPRIMAGE then (false, img)
  else
    let version := format.2.read (List.replicate 3 indet)
    if version.1.getD 0 indet ≠ toByte 6 ∨ version.1.getD 1 indet ≠ toByte 6 ∨
        version.1.getD 2 indet ≠ toByte 6 then (false, img)
    else
      let body := img.readFields version.2 indet
      if body.1 = false then (false, body.2.1)
      else
        let trailer := body.2.2.read (List.replicate 10 indet)
        if stringNe trailer.1 CMPRIMGEND then (false, body.2.1)
        else (true, body.2.1)

/-- A 2 by 1 compressed image with the palette black/white under the keys 0 and 1. -/
def cmprSample : CompressedImage :=
  { width := 2, height := 1
    id_to_color := ColorTable.ofList [rgb 0 0 0, rgb 255 255 255]
    color_to_id := fun _ => none
    image_data := [[toByte 1, toByte 0]] }

/-- A 1 by 1 compressed image whose palette has the single key 5. -/
def sparsePaletteImage : CompressedImage :=
  { width := 1, height := 1
    id_to_color := ColorTable.empty.insert (toByte 5) (rgb 9 9 9)
    color_to_id := fun _ => none
    image_data := [[toByte 5]] }

/-! ## `colors.cpp`: `colorToGrayscale`

The function computes in `double`.  Every value that occurs is a non-negative multiple of
`2 ^ (-56)` below `2 ^ 8`, so a real number `v` is represented by the natural number
`v * 2 ^ 56`, and the arithmetic is IEEE-754 binary64 with rounding to nearest, ties to
even, each product and each sum rounded separately. -/

/-- The number of bits by which `n` exceeds 53 significant bits (exact for
`n < 2 ^ (53 + fuel)`). -/
def excessBits : Nat → Nat → Nat
  | 0, _ => 0
  | fuel + 1, n => if n < 2 ^ 53 then 0 else excessBits fuel (n / 2) + 1

/-- Rounding of the real number `n / 2 ^ 56` to the nearest `double` (ties to even): a
number with at most 53 significant bits is a `double`; otherwise the `k` excess low bits
are rounded off.  The values that occur are below `2 ^ 64`. -/
def roundDouble (n : Nat) : Nat :=
  if n < 2 ^ 53 then n
  else
    let k := excessBits 64 n
    let q := n / 2 ^ k
    let rem := n % 2 ^ k
    let q2 := if 2 * rem > 2 ^ k ∨ (2 * rem = 2 ^ k ∧ q % 2 = 1) then q + 1 else q
    q2 * 2 ^ k

/-- The `double` literal `0.299`, that is `5386305154335113 / 2 ^ 54`, times `2 ^ 56`. -/
def DOUBLE_0_299 : Nat := 21545220617340452

/-- The `double` literal `0.587`, that is `2643612981266481 / 2 ^ 52`, times `2 ^ 56`. -/
def DOUBLE_0_587 : Nat := 42297807700263696

/-- The `double` literal `0.114`, that is `8214565720323785 / 2 ^ 56`, times `2 ^ 56`. -/
def DOUBLE_0_114 : Nat := 8214565720323785

/-- The function `std::round` on the non-negative `double` `n / 2 ^ 56`: the nearest
integer, a half rounded away from zero. -/
def stdRound (n : Nat) : Nat :=
  if n % 2 ^ 56 ≥ 2 ^ 55 then n / 2 ^ 56 + 1 else n / 2 ^ 56

/-- The function `colorToGrayscale` of `colors.cpp`. -/
def colorToGrayscale (color : ColorRGB) : Byte :=
  let grayValue :=
    roundDouble
      (roundDouble (roundDouble (DOUBLE_0_299 * color.r.val) +
          roundDouble (DOUBLE_0_587 * color.g.val)) +
        roundDouble (DOUBLE_0_114 * color.b.val))
  toByte (stdRound grayValue)

/-! ## `image_transforms.cpp`: color transforms -/

/-- The per-channel inversion `255 - c` of `negative`. -/
def invertColor (c : ColorRGB) : ColorRGB :=
  ⟨toByte (255 - c.r.val), toByte (255 - c.g.val), toByte (255 - c.b.val)⟩

/-- The function `negative(UncompressedImage&)`. -/
def negative (img : Flat.UncompressedImage) : Flat.UncompressedImage :=
  { img with pixels := img.pixels.map invertColor }

/-- The function `negative(CompressedImage&)`: every value of the color table is
inverted. -/
def negativeCompressed (img : Flat.CompressedImage) : Flat.CompressedImage :=
  { img with colorTable := ⟨fun id => (img.colorTable.find id).map invertColor⟩ }

/-- The assignment `pixel.r = pixel.g = pixel.b = gray` with `gray = colorToGrayscale(pixel)`. -/
def grayColor (c : ColorRGB) : ColorRGB :=
  ⟨colorToGrayscale c, colorToGrayscale c, colorToGrayscale c⟩

/-- The function `toGrayscale(UncompressedImage&)`. -/
def toGrayscale (img : Flat.UncompressedImage) : Flat.UncompressedImage :=
  if img.grayscale then img
  else { img with pixels := img.pixels.map grayColor, grayscale := true }

/-- The function `toGrayscale(CompressedImage&)`: every value of the color table is
replaced by its gray color. -/
def toGrayscaleCompressed (img : Flat.CompressedImage) : Flat.CompressedImage :=
  { img with colorTable := ⟨fun id => (img.colorTable.find id).map grayColor⟩ }

/-! ## `images.cpp`: `setPixel` -/

/-- The method `UncompressedImage::setPixel`. -/
def UncompressedImage.setPixel (img : UncompressedImage) (x y : Nat) (color : ColorRGB) :
    UncompressedImage :=
  if x ≥ img.width ∨ y ≥ img.height then img
  else { img with image_data := setAt img.image_data x y color }

/-- The method `CompressedImage::setPixel`. -/
def CompressedImage.setPixel (img : CompressedImage) (x y : Nat) (color_id : Byte) :
    CompressedImage :=
  if x ≥ img.width ∨ y ≥ img.height then img
  else { img with image_data := setAt img.image_data x y color_id }

/-- The grid entry `image_data[y][x]`, when the position exists. -/
def entryAt {α : Type} (grid : List (List α)) (x y : Nat) : Option α :=
  (grid[y]?).bind (fun row => row[x]?)

/-- The grid of an `UncompressedImage` matches its dimensions: `height` rows of `width`
pixels. -/
def UncompressedImage.GridOK (img : UncompressedImage) : Prop :=
  img.image_data.length = img.height ∧ ∀ row ∈ img.image_data, row.length = img.width

/-- The grid of a `CompressedImage` matches its dimensions: `height` rows of `width`
indices. -/
def CompressedImage.GridOK (img : CompressedImage) : Prop :=
  img.image_data.length = img.height ∧ ∀ row ∈ img.image_data, row.length = img.width

instance (img : UncompressedImage) : Decidable img.GridOK := by
  unfold UncompressedImage.GridOK
  exact inferInstance

instance (img : CompressedImage) : Decidable img.GridOK := by
  unfold CompressedImage.GridOK
  exact inferInstance

/-! ## `images.cpp`: the decoders in stages -/

/-- Lines 78 to 87 of `UncompressedImage::readFromFile`: the end signature is read and
compared; `body` is the image and the stream after the pixel loops. -/
def UncompressedImage.checkTrailer (body : UncompressedImage × IStream) (indet : Byte) :
    Bool × UncompressedImage :=
  let trailer := body.2.read (List.replicate 10 indet)
  if stringNe trailer.1 RAWIMGEND then (false, body.1)
  else (true, body.1)

/-- Lines 45 to 87 of `UncompressedImage::readFromFile`: everything after the magic
comparison. -/
def UncompressedImage.readAfterMagic (img : UncompressedImage) (s : IStream) (indet : Byte) :
    Bool × UncompressedImage :=
  let version := s.read (List.replicate 3 indet)
  if version.1.getD 0 indet ≠ toByte 1 ∨ version.1.getD 1 indet ≠ toByte 0 ∨
      version.1.getD 2 indet ≠ toByte 0 then (false, img)
  else UncompressedImage.checkTrailer (img.readFields version.2 indet) indet

/-- Lines 210 to 219 of `CompressedImage::readFromFile`: the end signature is read and
compared; `body` is the image and the stream after the index loops. -/
def CompressedImage.checkTrailer (body : CompressedImage × IStream) (indet : Byte) :
    Bool × CompressedImage :=
  let trailer := body.2.read (List.replicate 10 indet)
  if stringNe trailer.1 CMPRIMGEND then (false, body.1)
  else (true, body.1)

/-- Lines 174 to 219 of `CompressedImage::readFromFile`: everything after the magic
comparison. -/
def CompressedImage.readAfterMagic (img : CompressedImage) (s : IStream) (indet : Byte) :
    Bool × CompressedImage :=
  let version := s.read (List.replicate 3 indet)
  if version.1.getD 0 indet ≠ toByte 6 ∨ version.1.getD 1 indet ≠ toByte 6 ∨
      version.1.getD 2 indet ≠ toByte 6 then (false, img)
  else
    let body := img.readFields version.2 indet
    if body.1 = false then (false, body.2.1)
    else CompressedImage.checkTrailer body.2 indet

/-- The bytes that `UncompressedImage::writeToFile` emits between the version and the end
signature: width, height, flag and pixel data. -/
def UncompressedImage.encodedFields (img : UncompressedImage) : List Byte :=
  toLE32 img.width ++ toLE32 img.height ++
    [if img.is_grayscale then toByte 1 else toByte 0] ++
    (if img.is_grayscale then
      img.image_data.flatMap (fun row => row.flatMap (fun pixel => [pixel.r]))
    else
      img.image_data.flatMap (fun row => row.flatMap (fun pixel => [pixel.r, pixel.g, pixel.b])))

/-- The bytes of a CMPRIMAGE stream between the version and the end signature for the
given width, height, `pow` byte, palette colors and index grid. -/
def cmprFields (width height : Nat) (pow : Byte) (colors : List ColorRGB)
    (grid : List (List Byte)) : List Byte :=
  toLE32 width ++ toLE32 height ++ [pow] ++ colors.flatMap (fun c => [c.r, c.g, c.b]) ++
    grid.flatMap (fun row => row.flatMap (fun color_id => [color_id]))

/-- A 1 by 1 compressed image with three palette entries under the keys 0, 1, 2. -/
def threeColorImage : CompressedImage :=
  { width := 1, height := 1
    id_to_color := ColorTable.ofList [rgb 1 1 1, rgb 2 2 2, rgb 3 3 3]
    color_to_id := fun _ => none
    image_data := [[toByte 2]] }

/-! ## `image_transforms.cpp`: `applyKernel` -/

/-- Conversion of an integer value to `int` (32 bits, two's complement); signed arithmetic
of the sources is written with this wrap-around. -/
def toInt32 (z : Int) : Int := (z + 2147483648) % 4294967296 - 2147483648

/-- The function `std::clamp(v, lo, hi)`. -/
def clampInt (v lo hi : Int) : Int := if v < lo then lo else if hi < v then hi else v

/-- The validation test of `applyKernel`:
`kernel.empty() || kernel.size() != kernel[0].size() || kernel.size() % 2 == 0`. -/
def kernelRejected (kernel : List (List Int)) : Bool :=
  kernel.isEmpty || decide (kernel.length ≠ (kernel.headD []).length) ||
    decide (kernel.length % 2 = 0)

/-- The accumulators `sum_r`, `sum_g`, `sum_b` of `applyKernel`. -/
structure ChannelSums where
  sum_r : Int
  sum_g : Int
  sum_b : Int
deriving DecidableEq

/-- The body of the two inner loops of `applyKernel` for the kernel position `(kx, ky)` at
the pixel `(x, y)`; `none` when the body reads outside `original_pixels` or outside the
kernel. -/
def kernelCell (img : Flat.UncompressedImage) (kernel : List (List Int)) (offset : Int)
    (x y : Nat) (sums : Option ChannelSums) (ky kx : Nat) : Option ChannelSums :=
  match sums with
  | none => none
  | some s =>
    let ix := clampInt (toInt32 ((x : Int) + (kx : Int) - offset)) 0
      (toInt32 (toInt32 (img.width : Int) - 1))
    let iy := clampInt (toInt32 ((y : Int) + (ky : Int) - offset)) 0
      (toInt32 (toInt32 (img.height : Int) - 1))
    match img.pixels[((iy * (img.width : Int) + ix) % (U32 : Int)).toNat]?,
        (kernel[ky]?).bind (fun row => row[kx]?) with
    | some p, some k =>
      some { sum_r := toInt32 (s.sum_r + (p.r.val : Int) * k)
             sum_g := toInt32 (s.sum_g + (p.g.val : Int) * k)
             sum_b := toInt32 (s.sum_b + (p.b.val : Int) * k) }
    | _, _ => none

/-- The two inner loops of `applyKernel` at the pixel `(x, y)`. -/
def kernelSums (img : Flat.UncompressedImage) (kernel : List (List Int)) (x y : Nat) :
    Option ChannelSums :=
  (List.range kernel.length).foldl (fun sums ky =>
    (List.range kernel.length).foldl (fun sums kx =>
      kernelCell img kernel (toInt32 (kernel.length : Int) / 2) x y sums ky kx) sums)
    (some { sum_r := 0, sum_g := 0, sum_b := 0 })

/-- The division `sum / divisor` of two `int` values: `none` when the division traps, which
it does for the divisor 0 and for `INT_MIN / -1`, whose quotient is not an `int`;
otherwise the quotient truncated toward zero. -/
def divInt32 (sum divisor : Int) : Option Int :=
  if divisor = 0 then none
  else if sum = -2147483648 ∧ divisor = -1 then none
  else some (Int.tdiv sum divisor)

/-- The pixel stored by `applyKernel`: each sum divided by `divisor` (truncating), clamped
to `0 .. 255` and converted to `uint8_t`; `none` when one of the three divisions traps. -/
def kernelPixel (s : ChannelSums) (divisor : Int) : Option Pixel :=
  match divInt32 s.sum_r divisor, divInt32 s.sum_g divisor, divInt32 s.sum_b divisor with
  | some r, some g, some b =>
    some ⟨toByte (clampInt r 0 255).toNat, toByte (clampInt g 0 255).toNat,
      toByte (clampInt b 0 255).toNat⟩
  | _, _, _ => none

/-- The body of the two outer loops of `applyKernel`; `none` when the run reads or writes
outside a vector or a division `sum / divisor` traps (divisor 0, or `INT_MIN / -1`). -/
def kernelStore (img : Flat.UncompressedImage) (kernel : List (List Int)) (divisor : Int)
    (new_pixels : Option (List Pixel)) (y x : Nat) : Option (List Pixel) :=
  match new_pixels, kernelSums img kernel x y with
  | some buf, some s =>
    match kernelPixel s divisor with
    | some p =>
      if (y * img.width + x) % U32 < buf.length then
        some (buf.set ((y * img.width + x) % U32) p)
      else none
    | none => none
  | _, _ => none

/-- The function `applyKernel` of `image_transforms.cpp`.  The result is `none` when the
run has no defined result: a read or write outside a vector, or a trapping division (by
zero, or `INT_MIN / -1`). -/
def applyKernel (img : Flat.UncompressedImage) (kernel : List (List Int)) (divisor : Int) :
    Option Flat.UncompressedImage :=
  if kernelRejected kernel then some img
  else
    let new_pixels : Option (List Pixel) :=
      some (List.replicate ((img.width * img.height) % U32) (rgb 0 0 0))
    let new_pixels :=
      (List.range img.height).foldl (fun buf y =>
        (List.range img.width).foldl (fun buf x =>
          kernelStore img kernel divisor buf y x) buf) new_pixels
    new_pixels.map (fun px => { img with pixels := px })

/-- A kernel with three rows whose middle row has two entries. -/
def raggedKernel : List (List Int) := [[1, 1, 1], [1, 1], [1, 1, 1]]

/-- A 1 by 1 image with the pixel (128, 0, 0). -/
def redPixelImage : Flat.UncompressedImage :=
  { width := 1, height := 1, grayscale := false, pixels := [rgb 128 0 0] }

/-- A 1 by 1 image with the pixel (255, 255, 255). -/
def whitePixelImage : Flat.UncompressedImage :=
  { width := 1, height := 1, grayscale := false, pixels := [rgb 255 255 255] }

/-- The sharpen kernel of the sources. -/
def sharpenKernel : List (List Int) := [[0, -1, 0], [-1, 5, -1], [0, -1, 0]]

/-- The coordinate `clamp(v, 0, n - 1)` of edge-replicated sampling. -/
def clampCoord (v : Int) (n : Nat) : Nat := (clampInt v 0 ((n : Int) - 1)).toNat

/-- The kernel entry `K[ky][kx]` (0 outside the kernel). -/
def kernelEntry (kernel : List (List Int)) (ky kx : Nat) : Int :=
  (kernel.getD ky []).getD kx 0

/-- The original pixel sampled for the kernel position `(kx, ky)` at the pixel `(x, y)`:
the one at `(clamp(x + kx - m, 0, width - 1), clamp(y + ky - m, 0, height - 1))`. -/
def samplePixel (img : Flat.UncompressedImage) (m x y ky kx : Nat) : Pixel :=
  img.getPixel (clampCoord ((x : Int) + (kx : Int) - (m : Int)) img.width)
    (clampCoord ((y : Int) + (ky : Int) - (m : Int)) img.height)

/-- The weighted sum `S` of the convolution at the pixel `(x, y)` for one channel, over the
integers: the sum over `0 <= ky, kx <= 2m` of `K[ky][kx]` times the channel value of the
original pixel at `(clamp(x + kx - m, 0, width - 1), clamp(y + ky - m, 0, height - 1))`. -/
def weightedSum (img : Flat.UncompressedImage) (kernel : List (List Int)) (m : Nat)
    (channel : Pixel → Byte) (x y : Nat) : Int :=
  ((List.range (2 * m + 1)).map (fun ky =>
    ((List.range (2 * m + 1)).map (fun kx =>
      kernelEntry kernel ky kx * ((channel (samplePixel img m x y ky kx)).val : Int))).sum)).sum

/-- The sum of the absolute values of the kernel entries. -/
def kernelAbsSum (kernel : List (List Int)) : Nat :=
  (kernel.map (fun row => (row.map Int.natAbs).sum)).sum

/-- The accumulators after adding the pixel `p` weighted by `k`, over the integers. -/
def ChannelSums.add (s : ChannelSums) (p : Pixel) (k : Int) : ChannelSums :=
  { sum_r := s.sum_r + (p.r.val : Int) * k
    sum_g := s.sum_g + (p.g.val : Int) * k
    sum_b := s.sum_b + (p.b.val : Int) * k }

/-- The accumulators stay `slack` away from the limits of `int`. -/
def ChannelSums.InRange (s : ChannelSums) (slack : Nat) : Prop :=
  s.sum_r.natAbs + slack < 2147483648 ∧ s.sum_g.natAbs + slack < 2147483648 ∧
    s.sum_b.natAbs + slack < 2147483648

/-- The kernel positions in the order of the two inner loops. -/
def kernelCells (n : Nat) : List (Nat × Nat) :=
  (List.range n).flatMap (fun ky => (List.range n).map (fun kx => (ky, kx)))

/-- The accumulators after the kernel positions `cs`, over the integers. -/
def sumOver (img : Flat.UncompressedImage) (kernel : List (List Int)) (m x y : Nat)
    (cs : List (Nat × Nat)) (s : ChannelSums) : ChannelSums :=
  cs.foldl (fun a c => a.add (samplePixel img m x y c.1 c.2) (kernelEntry kernel c.1 c.2)) s

/-- The pixel that the convolution assigns to `(x, y)`: channel by channel
`clamp(S / d, 0, 255)` with the division truncating toward zero. -/
def convolvedPixel (img : Flat.UncompressedImage) (kernel : List (List Int)) (m : Nat)
    (divisor : Int) (x y : Nat) : Pixel :=
  ⟨toByte (clampInt (Int.tdiv (weightedSum img kernel m (fun p => p.r) x y) divisor) 0 255).toNat,
   toByte (clampInt (Int.tdiv (weightedSum img kernel m (fun p => p.g) x y) divisor) 0 255).toNat,
   toByte (clampInt (Int.tdiv (weightedSum img kernel m (fun p => p.b) x y) divisor) 0 255).toNat⟩

/-- A kernel with three rows whose middle row has four entries. -/
def longRowKernel : List (List Int) := [[0, 0, 0], [0, 0, 0, 1], [0, 0, 0]]

/-! ## `libbmp.cpp` -/

/-- The two bytes of a `uint16_t` in memory (little-endian). -/
def toLE16 (n : Nat) : List Byte := [toByte n, toByte (n / 256)]

/-- The `uint16_t` held by two bytes of memory (little-endian). -/
def ofLE16 (bs : List Byte) : Nat :=
  (bs.getD 0 (toByte 0)).val + 256 * (bs.getD 1 (toByte 0)).val

/-- The four bytes of an `int32_t` in memory (two's complement, little-endian). -/
def toLE32s (z : Int) : List Byte := toLE32 (z % (U32 : Int)).toNat

/-- The `int32_t` held by four bytes of memory. -/
def ofLE32s (bs : List Byte) : Int := toInt32 (ofLE32 bs : Nat)

/-- Modelled from the spec: the declaration of `BMPHeader` lives in `libbmp.h`, which is
not among the sources.  The file header of the bitmap container: magic, total size,
two reserved words and the pixel-data offset, 14 bytes without alignment gaps, the magic
initialised to 0x4D42 and the other fields to 0. -/
structure BMPHeader where
  file_type : Nat
  file_size : Nat
  reserved1 : Nat
  reserved2 : Nat
  offset_data : Nat
deriving DecidableEq

/-- Modelled from the spec: the declaration of `BMPInfoHeader` lives in `libbmp.h`, which
is not among the sources.  The 40-byte info header of the bitmap container; width and
height are signed 32-bit integers. -/
structure BMPInfoHeader where
  size : Nat
  width : Int
  height : Int
  planes : Nat
  bit_count : Nat
  compression : Nat
  size_image : Nat
  x_pixels_per_meter : Int
  y_pixels_per_meter : Int
  colors_used : Nat
  colors_important : Nat
deriving DecidableEq

/-- Modelled from the spec: the declaration of `BMPColorHeader` lives in `libbmp.h`, which
is not among the sources.  The 84-byte color-mask header: four masks, the color space
type and 64 unused bytes. -/
structure BMPColorHeader where
  red_mask : Nat
  green_mask : Nat
  blue_mask : Nat
  alpha_mask : Nat
  color_space_type : Nat
  unused : List Byte
deriving DecidableEq

/-- The object representation of a `BMPHeader` (`sizeof(BMPHeader)` = 14). -/
def BMPHeader.bytes (h : BMPHeader) : List Byte :=
  toLE16 h.file_type ++ toLE32 h.file_size ++ toLE16 h.reserved1 ++ toLE16 h.reserved2 ++
    toLE32 h.offset_data

/-- The `BMPHeader` held by 14 bytes of memory. -/
def BMPHeader.ofBytes (bs : List Byte) : BMPHeader :=
  { file_type := ofLE16 (bs.take 2)
    file_size := ofLE32 ((bs.drop 2).take 4)
    reserved1 := ofLE16 ((bs.drop 6).take 2)
    reserved2 := ofLE16 ((bs.drop 8).take 2)
    offset_data := ofLE32 ((bs.drop 10).take 4) }

/-- The object representation of a `BMPInfoHeader` (`sizeof(BMPInfoHeader)` = 40). -/
def BMPInfoHeader.bytes (h : BMPInfoHeader) : List Byte :=
  toLE32 h.size ++ toLE32s h.width ++ toLE32s h.height ++ toLE16 h.planes ++
    toLE16 h.bit_count ++ toLE32 h.compression ++ toLE32 h.size_image ++
    toLE32s h.x_pixels_per_meter ++ toLE32s h.y_pixels_per_meter ++ toLE32 h.colors_used ++
    toLE32 h.colors_important

/-- The `BMPInfoHeader` held by 40 bytes of memory. -/
def BMPInfoHeader.ofBytes (bs : List Byte) : BMPInfoHeader :=
  { size := ofLE32 (bs.take 4)
    width := ofLE32s ((bs.drop 4).take 4)
    height := ofLE32s ((bs.drop 8).take 4)
    planes := ofLE16 ((bs.drop 12).take 2)
    bit_count := ofLE16 ((bs.drop 14).take 2)
    compression := ofLE32 ((bs.drop 16).take 4)
    size_image := ofLE32 ((bs.drop 20).take 4)
    x_pixels_per_meter := ofLE32s ((bs.drop 24).take 4)
    y_pixels_per_meter := ofLE32s ((bs.drop 28).take 4)
    colors_used := ofLE32 ((bs.drop 32).take 4)
    colors_important := ofLE32 ((bs.drop 36).take 4) }

/-- The object representation of a `BMPColorHeader` (`sizeof(BMPColorHeader)` = 84). -/
def BMPColorHeader.bytes (h : BMPColorHeader) : List Byte :=
  toLE32 h.red_mask ++ toLE32 h.green_mask ++ toLE32 h.blue_mask ++ toLE32 h.alpha_mask ++
    toLE32 h.color_space_type ++
    (h.unused.take 64 ++ List.replicate (64 - h.unused.length) (toByte 0))

/-- The `BMPColorHeader` held by 84 bytes of memory. -/
def BMPColorHeader.ofBytes (bs : List Byte) : BMPColorHeader :=
  { red_mask := ofLE32 (bs.take 4)
    green_mask := ofLE32 ((bs.drop 4).take 4)
    blue_mask := ofLE32 ((bs.drop 8).take 4)
    alpha_mask := ofLE32 ((bs.drop 12).take 4)
    color_space_type := ofLE32 ((bs.drop 16).take 4)
    unused := (bs.drop 20).take 64 }

/-- Modelled from the spec: the declaration of the class `BMP` lives in `libbmp.h`, which
is not among the sources.  The members used by `libbmp.cpp`: the three headers, the
`uint32_t row_stride` and the byte vector `data`. -/
structure BMP where
  file_header : BMPHeader
  bmp_info_header : BMPInfoHeader
  bmp_color_header : BMPColorHeader
  row_stride : Nat
  data : List Byte
deriving DecidableEq

/-- Modelled from the spec: the state of a `BMP` object before the body of a constructor
runs, given by the member initialisers of `libbmp.h` (magic 0x4D42, everything else
zero or empty). -/
def BMP.initial : BMP :=
  { file_header :=
      { file_type := 19778, file_size := 0, reserved1 := 0, reserved2 := 0, offset_data := 0 }
    bmp_info_header :=
      { size := 0, width := 0, height := 0, planes := 1, bit_count := 0, compression := 0
        size_image := 0, x_pixels_per_meter := 0, y_pixels_per_meter := 0, colors_used := 0
        colors_important := 0 }
    bmp_color_header :=
      { red_mask := 0, green_mask := 0, blue_mask := 0, alpha_mask := 0
        color_space_type := 0, unused := List.replicate 64 (toByte 0) }
    row_stride := 0
    data := [] }

/-- The call `data.resize(n, 0)`. -/
def resizeBytes (data : List Byte) (n : Nat) : List Byte :=
  data.take n ++ List.replicate (n - data.length) (toByte 0)

/-- The function `std::abs` on `int`. -/
def absInt32 (z : Int) : Int := if z < 0 then toInt32 (-z) else z

/-- The expression `width * bit_count / 8` in `int`, converted to `uint32_t`. -/
def strideOf (width : Int) (bit_count : Nat) : Nat :=
  ((Int.tdiv (toInt32 (width * (bit_count : Int))) 8) % (U32 : Int)).toNat

/-- The constructor `BMP::BMP(int width, int height, bool has_alpha)`; `none` when it
throws. -/
def BMP.create (width height : Int) (has_alpha : Bool) : Option BMP :=
  if width ≤ 0 ∨ height = 0 then none
  else
    let bit_count := if has_alpha then 32 else 24
    let info : BMPInfoHeader :=
      { size := 40, width := width, height := height, planes := 1, bit_count := bit_count
        compression := if has_alpha then 3 else 0, size_image := 0
        x_pixels_per_meter := 0, y_pixels_per_meter := 0, colors_used := 0
        colors_important := 0 }
    let color : BMPColorHeader :=
      if has_alpha then
        { BMP.initial.bmp_color_header with
          red_mask := 16711680, green_mask := 65280, blue_mask := 255
          alpha_mask := 4278190080, color_space_type := 1934772034 }
      else BMP.initial.bmp_color_header
    let offset_data := if has_alpha then (14 + 40 + 84) % U32 else 14 + 40
    let info := if has_alpha then { info with size := (40 + 84) % U32 } else info
    let row_stride := strideOf width bit_count
    let data := resizeBytes BMP.initial.data
      (((row_stride : Int) * absInt32 info.height) % (U32 : Int)).toNat
    some
      { file_header :=
          { BMP.initial.file_header with
            offset_data := offset_data, file_size := (offset_data + data.length) % U32 }
        bmp_info_header := info
        bmp_color_header := color
        row_stride := row_stride
        data := data }

/-- The loop of `make_stride_aligned`; the counter bounds the number of iterations. -/
def strideLoop (align_stride : Nat) : Nat → Nat → Nat
  | 0, new_stride => new_stride
  | fuel + 1, new_stride =>
    if new_stride % align_stride ≠ 0 then strideLoop align_stride fuel ((new_stride + 1) % U32)
    else new_stride

/-- The function `BMP::make_stride_aligned`.  From any start the loop reaches a multiple
of `align_stride` (possibly 0 after wrap-around) in fewer than `align_stride` steps. -/
def BMP.make_stride_aligned (self : BMP) (align_stride : Nat) : Nat :=
  strideLoop align_stride align_stride self.row_stride

/-- The call `inp.ignore(n)`. -/
def IStream.ignore (s : IStream) (n : Nat) : IStream :=
  if s.fail then s else { s with data := s.data.drop n }

/-- The row index `is_bottom_up ? (height - 1 - y) : y` times `row_stride`, in
`uint32_t`: the offset into `data` of the row handled at step `y`. -/
def rowOffset (height : Int) (row_stride : Nat) (is_bottom_up : Bool) (y : Nat) : Nat :=
  let row : Int := if is_bottom_up then toInt32 (toInt32 (height - 1) - (y : Int)) else (y : Int)
  ((row * (row_stride : Int)) % (U32 : Int)).toNat

/-- The body of the row loop of `BMP::read`; `none` when the row lies outside `data`. -/
def BMP.readRow (height : Int) (row_stride : Nat) (is_bottom_up : Bool) (padding : Nat)
    (st : Option (List Byte × IStream)) (y : Nat) : Option (List Byte × IStream) :=
  st.bind (fun st =>
    let off := rowOffset height row_stride is_bottom_up y
    if off + row_stride ≤ st.1.length then
      let r := st.2.read ((st.1.drop off).take row_stride)
      some (st.1.take off ++ r.1 ++ st.1.drop (off + row_stride),
        if padding > 0 then r.2.ignore padding else r.2)
    else none)

/-- The part of `BMP::read` after the two headers are read: the color header for 32-bit
images, the row order, the stride, and the row loop.  `inp` is the stream after the info
header. -/
def BMP.readPixels (self : BMP) (file_header : BMPHeader) (info : BMPInfoHeader)
    (inp : IStream) : Option BMP :=
  let has_alpha := decide (info.bit_count = 32)
  if has_alpha = true ∧ info.size < 40 + 84 then none
  else
    let r3 :=
      if has_alpha then inp.read self.bmp_color_header.bytes
      else (self.bmp_color_header.bytes, inp)
    let color := BMPColorHeader.ofBytes r3.1
    let is_bottom_up := decide (¬ info.height < 0)
    let info := if info.height < 0 then { info with height := absInt32 info.height } else info
    let row_stride := strideOf info.width info.bit_count
    let new_stride := strideLoop 4 4 row_stride
    let padding := (new_stride + U32 - row_stride) % U32
    let data := resizeBytes self.data
      (((row_stride : Int) * info.height) % (U32 : Int)).toNat
    let rows := (List.range info.height.toNat).foldl
      (BMP.readRow info.height row_stride is_bottom_up padding) (some (data, r3.2))
    rows.map (fun st =>
      { file_header :=
          { file_header with
            file_size := (((file_header.offset_data : Int) + (row_stride : Int) * info.height +
              (padding : Int) * info.height) % (U32 : Int)).toNat }
        bmp_info_header := info
        bmp_color_header := color
        row_stride := row_stride
        data := st.1 })

/-- The function `BMP::read` on the content `file` of the opened file; `none` when it
throws or accesses `data` outside its bounds. -/
def BMP.read (self : BMP) (file : List Byte) : Option BMP :=
  let inp : IStream := { data := file, fail := false }
  let r1 := inp.read self.file_header.bytes
  let file_header := BMPHeader.ofBytes r1.1
  if file_header.file_type ≠ 19778 then none
  else
    let r2 := r1.2.read self.bmp_info_header.bytes
    self.readPixels file_header (BMPInfoHeader.ofBytes r2.1) r2.2

/-- The function `BMP::write_headers`. -/
def BMP.write_headers (self : BMP) : List Byte :=
  self.file_header.bytes ++ self.bmp_info_header.bytes ++
    (if self.bmp_info_header.bit_count = 32 then self.bmp_color_header.bytes else [])

/-- The body of the row loop of `BMP::write`; `none` when the row lies outside `data`. -/
def BMP.writeRow (self : BMP) (is_bottom_up : Bool) (padding : Nat)
    (out : Option (List Byte)) (y : Nat) : Option (List Byte) :=
  out.bind (fun out =>
    let off := rowOffset self.bmp_info_header.height self.row_stride is_bottom_up y
    if off + self.row_stride ≤ self.data.length then
      some (out ++ (self.data.drop off).take self.row_stride ++
        (if padding > 0 then List.replicate padding (toByte 0) else []))
    else none)

/-- The function `BMP::write`: the bytes of the written file and the object afterwards
(its `file_size` is updated); `none` when a row lies outside `data`. -/
def BMP.write (self : BMP) : Option (List Byte × BMP) :=
  let out := self.write_headers
  let new_stride := self.make_stride_aligned 4
  let padding := (new_stride + U32 - self.row_stride) % U32
  let is_bottom_up := decide (self.bmp_info_header.height > 0)
  let out := (List.range self.bmp_info_header.height.toNat).foldl
    (self.writeRow is_bottom_up padding) (some out)
  let file_size := (((self.file_header.offset_data : Int) +
    (self.row_stride : Int) * self.bmp_info_header.height +
    (padding : Int) * self.bmp_info_header.height) % (U32 : Int)).toNat
  out.map (fun out =>
    (out.take 2 ++ toLE32 file_size ++ out.drop 6,
      { self with file_header := { self.file_header with file_size := file_size } }))

/-- The test of the pixel accessors that throws `std::out_of_range`. -/
def BMP.outOfBounds (self : BMP) (x y : Int) : Bool :=
  decide (x < 0) || decide (y < 0) || decide (x ≥ self.bmp_info_header.width) ||
    decide (y ≥ absInt32 self.bmp_info_header.height)

/-- The index `y * row_stride + x * channels` of the pixel accessors, in `uint32_t`. -/
def BMP.pixelIndex (self : BMP) (x y : Int) : Nat :=
  ((y * (self.row_stride : Int) + x * ((self.bmp_info_header.bit_count / 8 : Nat) : Int)) %
    (U32 : Int)).toNat

/-- The three-channel `BMP::set_pixel`; `none` when it throws or writes outside `data`. -/
def BMP.set_pixel (self : BMP) (x y : Int) (r g b : Byte) : Option BMP :=
  if self.outOfBounds x y then none
  else
    let index := self.pixelIndex x y
    if index < self.data.length ∧ (index + 1) % U32 < self.data.length ∧
        (index + 2) % U32 < self.data.length then
      some { self with
        data := ((self.data.set index b).set ((index + 1) % U32) g).set ((index + 2) % U32) r }
    else none

/-- The three-channel `BMP::get_pixel`, returning `(r, g, b)`; `none` when it throws or
reads outside `data`. -/
def BMP.get_pixel (self : BMP) (x y : Int) : Option (Byte × Byte × Byte) :=
  if self.outOfBounds x y then none
  else
    let index := self.pixelIndex x y
    (self.data[index]?).bind (fun b =>
      (self.data[(index + 1) % U32]?).bind (fun g =>
        (self.data[(index + 2) % U32]?).map (fun r => (r, g, b))))

/-- The function `BMP::get_width`. -/
def BMP.get_width (self : BMP) : Int := self.bmp_info_header.width

/-- The function `BMP::get_height`. -/
def BMP.get_height (self : BMP) : Int := self.bmp_info_header.height

/-- The 2 by 2 image with the pixels (255,0,0), (0,255,0) in row 0 and (0,0,255),
(255,255,255) in row 1, as the constructor and four calls of `set_pixel` build it. -/
def bmp2x2 : Option BMP :=
  (BMP.create 2 2 false).bind (fun b0 =>
    (b0.set_pixel 0 0 (toByte 255) (toByte 0) (toByte 0)).bind (fun b1 =>
      (b1.set_pixel 1 0 (toByte 0) (toByte 255) (toByte 0)).bind (fun b2 =>
        (b2.set_pixel 0 1 (toByte 0) (toByte 0) (toByte 255)).bind (fun b3 =>
          b3.set_pixel 1 1 (toByte 255) (toByte 255) (toByte 255)))))

/-- The object that `bmp2x2` evaluates to. -/
def bmp2x2Object : BMP :=
  { file_header :=
      { file_type := 19778, file_size := 66, reserved1 := 0, reserved2 := 0, offset_data := 54 }
    bmp_info_header :=
      { size := 40, width := 2, height := 2, planes := 1, bit_count := 24, compression := 0
        size_image := 0, x_pixels_per_meter := 0, y_pixels_per_meter := 0, colors_used := 0
        colors_important := 0 }
    bmp_color_header := BMP.initial.bmp_color_header
    row_stride := 6
    data := [0, 0, 255, 0, 255, 0, 255, 0, 0, 255, 255, 255].map toByte }

/-- The bytes stored in the file for the step `y` of the row loop of a bottom-up image of
`H` rows: the row `H - 1 - y` of `data` followed by `pad` zero bytes. -/
def storedRow (data : List Byte) (H S pad y : Nat) : List Byte :=
  (data.drop ((H - 1 - y) * S)).take S ++ List.replicate pad (toByte 0)

/-! ## `images.cpp`: the constructor and the setters of `UncompressedImage` -/

/-- The constructor `UncompressedImage(w, h, gray)`: `h` rows of `w` black pixels. -/
def UncompressedImage.create (w h : Nat) (gray : Bool) : UncompressedImage :=
  { width := w, height := h, is_grayscale := gray
    image_data := List.replicate h (List.replicate w (rgb 0 0 0)) }

/-- The method `UncompressedImage::setWidth`. -/
def UncompressedImage.setWidth (img : UncompressedImage) (w : Nat) : UncompressedImage :=
  { img with width := w }

/-- The method `UncompressedImage::setHeight`. -/
def UncompressedImage.setHeight (img : UncompressedImage) (h : Nat) : UncompressedImage :=
  { img with height := h }

/-- The method `UncompressedImage::setIsGrayscale`. -/
def UncompressedImage.setIsGrayscale (img : UncompressedImage) (gray : Bool) :
    UncompressedImage :=
  { img with is_grayscale := gray }

/-- The method `UncompressedImage::setImageData`. -/
def UncompressedImage.setImageData (img : UncompressedImage) (data : List (List ColorRGB)) :
    UncompressedImage :=
  { img with image_data := data }

/-! ## `colors.cpp`: `colorDistanceSq` in 64-bit arithmetic -/

/-- Conversion of an integer value to `int64_t` (64 bits, two's complement). -/
def toInt64 (z : Int) : Int :=
  (z + 9223372036854775808) % 18446744073709551616 - 9223372036854775808

/-- The function `colorDistanceSq` of `colors.cpp` with every `int64_t` operation reduced
to 64 bits: the three subtractions, the three products and the two additions. -/
def colorDistanceSq64 (color1 color2 : ColorRGB) : Int :=
  let dr := toInt64 (toInt64 (color1.r.val : Int) - toInt64 (color2.r.val : Int))
  let dg := toInt64 (toInt64 (color1.g.val : Int) - toInt64 (color2.g.val : Int))
  let db := toInt64 (toInt64 (color1.b.val : Int) - toInt64 (color2.b.val : Int))
  toInt64 (toInt64 (toInt64 (dr * dr) + toInt64 (dg * dg)) + toInt64 (db * db))

/-! ## `images.cpp`: `matchUncompressedImages` -/

/-- The body of the pixel loops of `matchUncompressedImages` at `(x, y)`; the state is
`none` once a grid has been read outside its bounds, `some false` once the function has
returned `false`. -/
def matchStep (img1 img2 : UncompressedImage) (y : Nat) (st : Option Bool) (x : Nat) :
    Option Bool :=
  st.bind (fun ok =>
    if ok then
      (entryAt img1.image_data x y).bind (fun color1 =>
        (entryAt img2.image_data x y).map (fun color2 => decide (color1 = color2)))
    else some false)

/-- The function `matchUncompressedImages` of `images.cpp` (the messages of the verbose
mode left out); `none` when a grid is read outside its bounds. -/
def matchUncompressedImages (img1 img2 : UncompressedImage) : Option Bool :=
  if img1.width ≠ img2.width ∨ img1.height ≠ img2.height then some false
  else if img1.is_grayscale ≠ img2.is_grayscale then some false
  else
    (List.range img1.height).foldl (fun st y =>
      (List.range img1.width).foldl (matchStep img1 img2 y) st) (some true)

/-- A 2 by 1 image with the grayscale flag set and the gray pixels (7,7,7), (200,200,200). -/
def graySample : UncompressedImage :=
  { width := 2, height := 1, is_grayscale := true
    image_data := [[rgb 7 7 7, rgb 200 200 200]] }

/-! ## `image_transforms.cpp`: the filters built on `applyKernel` -/

/-- The function `sharpen`: `applyKernel` with the sharpen kernel and the divisor 1. -/
def sharpen (img : Flat.UncompressedImage) : Option Flat.UncompressedImage :=
  applyKernel img sharpenKernel 1

/-- The kernel of `gaussianBlurApprox` for `hard_blur == false`. -/
def gaussianKernel : List (List Int) := [[1, 2, 1], [2, 4, 2], [1, 2, 1]]

/-- The kernel of `gaussianBlurApprox` for `hard_blur == true`. -/
def boxKernel : List (List Int) := [[1, 1, 1], [1, 1, 1], [1, 1, 1]]

/-- The function `gaussianBlurApprox`: the kernel and the divisor depend on `hard_blur`. -/
def gaussianBlurApprox (img : Flat.UncompressedImage) (hard_blur : Bool) :
    Option Flat.UncompressedImage :=
  if !hard_blur then applyKernel img gaussianKernel 16
  else applyKernel img boxKernel 9

/-- The kernel of `edgeDetect`. -/
def edgeKernel : List (List Int) := [[-1, -1, -1], [-1, 8, -1], [-1, -1, -1]]

/-- The function `edgeDetect`: `applyKernel` with the edge kernel and the divisor 1. -/
def edgeDetect (img : Flat.UncompressedImage) : Option Flat.UncompressedImage :=
  applyKernel img edgeKernel 1

/-- The sum of all entries of a kernel of side `n`. -/
def kernelEntrySum (kernel : List (List Int)) (n : Nat) : Int :=
  ((List.range n).map (fun ky => ((List.range n).map (fun kx => kernelEntry kernel ky kx)).sum)).sum

/-- A 2 by 2 image whose four pixels are (10, 20, 30). -/
def uniformImage : Flat.UncompressedImage :=
  { width := 2, height := 2, grayscale := false
    pixels := [rgb 10 20 30, rgb 10 20 30, rgb 10 20 30, rgb 10 20 30] }

/-- Every step of the inner loops of `applyKernel`, at a pixel of the image and a position
of a kernel of side `2m + 1`, reads in bounds and adds the sampled pixel weighted by the
kernel entry to the accumulators (each wrapped to `int`). -/
def CellsExact (img : Flat.UncompressedImage) (kernel : List (List Int)) (m : Nat) : Prop :=
  ∀ (x y ky kx : Nat) (s : ChannelSums), x < img.width → y < img.height →
    ky < 2 * m + 1 → kx < 2 * m + 1 →
    kernelCell img kernel (m : Int) x y (some s) ky kx =
      some
        { sum_r := toInt32 ((s.add (samplePixel img m x y ky kx) (kernelEntry kernel ky kx)).sum_r)
          sum_g := toInt32 ((s.add (samplePixel img m x y ky kx) (kernelEntry kernel ky kx)).sum_g)
          sum_b := toInt32 ((s.add (samplePixel img m x y ky kx) (kernelEntry kernel ky kx)).sum_b) }

/-! # Theorems -/

/-! ## Lemmas on color tables -/

theorem ColorTable.mem_entries (t : ColorTable) (k : Byte) (c : ColorRGB) :
    (k, c) ∈ t.entries ↔ t.find k = some c := by
  unfold ColorTable.entries
  simp only [List.mem_filterMap, Option.map_eq_some', Prod.mk.injEq]
  constructor
  · rintro ⟨a, -, c0, h, rfl, rfl⟩
    exact h
  · intro h
    exact ⟨k, List.mem_finRange k, c, h, rfl, rfl⟩

theorem ColorTable.entries_sorted (t : ColorTable) :
    t.entries.Pairwise (fun a b => a.1 < b.1) := by
  unfold ColorTable.entries
  refine List.Pairwise.filterMap _ ?_ (List.pairwise_lt_finRange 256)
  intro a a2 hlt b hb b2 hb2
  simp only [Option.mem_def, Option.map_eq_some'] at hb hb2
  obtain ⟨_, _, rfl⟩ := hb
  obtain ⟨_, _, rfl⟩ := hb2
  exact hlt

theorem ColorTable.isEmpty_eq_false_iff (t : ColorTable) :
    t.isEmpty = false ↔ ∃ k c, t.find k = some c := by
  unfold ColorTable.isEmpty
  constructor
  · intro h
    cases hl : t.entries with
    | nil => simp [hl] at h
    | cons e l =>
      refine ⟨e.1, e.2, (t.mem_entries e.1 e.2).1 ?_⟩
      simp [hl]
  · rintro ⟨k, c, h⟩
    have hm := (t.mem_entries k c).2 h
    cases hl : t.entries with
    | nil => simp [hl] at hm
    | cons e l => rfl

theorem colorDistanceSq_nonneg (a b : ColorRGB) : 0 ≤ colorDistanceSq a b := by
  unfold colorDistanceSq
  exact add_nonneg (add_nonneg (mul_self_nonneg _) (mul_self_nonneg _)) (mul_self_nonneg _)

theorem colorDistanceSq_le (a b : ColorRGB) : colorDistanceSq a b ≤ 195075 := by
  unfold colorDistanceSq
  have h1 := a.r.isLt
  have h2 := a.g.isLt
  have h3 := a.b.isLt
  have h4 := b.r.isLt
  have h5 := b.g.isLt
  have h6 := b.b.isLt
  simp only
  have sq : ∀ x y : Nat, x < 256 → y < 256 →
      ((x : Int) - (y : Int)) * ((x : Int) - (y : Int)) ≤ 65025 := by
    intro x y hx hy
    have ha : ((x : Int) - (y : Int)) ≤ 255 := by omega
    have hb : -255 ≤ ((x : Int) - (y : Int)) := by omega
    nlinarith
  have := sq _ _ h1 h4
  have := sq _ _ h2 h5
  have := sq _ _ h3 h6
  omega

theorem colorDistanceSq_eq_zero (a b : ColorRGB) : colorDistanceSq a b = 0 ↔ a = b := by
  constructor
  · intro h
    unfold colorDistanceSq at h
    simp only at h
    have hr : ((a.r.val : Int) - (b.r.val : Int)) = 0 := by nlinarith [sq_nonneg ((a.r.val : Int) - (b.r.val : Int)), sq_nonneg ((a.g.val : Int) - (b.g.val : Int)), sq_nonneg ((a.b.val : Int) - (b.b.val : Int))]
    have hg : ((a.g.val : Int) - (b.g.val : Int)) = 0 := by nlinarith [sq_nonneg ((a.r.val : Int) - (b.r.val : Int)), sq_nonneg ((a.g.val : Int) - (b.g.val : Int)), sq_nonneg ((a.b.val : Int) - (b.b.val : Int))]
    have hb : ((a.b.val : Int) - (b.b.val : Int)) = 0 := by nlinarith [sq_nonneg ((a.r.val : Int) - (b.r.val : Int)), sq_nonneg ((a.g.val : Int) - (b.g.val : Int)), sq_nonneg ((a.b.val : Int) - (b.b.val : Int))]
    cases a with
    | mk ar ag ab =>
    cases b with
    | mk br bg bb =>
    simp only [ColorRGB.mk.injEq]
    simp only at hr hg hb
    refine ⟨Fin.ext ?_, Fin.ext ?_, Fin.ext ?_⟩ <;> omega
  · rintro rfl
    unfold colorDistanceSq
    simp

/-- The scan of `findClosestColorId` over a list sorted by key: either nothing beat the
initial state, or the state is the first element of least distance. -/
theorem closest_foldl (color : ColorRGB) :
    ∀ (l : List (Byte × ColorRGB)) (st : Byte × Int),
      l.Pairwise (fun a b => a.1 < b.1) →
      ((l.foldl (closestStep color) st = st ∧ ∀ e ∈ l, st.2 ≤ colorDistanceSq color e.2) ∨
       (∃ c, ((l.foldl (closestStep color) st).1, c) ∈ l ∧
          (l.foldl (closestStep color) st).2 = colorDistanceSq color c ∧
          (l.foldl (closestStep color) st).2 < st.2 ∧
          ∀ e ∈ l, (l.foldl (closestStep color) st).2 ≤ colorDistanceSq color e.2 ∧
            (colorDistanceSq color e.2 = (l.foldl (closestStep color) st).2 →
              (l.foldl (closestStep color) st).1 ≤ e.1))) := by
  intro l
  induction l with
  | nil => intro st _; left; simp
  | cons e t ih =>
    intro st hp
    rw [List.pairwise_cons] at hp
    obtain ⟨hhead, htail⟩ := hp
    simp only [List.foldl_cons]
    by_cases hlt : colorDistanceSq color e.2 < st.2
    · have hstep : closestStep color st e = (e.1, colorDistanceSq color e.2) := by
        simp [closestStep, hlt]
      rw [hstep]
      rcases ih (e.1, colorDistanceSq color e.2) htail with ⟨heq, hall⟩ | ⟨c, hm, hd, hl2, hall⟩
      · right
        rw [heq]
        refine ⟨e.2, List.mem_cons_self _ _, rfl, hlt, ?_⟩
        intro e2 he2
        rcases List.mem_cons.1 he2 with rfl | hmem
        · exact ⟨le_refl _, fun _ => le_refl _⟩
        · exact ⟨hall e2 hmem, fun _ => le_of_lt (hhead e2 hmem)⟩
      · right
        refine ⟨c, List.mem_cons_of_mem _ hm, hd, lt_trans hl2 hlt, ?_⟩
        intro e2 he2
        rcases List.mem_cons.1 he2 with rfl | hmem
        · simp only at hl2
          exact ⟨le_of_lt hl2, fun h => absurd h (ne_of_gt hl2)⟩
        · exact hall e2 hmem
    · have hstep : closestStep color st e = st := by
        simp [closestStep, hlt]
      rw [hstep]
      rcases ih st htail with ⟨heq, hall⟩ | ⟨c, hm, hd, hl2, hall⟩
      · left
        refine ⟨heq, ?_⟩
        intro e2 he2
        rcases List.mem_cons.1 he2 with rfl | hmem
        · exact not_lt.1 hlt
        · exact hall e2 hmem
      · right
        refine ⟨c, List.mem_cons_of_mem _ hm, hd, hl2, ?_⟩
        intro e2 he2
        rcases List.mem_cons.1 he2 with rfl | hmem
        · have : (List.foldl (closestStep color) st t).2 < colorDistanceSq color e2.2 :=
            lt_of_lt_of_le hl2 (not_lt.1 hlt)
          exact ⟨le_of_lt this, fun h => absurd h (ne_of_gt this)⟩
        · exact hall e2 hmem

/-- What `findClosestColorId` returns on a non-empty table. -/
theorem findClosestColorId_spec (color : ColorRGB) (t : ColorTable) (hne : t.isEmpty = false) :
    ∃ ci, t.find (findClosestColorId color t) = some ci ∧
      ∀ j cj, t.find j = some cj →
        colorDistanceSq color ci ≤ colorDistanceSq color cj ∧
        (colorDistanceSq color cj = colorDistanceSq color ci → findClosestColorId color t ≤ j) := by
  unfold findClosestColorId
  rw [hne]
  simp only [Bool.false_eq_true, if_false]
  rcases closest_foldl color t.entries (toByte 0, INT64_MAX) t.entries_sorted with
    ⟨-, hall⟩ | ⟨c, hm, hd, -, hall⟩
  · exfalso
    obtain ⟨k, c, hk⟩ := (t.isEmpty_eq_false_iff).1 hne
    have h1 := hall (k, c) ((t.mem_entries k c).2 hk)
    have h2 := colorDistanceSq_le color c
    simp only [INT64_MAX] at h1
    omega
  · refine ⟨c, (t.mem_entries _ _).1 hm, ?_⟩
    intro j cj hj
    have h := hall (j, cj) ((t.mem_entries j cj).2 hj)
    simp only at h
    rw [hd] at h
    exact h

/-! ## Nearest-color assignment -/

/-- C3: on a non-empty palette `findClosestColorId` returns a key of the palette whose
color is at least squared distance from the given color, and among the keys at that
distance it is the lowest; `toCompressed` keeps a supplied non-empty palette and gives
every pixel exactly this index; on the palette black/white the color (10,10,10) gets
index 0. -/
theorem C3_findClosestColorId_nearest_lowest (color : ColorRGB) (t : ColorTable)
    (img : Flat.UncompressedImage) (approximate allow_color_add : Bool)
    (hne : t.isEmpty = false) :
    (∃ ci, t.find (findClosestColorId color t) = some ci ∧
      ∀ j cj, t.find j = some cj →
        colorDistanceSq color ci ≤ colorDistanceSq color cj ∧
        (colorDistanceSq color cj = colorDistanceSq color ci →
          findClosestColorId color t ≤ j)) ∧
    (toCompressed img t approximate allow_color_add).colorTable = t ∧
    (toCompressed img t approximate allow_color_add).pixelIds =
      img.pixels.map (fun p => findClosestColorId p t) ∧
    findClosestColorId (rgb 10 10 10) blackWhite = toByte 0 := by
  refine ⟨findClosestColorId_spec color t hne, ?_, ?_, by decide⟩
  · simp [toCompressed, hne]
  · simp [toCompressed, hne]

/-- C3 at the palette black/white, the color (10,10,10) and a two-pixel image. -/
theorem C3_findClosestColorId_nearest_lowest_witness :
    blackWhite.isEmpty = false ∧
    (toCompressed sampleImage blackWhite false false).pixelIds =
      sampleImage.pixels.map (fun p => findClosestColorId p blackWhite) :=
  ⟨by decide,
   (C3_findClosestColorId_nearest_lowest (rgb 10 10 10) blackWhite sampleImage false false
      (by decide)).2.2.1⟩

/-- C6: whatever palette `toCompressed` ends up with (supplied or built), a pixel whose
color is the color of some palette entry receives an index whose palette color is exactly
the color of the pixel. -/
theorem C6_exact_match_is_assigned (img : Flat.UncompressedImage) (t : ColorTable)
    (approximate allow_color_add : Bool) (i : Nat) (p : Pixel)
    (hp : img.pixels[i]? = some p)
    (hk : ∃ k, (toCompressed img t approximate allow_color_add).colorTable.find k = some p) :
    ∃ id, (toCompressed img t approximate allow_color_add).pixelIds[i]? = some id ∧
      (toCompressed img t approximate allow_color_add).colorTable.find id = some p := by
  obtain ⟨k, hk⟩ := hk
  have hids : (toCompressed img t approximate allow_color_add).pixelIds =
      img.pixels.map (fun q =>
        findClosestColorId q (toCompressed img t approximate allow_color_add).colorTable) := rfl
  set tbl := (toCompressed img t approximate allow_color_add).colorTable with htbl
  have hne : tbl.isEmpty = false := (tbl.isEmpty_eq_false_iff).2 ⟨k, p, hk⟩
  obtain ⟨ci, hci, hmin⟩ := findClosestColorId_spec p tbl hne
  refine ⟨findClosestColorId p tbl, ?_, ?_⟩
  · rw [hids, List.getElem?_map, hp]
    rfl
  · have h0 := (hmin k p hk).1
    have hpp : colorDistanceSq p p = 0 := (colorDistanceSq_eq_zero p p).2 rfl
    rw [hpp] at h0
    have hz : colorDistanceSq p ci = 0 := le_antisymm h0 (colorDistanceSq_nonneg p ci)
    rw [hci, ← (colorDistanceSq_eq_zero p ci).1 hz]

/-- C6 at the palette black/white and the second pixel (white) of the sample image. -/
theorem C6_exact_match_is_assigned_witness :
    sampleImage.pixels[1]? = some (rgb 255 255 255) ∧
    ∃ id, (toCompressed sampleImage blackWhite false false).pixelIds[1]? = some id ∧
      (toCompressed sampleImage blackWhite false false).colorTable.find id =
        some (rgb 255 255 255) :=
  ⟨by decide,
   C6_exact_match_is_assigned sampleImage blackWhite false false 1 (rgb 255 255 255)
     (by decide) ⟨toByte 1, by decide⟩⟩

/-- C7: `toUncompressed` keeps width and height, produces one pixel per index, and the
pixel at each position is the palette color of the index at that position when the index
is a key of the palette and black (0,0,0) when it is not. -/
theorem C7_toUncompressed_expands (img : Flat.CompressedImage) :
    (toUncompressed img).width = img.width ∧
    (toUncompressed img).height = img.height ∧
    (toUncompressed img).pixels.length = img.pixelIds.length ∧
    ∀ i : Nat, (toUncompressed img).pixels[i]? =
      (img.pixelIds[i]?).map (fun id => (img.colorTable.find id).getD (rgb 0 0 0)) := by
  refine ⟨rfl, rfl, by simp [toUncompressed], ?_⟩
  intro i
  simp only [toUncompressed, List.getElem?_map]
  cases img.pixelIds[i]? with
  | none => rfl
  | some id =>
    simp only [Option.map_some']
    cases img.colorTable.find id <;> rfl

/-! ## The greedy palette builder -/

theorem firstOccurrences_mem (l : List Pixel) (p : Pixel) :
    p ∈ firstOccurrences l ↔ p ∈ l := by
  induction l with
  | nil => simp [firstOccurrences]
  | cons x xs ih =>
    simp only [firstOccurrences, List.mem_cons, List.mem_filter, ih, decide_eq_true_eq]
    by_cases h : p = x <;> simp [h]

theorem firstOccurrences_nodup (l : List Pixel) : (firstOccurrences l).Nodup := by
  induction l with
  | nil => simp [firstOccurrences]
  | cons x xs ih =>
    simp only [firstOccurrences, List.nodup_cons, List.mem_filter, decide_eq_true_eq]
    exact ⟨fun h => h.2 rfl, ih.filter _⟩

theorem firstOccurrences_length (l : List Pixel) :
    (firstOccurrences l).length = l.toFinset.card := by
  rw [← List.toFinset_card_of_nodup (firstOccurrences_nodup l)]
  congr 1
  ext p
  simp [firstOccurrences_mem]

theorem firstOccurrences_order (l : List Pixel) :
    (firstOccurrences l).Pairwise (fun a b => l.indexOf a < l.indexOf b) := by
  induction l with
  | nil => simp [firstOccurrences]
  | cons x xs ih =>
    simp only [firstOccurrences, List.pairwise_cons, List.mem_filter, decide_eq_true_eq]
    constructor
    · rintro a ⟨-, hne⟩
      rw [List.indexOf_cons_self, List.indexOf_cons_ne _ (Ne.symm hne)]
      exact Nat.succ_pos _
    · refine List.Pairwise.imp_of_mem ?_ (ih.sublist (List.filter_sublist _))
      intro a b ha hb hab
      have hax : a ≠ x := by simpa using (List.mem_filter.1 ha).2
      have hbx : b ≠ x := by simpa using (List.mem_filter.1 hb).2
      rw [List.indexOf_cons_ne _ (Ne.symm hax), List.indexOf_cons_ne _ (Ne.symm hbx)]
      exact Nat.succ_lt_succ hab

theorem toByte_val_of_lt (n : Nat) (h : n < 256) : (toByte n).val = n := by
  simp [toByte, Nat.mod_eq_of_lt h]

theorem tableContains_iff (t : ColorTable) (p : Pixel) :
    tableContains t p = true ↔ ∃ k, t.find k = some p := by
  unfold tableContains
  simp only [List.any_eq_true, decide_eq_true_eq]
  constructor
  · rintro ⟨⟨k, c⟩, hm, rfl⟩
    exact ⟨k, (t.mem_entries k c).1 hm⟩
  · rintro ⟨k, hk⟩
    exact ⟨(k, p), (t.mem_entries k p).2 hk, rfl⟩

theorem tableContains_ofList (acc : List Pixel) (p : Pixel) (hlen : acc.length ≤ 256) :
    tableContains (ColorTable.ofList acc) p = true ↔ p ∈ acc := by
  rw [tableContains_iff]
  simp only [ColorTable.ofList]
  constructor
  · rintro ⟨k, hk⟩
    exact List.getElem?_mem hk
  · intro hp
    obtain ⟨i, hi, rfl⟩ := List.getElem_of_mem hp
    refine ⟨⟨i, by omega⟩, ?_⟩
    simp [List.getElem?_eq_getElem hi]

theorem ofList_insert (acc : List Pixel) (p : Pixel) (hlen : acc.length < 256) :
    (ColorTable.ofList acc).insert (toByte acc.length) p = ColorTable.ofList (acc ++ [p]) := by
  ext1
  funext k
  simp only [ColorTable.insert, ColorTable.ofList]
  by_cases hk : k = toByte acc.length
  · subst hk
    rw [if_pos rfl, toByte_val_of_lt _ hlen]
    simp
  · rw [if_neg hk]
    have hne : k.val ≠ acc.length := by
      intro h
      apply hk
      apply Fin.ext
      rw [toByte_val_of_lt _ hlen, h]
    rcases Nat.lt_or_gt_of_ne hne with h | h
    · rw [List.getElem?_append_left h]
    · rw [List.getElem?_eq_none (by omega), List.getElem?_eq_none (by simp; omega)]

/-- Invariant of the palette-building loop while at most 256 colors are assigned: the
table lists the distinct colors seen so far in order of first occurrence. -/
theorem buildStep_foldl (l : List Pixel) :
    ∀ acc : List Pixel,
      acc.length + ((firstOccurrences l).filter (fun q => decide (q ∉ acc))).length ≤ 256 →
      l.foldl buildStep ⟨ColorTable.ofList acc, acc.length % 256, false⟩ =
        ⟨ColorTable.ofList (acc ++ (firstOccurrences l).filter (fun q => decide (q ∉ acc))),
         (acc ++ (firstOccurrences l).filter (fun q => decide (q ∉ acc))).length % 256,
         false⟩ := by
  induction l with
  | nil => intro acc _; simp [firstOccurrences]
  | cons x xs ih =>
    intro acc hlen
    simp only [List.foldl_cons]
    have hacc : acc.length ≤ 256 := by omega
    by_cases hx : x ∈ acc
    · have hstep : buildStep ⟨ColorTable.ofList acc, acc.length % 256, false⟩ x =
          ⟨ColorTable.ofList acc, acc.length % 256, false⟩ := by
        simp [buildStep, (tableContains_ofList acc x hacc).2 hx]
      have hfil : (firstOccurrences (x :: xs)).filter (fun q => decide (q ∉ acc)) =
          (firstOccurrences xs).filter (fun q => decide (q ∉ acc)) := by
        simp only [firstOccurrences, List.filter_cons, hx, not_true_eq_false, decide_False,
          Bool.false_eq_true, if_false, List.filter_filter]
        apply List.filter_congr
        intro q _
        by_cases hq : q ∈ acc
        · simp [hq]
        · have : q ≠ x := fun h => hq (h ▸ hx)
          simp [hq, this]
      rw [hstep, hfil]
      rw [hfil] at hlen
      exact ih acc hlen
    · have hfil : (firstOccurrences (x :: xs)).filter (fun q => decide (q ∉ acc)) =
          x :: (firstOccurrences xs).filter (fun q => decide (q ∉ acc ++ [x])) := by
        simp only [firstOccurrences, List.filter_cons, hx, not_false_eq_true, decide_True,
          if_true, List.filter_filter, List.cons.injEq, true_and]
        apply List.filter_congr
        intro q _
        by_cases hq : q ∈ acc <;> by_cases hqx : q = x <;> simp [hq, hqx]
      rw [hfil] at hlen ⊢
      simp only [List.length_cons] at hlen
      have hlt : acc.length < 256 := by omega
      have hnc : tableContains (ColorTable.ofList acc) x = false := by
        rw [← Bool.not_eq_true, tableContains_ofList acc x hacc]
        exact hx
      have hstep : buildStep ⟨ColorTable.ofList acc, acc.length % 256, false⟩ x =
          ⟨ColorTable.ofList (acc ++ [x]), (acc ++ [x]).length % 256, false⟩ := by
        simp only [buildStep, hnc, Bool.false_eq_true, if_false, Nat.mod_eq_of_lt hlt,
          ge_iff_le, not_le.2 hlt, ofList_insert acc x hlt, List.length_append,
          List.length_singleton]
      rw [hstep]
      have := ih (acc ++ [x]) (by simp only [List.length_append, List.length_singleton]; omega)
      rw [this]
      simp [List.append_assoc]

theorem buildTable_eq (l : List Pixel) (h : l.toFinset.card ≤ 256) :
    buildTable l = ColorTable.ofList (firstOccurrences l) := by
  have h2 := buildStep_foldl l [] (by simpa [firstOccurrences_length] using h)
  unfold buildTable
  have e : (⟨ColorTable.empty, 0, false⟩ : BuildState) =
      ⟨ColorTable.ofList [], ([] : List Pixel).length % 256, false⟩ := by
    simp [ColorTable.empty, ColorTable.ofList]
  rw [e, h2]
  simp

theorem ColorTable.empty_isEmpty : ColorTable.empty.isEmpty = true := by
  rw [← Bool.not_eq_false, ColorTable.isEmpty_eq_false_iff]
  simp [ColorTable.empty]

theorem range_filterMap_getElem? {α : Type} (l : List α) :
    ∀ n : Nat, (List.range n).filterMap (fun i => l[i]?) = l.take n := by
  intro n
  induction n with
  | zero => simp
  | succ n ih =>
    rw [List.range_succ, List.filterMap_append, ih, List.take_succ]
    congr 1

theorem ColorTable.entries_snd (t : ColorTable) :
    t.entries.map Prod.snd = (List.range 256).filterMap (fun i => t.find (toByte i)) := by
  unfold ColorTable.entries
  rw [List.map_filterMap, ← List.map_coe_finRange, List.filterMap_map]
  apply List.filterMap_congr
  intro k _
  have hk : toByte k.val = k := Fin.ext (toByte_val_of_lt _ k.isLt)
  simp only [Function.comp, hk]
  cases t.find k <;> rfl

theorem ColorTable.ofList_entries_snd (acc : List Pixel) (hlen : acc.length ≤ 256) :
    (ColorTable.ofList acc).entries.map Prod.snd = acc := by
  rw [ColorTable.entries_snd]
  have : (fun i => (ColorTable.ofList acc).find (toByte i)) = fun i =>
      if i < 256 then acc[i]? else (ColorTable.ofList acc).find (toByte i) := by
    funext i
    by_cases h : i < 256
    · simp [h, ColorTable.ofList, toByte_val_of_lt i h]
    · simp [h]
  rw [this]
  have h2 : (List.range 256).filterMap (fun i =>
      if i < 256 then acc[i]? else (ColorTable.ofList acc).find (toByte i)) =
      (List.range 256).filterMap (fun i => acc[i]?) := by
    apply List.filterMap_congr
    intro i hi
    simp [List.mem_range.1 hi]
  rw [h2, range_filterMap_getElem?, List.take_of_length_le hlen]

theorem ColorTable.ofList_size (acc : List Pixel) (hlen : acc.length ≤ 256) :
    (ColorTable.ofList acc).size = acc.length := by
  unfold ColorTable.size
  rw [← List.length_map _ Prod.snd, ColorTable.ofList_entries_snd acc hlen]

/-- C4: for an image with at most 256 distinct pixel colors, `toCompressed` with an empty
palette builds a palette with exactly as many entries as there are distinct colors, under
the keys 0, 1, ..., and key `i` holds the `(i+1)`-th distinct color in order of first
occurrence in the pixel buffer; these colors are pairwise different. -/
theorem C4_greedy_palette_first_occurrence (img : Flat.UncompressedImage)
    (approximate allow_color_add : Bool) (hD : img.pixels.toFinset.card ≤ 256) :
    (toCompressed img ColorTable.empty approximate allow_color_add).colorTable.size =
      img.pixels.toFinset.card ∧
    (∀ k : Byte,
      ((toCompressed img ColorTable.empty approximate allow_color_add).colorTable.find k).isSome
        ↔ k.val < img.pixels.toFinset.card) ∧
    (∀ k : Byte,
      (toCompressed img ColorTable.empty approximate allow_color_add).colorTable.find k =
        (firstOccurrences img.pixels)[k.val]?) ∧
    (firstOccurrences img.pixels).Nodup ∧
    (firstOccurrences img.pixels).length = img.pixels.toFinset.card ∧
    (∀ p, p ∈ firstOccurrences img.pixels ↔ p ∈ img.pixels) ∧
    (firstOccurrences img.pixels).Pairwise
      (fun a b => img.pixels.indexOf a < img.pixels.indexOf b) := by
  have htab : (toCompressed img ColorTable.empty approximate allow_color_add).colorTable =
      ColorTable.ofList (firstOccurrences img.pixels) := by
    simp only [toCompressed, ColorTable.empty_isEmpty, if_true]
    exact buildTable_eq img.pixels hD
  have hlen := firstOccurrences_length img.pixels
  rw [htab]
  refine ⟨?_, ?_, fun _ => rfl, firstOccurrences_nodup _, hlen,
    firstOccurrences_mem _, firstOccurrences_order _⟩
  · rw [ColorTable.ofList_size _ (by omega), hlen]
  · intro k
    simp only [ColorTable.ofList, ← hlen]
    rw [Option.isSome_iff_exists]
    constructor
    · rintro ⟨a, ha⟩
      exact (List.getElem?_eq_some.1 ha).1
    · intro h
      exact ⟨_, List.getElem?_eq_getElem h⟩

/-- C4 at the two-pixel sample image (two distinct colors). -/
theorem C4_greedy_palette_first_occurrence_witness :
    sampleImage.pixels.toFinset.card ≤ 256 ∧
    (toCompressed sampleImage ColorTable.empty false false).colorTable.size =
      sampleImage.pixels.toFinset.card :=
  ⟨by decide, (C4_greedy_palette_first_occurrence sampleImage false false (by decide)).1⟩

theorem toCompressed_empty_colorTable (img : Flat.UncompressedImage) (a b : Bool) :
    (toCompressed img ColorTable.empty a b).colorTable = buildTable img.pixels := by
  simp only [toCompressed, ColorTable.empty_isEmpty, if_true]

/-- The palette builder past 256 colors: after 256 distinct colors the `uint8_t` counter
is back at 0, and the next new color is stored under key 0. -/
theorem buildTable_wraps (tbl : ColorTable) (l : List Pixel) (p : Pixel)
    (hl : l.toFinset.card = 256) (hp : p ∉ l) (ht : tbl = buildTable (l ++ [p])) :
    tbl.find (toByte 0) = some p := by
  subst ht
  have hfo : (firstOccurrences l).length = 256 := by rw [firstOccurrences_length, hl]
  have h2 := buildStep_foldl l [] (by simp [hfo])
  have e : (⟨ColorTable.empty, 0, false⟩ : BuildState) =
      ⟨ColorTable.ofList [], ([] : List Pixel).length % 256, false⟩ := by
    simp [ColorTable.empty, ColorTable.ofList]
  unfold buildTable
  rw [List.foldl_append, e, h2]
  simp only [List.not_mem_nil, not_false_eq_true, decide_True, List.filter_true,
    List.nil_append, hfo, List.foldl_cons, List.foldl_nil]
  have hnc : tableContains (ColorTable.ofList (firstOccurrences l)) p = false := by
    rw [← Bool.not_eq_true, tableContains_ofList _ p (by omega), firstOccurrences_mem]
    exact hp
  simp [buildStep, hnc, ColorTable.insert]

theorem image257_split : image257.pixels =
    (List.range 256).map (fun i => rgb (i % 256) (i / 256) 0) ++ [rgb 0 1 0] := by
  simp only [image257]
  rw [List.range_succ, List.map_append]
  congr 1

theorem image257_first256_card :
    ((List.range 256).map (fun i => rgb (i % 256) (i / 256) 0)).toFinset.card = 256 := by
  rw [List.toFinset_card_of_nodup]
  · simp
  · refine List.Nodup.map_on ?_ (List.nodup_range 256)
    intro i hi j hj hij
    rw [List.mem_range] at hi hj
    have h := congrArg (fun c : ColorRGB => c.r.val) hij
    simp only [rgb, toByte] at h
    omega

theorem image257_last_new :
    rgb 0 1 0 ∉ (List.range 256).map (fun i => rgb (i % 256) (i / 256) 0) := by
  intro hmem
  rw [List.mem_map] at hmem
  obtain ⟨i, hi, hij⟩ := hmem
  rw [List.mem_range] at hi
  have h := congrArg (fun c : ColorRGB => c.g.val) hij
  simp only [rgb, toByte] at h
  omega

/-- C5, the code at 257 distinct colors: the first pixel is (0,0,0), the image has more
than 256 distinct colors, and the 257th distinct color (0,1,0) ends up under key 0 of the
palette built by `toCompressed`, where the first color had been stored. -/
theorem C5_palette_overwritten_at_257_colors :
    image257.pixels.head? = some (rgb 0 0 0) ∧
    256 < image257.pixels.toFinset.card ∧
    (toCompressed image257 ColorTable.empty false false).colorTable.find (toByte 0) =
      some (rgb 0 1 0) := by
  refine ⟨?_, ?_,
    buildTable_wraps _ _ _ image257_first256_card image257_last_new
      ((toCompressed_empty_colorTable image257 false false).trans
        (congrArg buildTable image257_split))⟩
  · simp only [image257]
    rw [List.range_succ_eq_map, List.map_cons]
    rfl
  · rw [image257_split, List.toFinset_append, Finset.card_union_of_disjoint,
      image257_first256_card]
    · simp
    · rw [Finset.disjoint_left]
      intro a ha hb
      simp only [List.toFinset_cons, List.toFinset_nil, insert_emptyc_eq,
        Finset.mem_singleton] at hb
      subst hb
      exact image257_last_new (List.mem_toFinset.1 ha)

/-! ## Buffers written by nested loops -/

theorem foldl_set_length {α : Type} (ws : List (Nat × α)) :
    ∀ init : List α, (ws.foldl (fun buf w => buf.set w.1 w.2) init).length = init.length := by
  induction ws with
  | nil => intro init; rfl
  | cons w t ih => intro init; simp only [List.foldl_cons]; rw [ih]; simp

theorem foldl_set_untouched {α : Type} (ws : List (Nat × α)) (i : Nat) :
    ∀ init : List α, (∀ w ∈ ws, w.1 ≠ i) →
      (ws.foldl (fun buf w => buf.set w.1 w.2) init)[i]? = init[i]? := by
  induction ws with
  | nil => intro init _; rfl
  | cons w t ih =>
    intro init h
    simp only [List.foldl_cons]
    rw [ih _ (fun w2 hw2 => h w2 (List.mem_cons_of_mem _ hw2))]
    exact List.getElem?_set_ne (h w (List.mem_cons_self _ _))

/-- A sequence of writes in which equal positions carry equal values: every written
position inside the buffer ends up holding its value. -/
theorem foldl_set_written {α : Type} (ws : List (Nat × α)) (i : Nat) (v : α) :
    ∀ init : List α, (∀ w ∈ ws, w.1 = i → w.2 = v) → (i, v) ∈ ws → i < init.length →
      (ws.foldl (fun buf w => buf.set w.1 w.2) init)[i]? = some v := by
  induction ws with
  | nil => intro init _ hm; simp at hm
  | cons w t ih =>
    intro init hfun hm hlt
    simp only [List.foldl_cons]
    by_cases ht : ∃ w2 ∈ t, w2.1 = i
    · obtain ⟨w2, hw2, hi⟩ := ht
      have hv : w2.2 = v := hfun w2 (List.mem_cons_of_mem _ hw2) hi
      have hmem : (i, v) ∈ t := by
        have : w2 = (i, v) := Prod.ext hi hv
        rw [← this]; exact hw2
      exact ih _ (fun w3 hw3 => hfun w3 (List.mem_cons_of_mem _ hw3)) hmem (by simpa using hlt)
    · have hw : w = (i, v) := by
        rcases List.mem_cons.1 hm with h | h
        · exact h.symm
        · exact absurd ⟨(i, v), h, rfl⟩ ht
      rw [foldl_set_untouched t i _ (fun w2 hw2 hi => ht ⟨w2, hw2, hi⟩), hw]
      exact List.getElem?_set_self hlt

theorem nested_foldl_set {α : Type} (H W : Nat) (idx : Nat → Nat → Nat) (val : Nat → Nat → α)
    (init : List α) :
    (List.range H).foldl (fun buf y =>
      (List.range W).foldl (fun buf x => buf.set (idx x y) (val x y)) buf) init =
    (((List.range H).flatMap (fun y => (List.range W).map (fun x => (idx x y, val x y)))).foldl
      (fun buf w => buf.set w.1 w.2) init) := by
  simp only [List.flatMap, List.foldl_flatten, List.foldl_map]

theorem index_lt (W H x a : Nat) (hx : x < W) (ha : a < H) : x * H + a < W * H := by
  have h1 : (x + 1) * H ≤ W * H := Nat.mul_le_mul_right H hx
  rw [Nat.add_mul, Nat.one_mul] at h1
  omega

theorem index_inj (H x a x2 a2 : Nat) (ha : a < H) (ha2 : a2 < H)
    (h : x * H + a = x2 * H + a2) : x = x2 ∧ a = a2 := by
  have hH : 0 < H := by omega
  have e1 : (x * H + a) / H = x := by
    rw [Nat.add_comm, Nat.add_mul_div_right _ _ hH, Nat.div_eq_of_lt ha, Nat.zero_add]
  have e2 : (x2 * H + a2) / H = x2 := by
    rw [Nat.add_comm, Nat.add_mul_div_right _ _ hH, Nat.div_eq_of_lt ha2, Nat.zero_add]
  have hx : x = x2 := by rw [← e1, ← e2, h]
  subst hx
  exact ⟨rfl, by omega⟩

/-! ## Rotation -/

/-- What one 90-degree rotation does on a well-formed image: the dimensions are swapped,
the result is well-formed, and the pixel at row `x`, column `H - 1 - y` of the result is
the pixel at row `y`, column `x` of the argument. -/
theorem rotate90_spec (img : Flat.UncompressedImage) (fill : ColorRGB) (smart : Bool)
    (hwf : img.WellFormed) :
    (rotate90 img fill smart).width = img.height ∧
    (rotate90 img fill smart).height = img.width ∧
    (rotate90 img fill smart).grayscale = img.grayscale ∧
    (rotate90 img fill smart).WellFormed ∧
    ∀ x y, x < img.width → y < img.height →
      (rotate90 img fill smart).pixels[x * img.height + (img.height - 1 - y)]? =
        img.pixels[y * img.width + x]? := by
  obtain ⟨hW, hH, hWH, hlen⟩ := hwf
  have hpix : (rotate90 img fill smart).pixels =
      (((List.range img.height).flatMap (fun y => (List.range img.width).map (fun x =>
          ((x * img.height + (img.height + U32 - 1 - y) % U32) % U32, img.getPixel x y)))).foldl
        (fun buf w => buf.set w.1 w.2)
        (List.replicate ((img.width * img.height) % U32)
          (⟨fill.r, fill.g, fill.b⟩ : Pixel))) := by
    simp only [rotate90]
    exact nested_foldl_set img.height img.width
      (fun x y => (x * img.height + (img.height + U32 - 1 - y) % U32) % U32)
      (fun x y => img.getPixel x y) _
  have hlen2 : (rotate90 img fill smart).pixels.length = img.width * img.height := by
    rw [hpix, foldl_set_length, List.length_replicate, Nat.mod_eq_of_lt hWH]
  refine ⟨rfl, rfl, rfl, ⟨hH, hW, ?_, ?_⟩, ?_⟩
  · show img.height * img.width < U32
    rw [Nat.mul_comm]; exact hWH
  · show (rotate90 img fill smart).pixels.length = img.height * img.width
    rw [hlen2, Nat.mul_comm]
  · intro x y hx hy
    have hidx : ∀ x2 y2, x2 < img.width → y2 < img.height →
        (x2 * img.height + (img.height + U32 - 1 - y2) % U32) % U32 =
          x2 * img.height + (img.height - 1 - y2) := by
      intro x2 y2 hx2 hy2
      have e : (img.height + U32 - 1 - y2) % U32 = img.height - 1 - y2 := by
        have : img.height + U32 - 1 - y2 = (img.height - 1 - y2) + U32 := by omega
        rw [this, Nat.add_mod_right, Nat.mod_eq_of_lt (by omega)]
      rw [e, Nat.mod_eq_of_lt]
      have := index_lt img.width img.height x2 (img.height - 1 - y2) hx2 (by omega)
      omega
    have hsrc0 : y * img.width + x < img.width * img.height := by
      rw [Nat.mul_comm img.width img.height]
      exact index_lt img.height img.width y x hy hx
    have hsrc : y * img.width + x < img.pixels.length := by
      rw [hlen]; exact hsrc0
    have hval : img.getPixel x y = img.pixels[y * img.width + x] := by
      simp only [Flat.UncompressedImage.getPixel]
      rw [Nat.mod_eq_of_lt (Nat.lt_trans hsrc0 hWH)]
      simp [List.getD, List.getElem?_eq_getElem hsrc]
    rw [hpix, List.getElem?_eq_getElem hsrc, ← hval]
    apply foldl_set_written
    · rintro ⟨i, v⟩ hw hi
      simp only [List.mem_flatMap, List.mem_map, List.mem_range, Prod.mk.injEq] at hw
      obtain ⟨y2, hy2, x2, hx2, rfl, rfl⟩ := hw
      simp only at hi
      rw [hidx x2 y2 hx2 hy2] at hi
      obtain ⟨e1, e2⟩ := index_inj img.height x2 _ x _ (by omega) (by omega) hi
      have e3 : y2 = y := by omega
      rw [e1, e3]
    · simp only [List.mem_flatMap, List.mem_map, List.mem_range, Prod.mk.injEq]
      exact ⟨y, hy, x, hx, hidx x y hx hy, rfl⟩
    · rw [List.length_replicate, Nat.mod_eq_of_lt hWH]
      exact index_lt img.width img.height x _ hx (by omega)

theorem rotate_90_eq (img : Flat.UncompressedImage) (fill : ColorRGB) (smart : Bool) :
    rotate img 90 fill smart = rotate90 img fill smart := by
  have h1 : Int.tmod 90 360 = 90 := by decide
  have h2 : Int.tmod 90 90 = 0 := by decide
  have h3 : (Int.tdiv 90 90).toNat = 1 := by decide
  simp only [rotate, h1, h2, h3]
  simp [List.range_succ]

/-- Every position of a `W * H` buffer is `x * H + (H - 1 - y)` for one column `x < W` and
one row `y < H` of the rotated image. -/
theorem rotate_position_covered (W H j : Nat) (hj : j < W * H) :
    ∃ x y, x < W ∧ y < H ∧ j = x * H + (H - 1 - y) := by
  have hH : 0 < H := by
    rcases Nat.eq_zero_or_pos H with h | h
    · rw [h, Nat.mul_zero] at hj; omega
    · exact h
  refine ⟨j / H, H - 1 - j % H, ?_, by omega, ?_⟩
  · exact Nat.div_lt_of_lt_mul (by rw [Nat.mul_comm]; exact hj)
  · have hm := Nat.mod_lt j hH
    have e : H - 1 - (H - 1 - j % H) = j % H := by omega
    rw [e, Nat.mul_comm]
    exact (Nat.div_add_mod j H).symm

theorem rotate90_fill_irrelevant (img : Flat.UncompressedImage) (fill fill2 : ColorRGB)
    (smart smart2 : Bool) (hwf : img.WellFormed) :
    rotate90 img fill2 smart2 = rotate90 img fill smart := by
  obtain ⟨-, -, -, hwf1, hpx1⟩ := rotate90_spec img fill smart hwf
  obtain ⟨-, -, -, hwf2, hpx2⟩ := rotate90_spec img fill2 smart2 hwf
  have hp : (rotate90 img fill2 smart2).pixels = (rotate90 img fill smart).pixels := by
    apply List.ext_getElem?
    intro j
    by_cases hj : j < img.width * img.height
    · obtain ⟨x, y, hx, hy, rfl⟩ := rotate_position_covered img.width img.height j hj
      rw [hpx1 x y hx hy, hpx2 x y hx hy]
    · have l1 : (rotate90 img fill smart).pixels.length = img.width * img.height := by
        rw [hwf1.2.2.2]; exact Nat.mul_comm _ _
      have l2 : (rotate90 img fill2 smart2).pixels.length = img.width * img.height := by
        rw [hwf2.2.2.2]; exact Nat.mul_comm _ _
      rw [List.getElem?_eq_none (by omega), List.getElem?_eq_none (by omega)]
  have e1 : rotate90 img fill smart =
      { img with width := img.height, height := img.width,
                 pixels := (rotate90 img fill smart).pixels } := rfl
  have e2 : rotate90 img fill2 smart2 =
      { img with width := img.height, height := img.width,
                 pixels := (rotate90 img fill2 smart2).pixels } := rfl
  rw [e1, e2, hp]

/-- Four successive 90-degree rotations of a well-formed image. -/
theorem rotate90_four (img : Flat.UncompressedImage) (f1 f2 f3 f4 : ColorRGB)
    (s1 s2 s3 s4 : Bool) (hwf : img.WellFormed) :
    rotate90 (rotate90 (rotate90 (rotate90 img f1 s1) f2 s2) f3 s3) f4 s4 = img := by
  obtain ⟨w1, h1, g1, wf1, p1⟩ := rotate90_spec img f1 s1 hwf
  obtain ⟨w2, h2, g2, wf2, p2⟩ := rotate90_spec _ f2 s2 wf1
  obtain ⟨w3, h3, g3, wf3, p3⟩ := rotate90_spec _ f3 s3 wf2
  obtain ⟨w4, h4, g4, wf4, p4⟩ := rotate90_spec _ f4 s4 wf3
  generalize rotate90 img f1 s1 = r1 at *
  generalize rotate90 r1 f2 s2 = r2 at *
  generalize rotate90 r2 f3 s3 = r3 at *
  generalize rotate90 r3 f4 s4 = r4 at *
  have hw : r4.width = img.width := by rw [w4, h3, w2, h1]
  have hh : r4.height = img.height := by rw [h4, w3, h2, w1]
  have hg : r4.grayscale = img.grayscale := by rw [g4, g3, g2, g1]
  have hp : r4.pixels = img.pixels := by
    apply List.ext_getElem?
    intro j
    by_cases hj : j < img.width * img.height
    · have hW : 0 < img.width := by
        rcases Nat.eq_zero_or_pos img.width with h | h
        · rw [h, Nat.zero_mul] at hj; omega
        · exact h
      have hx : j % img.width < img.width := Nat.mod_lt j hW
      have hy : j / img.width < img.height := Nat.div_lt_of_lt_mul hj
      have ej : j = j / img.width * img.width + j % img.width := by
        rw [Nat.mul_comm]; exact (Nat.div_add_mod j img.width).symm
      generalize j % img.width = x at hx ej
      generalize j / img.width = y at hy ej
      subst ej
      have q1 := p1 x y hx hy
      have q2 := p2 (img.height - 1 - y) x (by rw [w1]; omega) (by rw [h1]; exact hx)
      have q3 := p3 (img.width - 1 - x) (img.height - 1 - y) (by rw [w2, h1]; omega)
        (by rw [h2, w1]; omega)
      have q4 := p4 y (img.width - 1 - x) (by rw [w3, h2, w1]; exact hy)
        (by rw [h3, w2, h1]; omega)
      rw [h1, w1] at q2
      rw [h2, w2, w1, h1] at q3
      rw [h3, w3, w2, h2, h1, w1] at q4
      have e3 : img.height - 1 - (img.height - 1 - y) = y := by omega
      have e4 : img.width - 1 - (img.width - 1 - x) = x := by omega
      rw [e3] at q3
      rw [e4] at q4
      rw [q4, q3, q2, q1]
    · have l4 : r4.pixels.length = img.width * img.height := by
        rw [wf4.2.2.2, hw, hh]
      have l0 := hwf.2.2.2
      rw [List.getElem?_eq_none (by omega), List.getElem?_eq_none (by omega)]
  cases r4
  cases img
  simp only at hw hh hg hp
  subst hw hh hg hp
  rfl

/-- C8: on a well-formed image, four successive calls of `rotate` by 90 degrees (with any
fill colors and interpolation flags) give back the image: the same width, height and flag
and every pixel at its original position. -/
theorem C8_four_rotations_restore (img : Flat.UncompressedImage) (f1 f2 f3 f4 : ColorRGB)
    (s1 s2 s3 s4 : Bool) (hwf : img.WellFormed) :
    rotate (rotate (rotate (rotate img 90 f1 s1) 90 f2 s2) 90 f3 s3) 90 f4 s4 = img := by
  rw [rotate_90_eq, rotate_90_eq, rotate_90_eq, rotate_90_eq]
  exact rotate90_four img f1 f2 f3 f4 s1 s2 s3 s4 hwf

/-- C8 at a 3 by 2 image. -/
theorem C8_four_rotations_restore_witness :
    image3x2.WellFormed ∧
    rotate (rotate (rotate (rotate image3x2 90 black false) 90 black false) 90 black false)
      90 black false = image3x2 :=
  ⟨by decide,
   C8_four_rotations_restore image3x2 black black black black false false false false
     (by decide)⟩

/-- C9: on a well-formed image of width `W` and height `H`, `rotate` by 90 degrees yields
an image of width `H` and height `W` with `W * H` pixels in which the pixel at column
`H - 1 - y`, row `x` is the original pixel at column `x`, row `y`; every position of the
result is of this form, and the result is the same for every fill color and interpolation
flag. -/
theorem C9_rotate_90_layout (img : Flat.UncompressedImage) (fill : ColorRGB) (smart : Bool)
    (hwf : img.WellFormed) :
    (rotate img 90 fill smart).width = img.height ∧
    (rotate img 90 fill smart).height = img.width ∧
    (rotate img 90 fill smart).pixels.length = img.width * img.height ∧
    (∀ x y, x < img.width → y < img.height →
      (rotate img 90 fill smart).getPixel (img.height - 1 - y) x = img.getPixel x y) ∧
    (∀ j, j < (rotate img 90 fill smart).pixels.length →
      ∃ x y, x < img.width ∧ y < img.height ∧ j = x * img.height + (img.height - 1 - y)) ∧
    (∀ (fill2 : ColorRGB) (smart2 : Bool),
      rotate img 90 fill2 smart2 = rotate img 90 fill smart) := by
  obtain ⟨hw, hh, -, hwf1, hpx⟩ := rotate90_spec img fill smart hwf
  have hlen : (rotate90 img fill smart).pixels.length = img.width * img.height := by
    rw [hwf1.2.2.2, hw, hh, Nat.mul_comm]
  rw [rotate_90_eq]
  refine ⟨hw, hh, hlen, ?_, ?_, ?_⟩
  · intro x y hx hy
    have hlt : x * img.height + (img.height - 1 - y) < img.width * img.height :=
      index_lt img.width img.height x _ hx (by omega)
    have hlt2 : y * img.width + x < img.width * img.height := by
      rw [Nat.mul_comm img.width img.height]
      exact index_lt img.height img.width y x hy hx
    simp only [Flat.UncompressedImage.getPixel, hw]
    rw [Nat.mod_eq_of_lt (Nat.lt_trans hlt hwf.2.2.1),
      Nat.mod_eq_of_lt (Nat.lt_trans hlt2 hwf.2.2.1)]
    simp only [List.getD_eq_getElem?_getD, hpx x y hx hy]
  · intro j hj
    rw [hlen] at hj
    exact rotate_position_covered img.width img.height j hj
  · intro fill2 smart2
    rw [rotate_90_eq]
    exact rotate90_fill_irrelevant img fill fill2 smart smart2 hwf

/-- C9 at a 3 by 2 image. -/
theorem C9_rotate_90_layout_witness :
    image3x2.WellFormed ∧
    (rotate image3x2 90 black false).width = image3x2.height ∧
    (rotate image3x2 90 black false).height = image3x2.width :=
  ⟨by decide,
   (C9_rotate_90_layout image3x2 black false (by decide)).1,
   (C9_rotate_90_layout image3x2 black false (by decide)).2.1⟩

/-! ## Buffers permuted by nested loops of swaps -/

theorem swapAt_length {α : Type} (l : List α) (i j : Nat) : (swapAt l i j).length = l.length := by
  unfold swapAt
  split <;> simp

theorem swapAt_untouched {α : Type} (l : List α) (i j k : Nat) (hi : i ≠ k) (hj : j ≠ k) :
    (swapAt l i j)[k]? = l[k]? := by
  unfold swapAt
  split
  · rw [List.getElem?_set_ne hj, List.getElem?_set_ne hi]
  · rfl

theorem swapAt_left {α : Type} (l : List α) (i j : Nat) (hi : i < l.length) (hj : j < l.length) :
    (swapAt l i j)[i]? = l[j]? := by
  unfold swapAt
  rw [List.getElem?_eq_getElem hi, List.getElem?_eq_getElem hj]
  simp only
  by_cases hij : i = j
  · subst hij
    rw [List.getElem?_set_self (by simpa using hi)]
  · rw [List.getElem?_set_ne (Ne.symm hij), List.getElem?_set_self hi]

theorem swapAt_right {α : Type} (l : List α) (i j : Nat) (hi : i < l.length) (hj : j < l.length) :
    (swapAt l i j)[j]? = l[i]? := by
  unfold swapAt
  rw [List.getElem?_eq_getElem hi, List.getElem?_eq_getElem hj]
  simp only
  rw [List.getElem?_set_self (by simpa using hj)]

theorem foldl_swap_length {α : Type} (ws : List (Nat × Nat)) :
    ∀ init : List α,
      (ws.foldl (fun buf w => swapAt buf w.1 w.2) init).length = init.length := by
  induction ws with
  | nil => intro init; rfl
  | cons w t ih => intro init; simp only [List.foldl_cons]; rw [ih, swapAt_length]

theorem foldl_swap_untouched {α : Type} (ws : List (Nat × Nat)) (k : Nat) :
    ∀ init : List α, (∀ w ∈ ws, w.1 ≠ k ∧ w.2 ≠ k) →
      (ws.foldl (fun buf w => swapAt buf w.1 w.2) init)[k]? = init[k]? := by
  induction ws with
  | nil => intro init _; rfl
  | cons w t ih =>
    intro init h
    simp only [List.foldl_cons]
    rw [ih _ (fun w2 hw2 => h w2 (List.mem_cons_of_mem _ hw2))]
    exact swapAt_untouched init w.1 w.2 k (h w (List.mem_cons_self _ _)).1
      (h w (List.mem_cons_self _ _)).2

/-- A sequence of pairwise disjoint swaps inside the buffer exchanges the two positions of
every swap. -/
theorem foldl_swap_exchanged {α : Type} (ws : List (Nat × Nat)) :
    ∀ init : List α, (∀ w ∈ ws, w.1 < init.length ∧ w.2 < init.length) →
      ws.Pairwise disjointSwaps →
      ∀ w ∈ ws,
        (ws.foldl (fun buf w => swapAt buf w.1 w.2) init)[w.1]? = init[w.2]? ∧
        (ws.foldl (fun buf w => swapAt buf w.1 w.2) init)[w.2]? = init[w.1]? := by
  induction ws with
  | nil => intro init _ _ w hw; simp at hw
  | cons w0 t ih =>
    intro init hin hpw w hw
    rw [List.pairwise_cons] at hpw
    obtain ⟨hhead, htail⟩ := hpw
    simp only [List.foldl_cons]
    have hin0 := hin w0 (List.mem_cons_self _ _)
    rcases List.mem_cons.1 hw with rfl | hmem
    · rw [foldl_swap_untouched t w.1 _ (fun q hq => ⟨Ne.symm (hhead q hq).1,
          Ne.symm (hhead q hq).2.1⟩),
        foldl_swap_untouched t w.2 _ (fun q hq => ⟨Ne.symm (hhead q hq).2.2.1,
          Ne.symm (hhead q hq).2.2.2⟩)]
      exact ⟨swapAt_left init w.1 w.2 hin0.1 hin0.2, swapAt_right init w.1 w.2 hin0.1 hin0.2⟩
    · have hd := hhead w hmem
      have := ih (swapAt init w0.1 w0.2)
        (fun q hq => by
          rw [swapAt_length]; exact hin q (List.mem_cons_of_mem _ hq)) htail w hmem
      rw [this.1, this.2, swapAt_untouched init w0.1 w0.2 w.2 hd.2.1 hd.2.2.2,
        swapAt_untouched init w0.1 w0.2 w.1 hd.1 hd.2.2.1]
      exact ⟨rfl, rfl⟩

theorem nested_foldl_swap {α : Type} (n m : Nat) (ia ib : Nat → Nat → Nat) (init : List α) :
    (List.range n).foldl (fun buf y =>
      (List.range m).foldl (fun buf x => swapAt buf (ia x y) (ib x y)) buf) init =
    (((List.range n).flatMap (fun y => (List.range m).map (fun x => (ia x y, ib x y)))).foldl
      (fun buf w => swapAt buf w.1 w.2) init) := by
  simp only [List.flatMap, List.foldl_flatten, List.foldl_map]

theorem nested_pairwise {β : Type} (R : β → β → Prop) (n m : Nat) (f : Nat → Nat → β)
    (h : ∀ y, y < n → ∀ x, x < m → ∀ y2, y2 < n → ∀ x2, x2 < m →
      (y ≠ y2 ∨ x ≠ x2) → R (f x y) (f x2 y2)) :
    ((List.range n).flatMap (fun y => (List.range m).map (fun x => f x y))).Pairwise R := by
  rw [List.pairwise_flatMap]
  constructor
  · intro y hy
    rw [List.pairwise_map]
    refine List.Pairwise.imp_of_mem ?_ (List.pairwise_lt_range m)
    intro a b ha hb hab
    exact h y (List.mem_range.1 hy) a (List.mem_range.1 ha) y (List.mem_range.1 hy) b
      (List.mem_range.1 hb) (Or.inr (Nat.ne_of_lt hab))
  · refine List.Pairwise.imp_of_mem ?_ (List.pairwise_lt_range n)
    intro y y2 hy hy2 hlt p hp q hq
    rw [List.mem_map] at hp hq
    obtain ⟨x, hx, rfl⟩ := hp
    obtain ⟨x2, hx2, rfl⟩ := hq
    exact h y (List.mem_range.1 hy) x (List.mem_range.1 hx) y2 (List.mem_range.1 hy2) x2
      (List.mem_range.1 hx2) (Or.inl (Nat.ne_of_lt hlt))

/-! ## Mirroring -/

theorem u32_sub_one_sub (n k : Nat) (hn : n < U32) (hk : k < n) :
    (n + U32 - 1 - k) % U32 = n - 1 - k := by
  have : n + U32 - 1 - k = (n - 1 - k) + U32 := by omega
  rw [this, Nat.add_mod_right, Nat.mod_eq_of_lt (by omega)]

theorem index_ne (W r c r2 c2 : Nat) (hc : c < W) (hc2 : c2 < W) (h : r ≠ r2 ∨ c ≠ c2) :
    r * W + c ≠ r2 * W + c2 := by
  intro e
  obtain ⟨e1, e2⟩ := index_inj W r c r2 c2 hc hc2 e
  rcases h with h | h
  · exact h e1
  · exact h e2

/-- Horizontal mirroring of a row-major `W * H` buffer: the result has the same length and
holds at row `y`, column `x` the element of row `y`, column `W - 1 - x`. -/
theorem mirrorBuffer_horizontal {α : Type} (W H : Nat) (px : List α)
    (hW : W < U32) (hWH : W * H < U32) (hlen : px.length = W * H) :
    (mirrorBuffer W H px true).length = W * H ∧
    ∀ x y, x < W → y < H →
      (mirrorBuffer W H px true)[y * W + x]? = px[y * W + (W - 1 - x)]? := by
  have hidx : ∀ x y, x < W → y < H →
      (y * W + x) % U32 = y * W + x ∧
      (y * W + (W + U32 - 1 - x) % U32) % U32 = y * W + (W - 1 - x) ∧
      y * W + x < px.length ∧ y * W + (W - 1 - x) < px.length := by
    intro x y hx hy
    have b1 : y * W + x < W * H := by
      rw [Nat.mul_comm W H]; exact index_lt H W y x hy hx
    have b2 : y * W + (W - 1 - x) < W * H := by
      rw [Nat.mul_comm W H]; exact index_lt H W y _ hy (by omega)
    rw [u32_sub_one_sub W x hW hx, Nat.mod_eq_of_lt (Nat.lt_trans b1 hWH),
      Nat.mod_eq_of_lt (Nat.lt_trans b2 hWH), hlen]
    exact ⟨rfl, rfl, b1, b2⟩
  have hbuf : mirrorBuffer W H px true =
      (((List.range H).flatMap (fun y => (List.range (W / 2)).map (fun x =>
          ((y * W + x) % U32, (y * W + (W + U32 - 1 - x) % U32) % U32)))).foldl
        (fun buf w => swapAt buf w.1 w.2) px) := by
    simp only [mirrorBuffer, if_true]
    exact nested_foldl_swap H (W / 2) (fun x y => (y * W + x) % U32)
      (fun x y => (y * W + (W + U32 - 1 - x) % U32) % U32) px
  have hmem : ∀ w : Nat × Nat,
      w ∈ ((List.range H).flatMap (fun y => (List.range (W / 2)).map (fun x =>
          ((y * W + x) % U32, (y * W + (W + U32 - 1 - x) % U32) % U32)))) ↔
      ∃ y, y < H ∧ ∃ x, x < W / 2 ∧ w = (y * W + x, y * W + (W - 1 - x)) := by
    intro w
    simp only [List.mem_flatMap, List.mem_map, List.mem_range]
    constructor
    · rintro ⟨y, hy, x, hx, rfl⟩
      obtain ⟨e1, e2, -, -⟩ := hidx x y (by omega) hy
      exact ⟨y, hy, x, hx, by rw [e1, e2]⟩
    · rintro ⟨y, hy, x, hx, rfl⟩
      obtain ⟨e1, e2, -, -⟩ := hidx x y (by omega) hy
      exact ⟨y, hy, x, hx, by rw [e1, e2]⟩
  have hin : ∀ w ∈ ((List.range H).flatMap (fun y => (List.range (W / 2)).map (fun x =>
          ((y * W + x) % U32, (y * W + (W + U32 - 1 - x) % U32) % U32)))),
      w.1 < px.length ∧ w.2 < px.length := by
    intro w hw
    obtain ⟨y, hy, x, hx, rfl⟩ := (hmem w).1 hw
    obtain ⟨-, -, b1, b2⟩ := hidx x y (by omega) hy
    exact ⟨b1, b2⟩
  have hpw : ((List.range H).flatMap (fun y => (List.range (W / 2)).map (fun x =>
          ((y * W + x) % U32, (y * W + (W + U32 - 1 - x) % U32) % U32)))).Pairwise
      disjointSwaps := by
    apply nested_pairwise
    intro y hy x hx y2 hy2 x2 hx2 hne
    obtain ⟨e1, e2, -, -⟩ := hidx x y (by omega) hy
    obtain ⟨e3, e4, -, -⟩ := hidx x2 y2 (by omega) hy2
    simp only [disjointSwaps, e1, e2, e3, e4]
    refine ⟨index_ne W _ _ _ _ (by omega) (by omega) ?_,
      index_ne W _ _ _ _ (by omega) (by omega) ?_,
      index_ne W _ _ _ _ (by omega) (by omega) ?_,
      index_ne W _ _ _ _ (by omega) (by omega) ?_⟩
    · exact hne
    · exact Or.inr (by omega)
    · exact Or.inr (by omega)
    · rcases hne with h | h
      · exact Or.inl h
      · exact Or.inr (by omega)
  rw [hbuf]
  refine ⟨by rw [foldl_swap_length, hlen], ?_⟩
  intro x y hx hy
  by_cases h1 : x < W / 2
  · have hw := (hmem (y * W + x, y * W + (W - 1 - x))).2 ⟨y, hy, x, h1, rfl⟩
    exact (foldl_swap_exchanged _ px hin hpw _ hw).1
  · by_cases h2 : W - 1 - x < W / 2
    · have hw := (hmem (y * W + (W - 1 - x), y * W + (W - 1 - (W - 1 - x)))).2
        ⟨y, hy, W - 1 - x, h2, rfl⟩
      have e : W - 1 - (W - 1 - x) = x := by omega
      rw [e] at hw
      exact (foldl_swap_exchanged _ px hin hpw _ hw).2
    · have e : W - 1 - x = x := by omega
      rw [e]
      apply foldl_swap_untouched
      intro w hw
      obtain ⟨y2, hy2, x2, hx2, rfl⟩ := (hmem w).1 hw
      exact ⟨index_ne W _ _ _ _ (by omega) hx (Or.inr (by omega)),
        index_ne W _ _ _ _ (by omega) hx (Or.inr (by omega))⟩

/-- Vertical mirroring of a row-major `W * H` buffer: the result has the same length and
holds at row `y`, column `x` the element of row `H - 1 - y`, column `x`. -/
theorem mirrorBuffer_vertical {α : Type} (W H : Nat) (px : List α)
    (hH : H < U32) (hWH : W * H < U32) (hlen : px.length = W * H) :
    (mirrorBuffer W H px false).length = W * H ∧
    ∀ x y, x < W → y < H →
      (mirrorBuffer W H px false)[y * W + x]? = px[(H - 1 - y) * W + x]? := by
  have hidx : ∀ x y, x < W → y < H →
      (y * W + x) % U32 = y * W + x ∧
      ((H + U32 - 1 - y) % U32 * W + x) % U32 = (H - 1 - y) * W + x ∧
      y * W + x < px.length ∧ (H - 1 - y) * W + x < px.length := by
    intro x y hx hy
    have b1 : y * W + x < W * H := by
      rw [Nat.mul_comm W H]; exact index_lt H W y x hy hx
    have b2 : (H - 1 - y) * W + x < W * H := by
      rw [Nat.mul_comm W H]; exact index_lt H W _ x (by omega) hx
    rw [u32_sub_one_sub H y hH hy, Nat.mod_eq_of_lt (Nat.lt_trans b1 hWH),
      Nat.mod_eq_of_lt (Nat.lt_trans b2 hWH), hlen]
    exact ⟨rfl, rfl, b1, b2⟩
  have hbuf : mirrorBuffer W H px false =
      (((List.range (H / 2)).flatMap (fun y => (List.range W).map (fun x =>
          ((y * W + x) % U32, ((H + U32 - 1 - y) % U32 * W + x) % U32)))).foldl
        (fun buf w => swapAt buf w.1 w.2) px) := by
    simp only [mirrorBuffer, Bool.false_eq_true, if_false]
    exact nested_foldl_swap (H / 2) W (fun x y => (y * W + x) % U32)
      (fun x y => ((H + U32 - 1 - y) % U32 * W + x) % U32) px
  have hmem : ∀ w : Nat × Nat,
      w ∈ ((List.range (H / 2)).flatMap (fun y => (List.range W).map (fun x =>
          ((y * W + x) % U32, ((H + U32 - 1 - y) % U32 * W + x) % U32)))) ↔
      ∃ y, y < H / 2 ∧ ∃ x, x < W ∧ w = (y * W + x, (H - 1 - y) * W + x) := by
    intro w
    simp only [List.mem_flatMap, List.mem_map, List.mem_range]
    constructor
    · rintro ⟨y, hy, x, hx, rfl⟩
      obtain ⟨e1, e2, -, -⟩ := hidx x y hx (by omega)
      exact ⟨y, hy, x, hx, by rw [e1, e2]⟩
    · rintro ⟨y, hy, x, hx, rfl⟩
      obtain ⟨e1, e2, -, -⟩ := hidx x y hx (by omega)
      exact ⟨y, hy, x, hx, by rw [e1, e2]⟩
  have hin : ∀ w ∈ ((List.range (H / 2)).flatMap (fun y => (List.range W).map (fun x =>
          ((y * W + x) % U32, ((H + U32 - 1 - y) % U32 * W + x) % U32)))),
      w.1 < px.length ∧ w.2 < px.length := by
    intro w hw
    obtain ⟨y, hy, x, hx, rfl⟩ := (hmem w).1 hw
    obtain ⟨-, -, b1, b2⟩ := hidx x y hx (by omega)
    exact ⟨b1, b2⟩
  have hpw : ((List.range (H / 2)).flatMap (fun y => (List.range W).map (fun x =>
          ((y * W + x) % U32, ((H + U32 - 1 - y) % U32 * W + x) % U32)))).Pairwise
      disjointSwaps := by
    apply nested_pairwise
    intro y hy x hx y2 hy2 x2 hx2 hne
    obtain ⟨e1, e2, -, -⟩ := hidx x y hx (by omega)
    obtain ⟨e3, e4, -, -⟩ := hidx x2 y2 hx2 (by omega)
    simp only [disjointSwaps, e1, e2, e3, e4]
    refine ⟨index_ne W _ _ _ _ hx hx2 ?_, index_ne W _ _ _ _ hx hx2 ?_,
      index_ne W _ _ _ _ hx hx2 ?_, index_ne W _ _ _ _ hx hx2 ?_⟩
    · exact hne
    · exact Or.inl (by omega)
    · exact Or.inl (by omega)
    · rcases hne with h | h
      · exact Or.inl (by omega)
      · exact Or.inr h
  rw [hbuf]
  refine ⟨by rw [foldl_swap_length, hlen], ?_⟩
  intro x y hx hy
  by_cases h1 : y < H / 2
  · have hw := (hmem (y * W + x, (H - 1 - y) * W + x)).2 ⟨y, h1, x, hx, rfl⟩
    exact (foldl_swap_exchanged _ px hin hpw _ hw).1
  · by_cases h2 : H - 1 - y < H / 2
    · have hw := (hmem ((H - 1 - y) * W + x, (H - 1 - (H - 1 - y)) * W + x)).2
        ⟨H - 1 - y, h2, x, hx, rfl⟩
      have e : H - 1 - (H - 1 - y) = y := by omega
      rw [e] at hw
      exact (foldl_swap_exchanged _ px hin hpw _ hw).2
    · have e : H - 1 - y = y := by omega
      rw [e]
      apply foldl_swap_untouched
      intro w hw
      obtain ⟨y2, hy2, x2, hx2, rfl⟩ := (hmem w).1 hw
      exact ⟨index_ne W _ _ _ _ hx2 hx (Or.inl (by omega)),
        index_ne W _ _ _ _ hx2 hx (Or.inl (by omega))⟩

/-- Mirroring a row-major `W * H` buffer twice along the same axis restores it. -/
theorem mirrorBuffer_involutive {α : Type} (W H : Nat) (px : List α) (horizontal : Bool)
    (hW : W < U32) (hH : H < U32) (hWH : W * H < U32) (hlen : px.length = W * H) :
    mirrorBuffer W H (mirrorBuffer W H px horizontal) horizontal = px := by
  apply List.ext_getElem?
  intro j
  cases horizontal with
  | true =>
    obtain ⟨l1, p1⟩ := mirrorBuffer_horizontal W H px hW hWH hlen
    obtain ⟨l2, p2⟩ := mirrorBuffer_horizontal W H _ hW hWH l1
    by_cases hj : j < W * H
    · have hWpos : 0 < W := by
        rcases Nat.eq_zero_or_pos W with h | h
        · rw [h, Nat.zero_mul] at hj; omega
        · exact h
      have hx : j % W < W := Nat.mod_lt j hWpos
      have hy : j / W < H := Nat.div_lt_of_lt_mul hj
      have ej : j = j / W * W + j % W := by
        rw [Nat.mul_comm]; exact (Nat.div_add_mod j W).symm
      generalize j % W = x at hx ej
      generalize j / W = y at hy ej
      subst ej
      rw [p2 x y hx hy, p1 (W - 1 - x) y (by omega) hy]
      have e : W - 1 - (W - 1 - x) = x := by omega
      rw [e]
    · rw [List.getElem?_eq_none (by omega), List.getElem?_eq_none (by omega)]
  | false =>
    obtain ⟨l1, p1⟩ := mirrorBuffer_vertical W H px hH hWH hlen
    obtain ⟨l2, p2⟩ := mirrorBuffer_vertical W H _ hH hWH l1
    by_cases hj : j < W * H
    · have hWpos : 0 < W := by
        rcases Nat.eq_zero_or_pos W with h | h
        · rw [h, Nat.zero_mul] at hj; omega
        · exact h
      have hx : j % W < W := Nat.mod_lt j hWpos
      have hy : j / W < H := Nat.div_lt_of_lt_mul hj
      have ej : j = j / W * W + j % W := by
        rw [Nat.mul_comm]; exact (Nat.div_add_mod j W).symm
      generalize j % W = x at hx ej
      generalize j / W = y at hy ej
      subst ej
      rw [p2 x y hx hy, p1 x (H - 1 - y) hx (by omega)]
      have e : H - 1 - (H - 1 - y) = y := by omega
      rw [e]
    · rw [List.getElem?_eq_none (by omega), List.getElem?_eq_none (by omega)]

/-- C10: on a well-formed image, uncompressed or compressed, mirroring twice along the same
axis (either axis) gives back the image: the dimensions, the flag or palette, and every
pixel or index at its original position. -/
theorem C10_mirror_involution (horizontal : Bool) :
    (∀ img : Flat.UncompressedImage, img.WellFormed →
      mirror (mirror img horizontal) horizontal = img) ∧
    (∀ img : Flat.CompressedImage, img.WellFormed →
      mirrorCompressed (mirrorCompressed img horizontal) horizontal = img) := by
  constructor
  · rintro img ⟨hW, hH, hWH, hlen⟩
    simp only [mirror]
    rw [mirrorBuffer_involutive img.width img.height img.pixels horizontal hW hH hWH hlen]
  · rintro img ⟨hW, hH, hWH, hlen⟩
    simp only [mirrorCompressed]
    rw [mirrorBuffer_involutive img.width img.height img.pixelIds horizontal hW hH hWH hlen]

/-- C10 at a 3 by 2 image and a 3 by 2 compressed image, horizontal axis. -/
theorem C10_mirror_involution_witness :
    (image3x2.WellFormed ∧ mirror (mirror image3x2 true) true = image3x2) ∧
    (compressed3x2.WellFormed ∧
      mirrorCompressed (mirrorCompressed compressed3x2 true) true = compressed3x2) :=
  ⟨⟨by decide, (C10_mirror_involution true).1 image3x2 (by decide)⟩,
   ⟨by decide, (C10_mirror_involution true).2 compressed3x2 (by decide)⟩⟩

/-! ## Streams and the grid-reading loops -/

theorem IStream.read_exact (a rest dst : List Byte) (h : dst.length = a.length) :
    (IStream.mk (a ++ rest) false).read dst = (a, IStream.mk rest false) := by
  simp only [IStream.read, Bool.false_eq_true, if_false, List.length_append, h,
    Nat.le_add_right, if_true, List.take_left, List.drop_left]

theorem IStream.read_length (s : IStream) (dst : List Byte) :
    (s.read dst).1.length = dst.length := by
  unfold IStream.read
  split
  · rfl
  · split
    · rename_i h
      simp only [List.length_take]
      omega
    · rename_i h
      simp only [List.length_append, List.length_drop]
      omega

/-- A ten-byte buffer never equals the character sequence of a literal with fewer than
ten characters before its first NUL. -/
theorem stringNe_of_short (buffer lit : List Byte) (hb : buffer.length = 10)
    (hl : (cString lit).length < 10) : stringNe buffer lit = true := by
  unfold stringNe
  rw [decide_eq_true_iff]
  intro h
  rw [h] at hb
  omega

/-- The magic comparison of `UncompressedImage::readFromFile` rejects every file: the
method returns `false` and leaves the image as it was. -/
theorem raw_readFromFile_fails (img : UncompressedImage) (file : List Byte) (indet : Byte) :
    img.readFromFile file indet = (false, img) := by
  have h : stringNe ((IStream.mk file false).read (List.replicate 10 indet)).1 RAWIMAGE
      = true :=
    stringNe_of_short _ _ (by rw [IStream.read_length]; simp) (by decide)
  simp only [UncompressedImage.readFromFile, h, if_true]

/-- The magic comparison of `CompressedImage::readFromFile` rejects every file: the
method returns `false` and leaves the image as it was. -/
theorem cmpr_readFromFile_fails (img : CompressedImage) (file : List Byte) (indet : Byte) :
    img.readFromFile file indet = (false, img) := by
  have h : stringNe ((IStream.mk file false).read (List.replicate 10 indet)).1 CMPRIMAGE
      = true :=
    stringNe_of_short _ _ (by rw [IStream.read_length]; simp) (by decide)
  simp only [CompressedImage.readFromFile, h, if_true]

theorem ofLE32_toLE32 (n : Nat) (h : n < U32) : ofLE32 (toLE32 n) = n := by
  simp only [ofLE32, toLE32, toByte, List.getD_cons_zero, List.getD_cons_succ, U32] at *
  omega

theorem toLE32_length (n : Nat) : (toLE32 n).length = 4 := rfl

theorem set_getElem?_self {α : Type} (l : List α) (i : Nat) (a : α) (h : l[i]? = some a) :
    l.set i a = l := by
  apply List.ext_getElem?
  intro j
  by_cases hij : i = j
  · subst hij
    rw [List.getElem?_set_self (List.getElem?_eq_some.1 h).1, h]
  · rw [List.getElem?_set_ne hij]

/-- The inner loop of `readGrid` on a stream that starts with the encoding of the values
`vs`: row `y` of the grid receives them from column `pre.length` on. -/
theorem readGrid_inner {α : Type} (readOne : IStream → Option α × IStream)
    (enc : α → List Byte) (y : Nat) (rest : List Byte) :
    ∀ (vs pre old : List α) (grid : List (List α)),
      (∀ v ∈ vs, ∀ r : List Byte,
        readOne (IStream.mk (enc v ++ r) false) = (some v, IStream.mk r false)) →
      old.length = vs.length → grid[y]? = some (pre ++ old) →
      (List.range' pre.length vs.length).foldl (fun (st : ReadState α) x =>
        if st.ok then
          match readOne st.s with
          | (some v, s2) => { ok := true, grid := setAt st.grid x y v, s := s2 }
          | (none, s2) => { ok := false, grid := st.grid, s := s2 }
        else st) { ok := true, grid := grid, s := IStream.mk (vs.flatMap enc ++ rest) false } =
      { ok := true, grid := grid.set y (pre ++ vs), s := IStream.mk rest false } := by
  intro vs
  induction vs with
  | nil =>
    intro pre old grid _ hlen hg
    have : old = [] := List.length_eq_zero.1 hlen
    subst this
    simp only [List.length_nil, List.range'_zero, List.foldl_nil, List.flatMap_nil,
      List.nil_append]
    rw [set_getElem?_self grid y _ hg]
  | cons v vs ih =>
    intro pre old grid hro hlen hg
    cases old with
    | nil => simp at hlen
    | cons o os =>
      simp only [List.length_cons, List.range'_succ, List.foldl_cons, List.flatMap_cons,
        List.append_assoc, if_true]
      rw [hro v (List.mem_cons_self _ _)]
      simp only
      have hset : setAt grid pre.length y v = grid.set y ((pre ++ [v]) ++ os) := by
        simp only [setAt, hg]
        rw [List.set_append_right _ _ (Nat.le_refl _)]
        simp
      rw [hset]
      have hg2 : (grid.set y ((pre ++ [v]) ++ os))[y]? = some ((pre ++ [v]) ++ os) :=
        List.getElem?_set_self (List.getElem?_eq_some.1 hg).1
      have := ih (pre ++ [v]) os (grid.set y ((pre ++ [v]) ++ os))
        (fun v2 hv2 => hro v2 (List.mem_cons_of_mem _ hv2))
        (by simpa using hlen) hg2
      simp only [List.length_append, List.length_singleton] at this
      rw [this, List.set_set]
      simp

/-- The loop nest `readGrid` on a stream that starts with the row-major encoding of
`rows`: the grid rows from `gpre.length` on are replaced by `rows`. -/
theorem readGrid_outer {α : Type} (readOne : IStream → Option α × IStream)
    (enc : α → List Byte) (width : Nat) (rest : List Byte) :
    ∀ (rows gpre gold : List (List α)),
      (∀ row ∈ rows, ∀ v ∈ row, ∀ r : List Byte,
        readOne (IStream.mk (enc v ++ r) false) = (some v, IStream.mk r false)) →
      (∀ row ∈ rows, row.length = width) → (∀ row ∈ gold, row.length = width) →
      gold.length = rows.length →
      (List.range' gpre.length rows.length).foldl (fun (st : ReadState α) y =>
        (List.range width).foldl (fun (st : ReadState α) x =>
          if st.ok then
            match readOne st.s with
            | (some v, s2) => { ok := true, grid := setAt st.grid x y v, s := s2 }
            | (none, s2) => { ok := false, grid := st.grid, s := s2 }
          else st) st)
        { ok := true, grid := gpre ++ gold,
          s := IStream.mk (rows.flatMap (fun row => row.flatMap enc) ++ rest) false } =
      { ok := true, grid := gpre ++ rows, s := IStream.mk rest false } := by
  intro rows
  induction rows with
  | nil =>
    intro gpre gold _ _ _ hlen
    have : gold = [] := List.length_eq_zero.1 hlen
    subst this
    simp
  | cons row rows ih =>
    intro gpre gold hro hrow hgold hlen
    cases gold with
    | nil => simp at hlen
    | cons o os =>
      simp only [List.length_cons, List.range'_succ, List.foldl_cons, List.flatMap_cons,
        List.append_assoc]
      have hw : row.length = width := hrow row (List.mem_cons_self _ _)
      have ho : o.length = width := hgold o (List.mem_cons_self _ _)
      have hg : (gpre ++ o :: os)[gpre.length]? = some ([] ++ o) := by
        rw [List.getElem?_append_right (Nat.le_refl _)]
        simp
      have hin := readGrid_inner readOne enc gpre.length
        (rows.flatMap (fun row => row.flatMap enc) ++ rest) row [] o (gpre ++ o :: os)
        (fun v hv => hro row (List.mem_cons_self _ _) v hv) (by rw [ho, hw]) hg
      simp only [List.length_nil, ← List.range_eq_range', hw, List.nil_append] at hin
      rw [hin]
      have hset : (gpre ++ o :: os).set gpre.length row = (gpre ++ [row]) ++ os := by
        rw [List.set_append_right _ _ (Nat.le_refl _)]
        simp
      rw [hset]
      have := ih (gpre ++ [row]) os
        (fun r hr => hro r (List.mem_cons_of_mem _ hr))
        (fun r hr => hrow r (List.mem_cons_of_mem _ hr))
        (fun r hr => hgold r (List.mem_cons_of_mem _ hr))
        (by simpa using hlen)
      simp only [List.length_append, List.length_singleton] at this
      rw [this]
      simp

/-- Reading back a grid of `height` rows of `width` elements from its row-major encoding. -/
theorem readGrid_encoded {α : Type} (readOne : IStream → Option α × IStream)
    (enc : α → List Byte) (width height : Nat) (rows : List (List α)) (d : α)
    (rest : List Byte)
    (hro : ∀ row ∈ rows, ∀ v ∈ row, ∀ r : List Byte,
      readOne (IStream.mk (enc v ++ r) false) = (some v, IStream.mk r false))
    (hrows : rows.length = height) (hcols : ∀ row ∈ rows, row.length = width) :
    readGrid readOne width height (List.replicate height (List.replicate width d))
      (IStream.mk (rows.flatMap (fun row => row.flatMap enc) ++ rest) false) =
    { ok := true, grid := rows, s := IStream.mk rest false } := by
  have := readGrid_outer readOne enc width rest rows []
    (List.replicate height (List.replicate width d)) hro hcols
    (fun row hr => by rw [(List.mem_replicate.1 hr).2]; simp)
    (by simp [hrows])
  simp only [List.length_nil, ← List.range_eq_range', List.nil_append, hrows] at this
  exact this

/-! ## The RAWIMAGE codec -/

theorem readColorPixel_encoded (indet : Byte) (p : ColorRGB) (r : List Byte) :
    readColorPixel indet (IStream.mk ([p.r, p.g, p.b] ++ r) false) =
      (some p, IStream.mk r false) := by
  simp [readColorPixel, readFromFileStream, IStream.read]

theorem readGrayPixel_encoded (indet : Byte) (p : ColorRGB) (r : List Byte)
    (hg : p.g = p.r) (hb : p.b = p.r) :
    readGrayPixel indet (IStream.mk ([p.r] ++ r) false) = (some p, IStream.mk r false) := by
  cases p with
  | mk pr pg pb =>
    simp only at hg hb
    subst hg hb
    simp [readGrayPixel, IStream.read]

theorem charArray10_length (lit : List Byte) : (charArray10 lit).length = 10 := by
  simp [charArray10]

/-- The decoder steps of `UncompressedImage::readFromFile` after the magic and version
checks, run on what `writeToFile` emits after magic and version. -/
theorem raw_readFields_written (img start : UncompressedImage) (indet : Byte)
    (hw : img.width < U32) (hh : img.height < U32)
    (hrows : img.image_data.length = img.height)
    (hcols : ∀ row ∈ img.image_data, row.length = img.width)
    (hgray : img.is_grayscale = true →
      ∀ row ∈ img.image_data, ∀ p ∈ row, p.g = p.r ∧ p.b = p.r) :
    img.writeToFile.take 13 = charArray10 RAWIMAGE ++ [toByte 1, toByte 0, toByte 0] ∧
    start.readFields (IStream.mk (img.writeToFile.drop 13) false) indet =
      (img, IStream.mk (charArray10 RAWIMGEND) false) := by
  have hsplit : img.writeToFile =
      (charArray10 RAWIMAGE ++ [toByte 1, toByte 0, toByte 0]) ++
      (toLE32 img.width ++ (toLE32 img.height ++
        ([if img.is_grayscale then toByte 1 else toByte 0] ++
          ((if img.is_grayscale then
              img.image_data.flatMap (fun row => row.flatMap (fun pixel => [pixel.r]))
            else
              img.image_data.flatMap
                (fun row => row.flatMap (fun pixel => [pixel.r, pixel.g, pixel.b])))
            ++ charArray10 RAWIMGEND)))) := by
    simp only [UncompressedImage.writeToFile, List.append_assoc]
  have h13 : (charArray10 RAWIMAGE ++ [toByte 1, toByte 0, toByte 0]).length = 13 := by
    simp [charArray10_length]
  rw [hsplit, List.take_left' h13, List.drop_left' h13]
  refine ⟨rfl, ?_⟩
  simp only [UncompressedImage.readFields]
  rw [IStream.read_exact _ _ _ (by simp [toLE32_length])]
  simp only
  rw [IStream.read_exact _ _ _ (by simp [toLE32_length])]
  simp only
  rw [IStream.read_exact _ _ _ (by simp), ofLE32_toLE32 _ hw, ofLE32_toLE32 _ hh]
  simp only [List.getD_cons_zero]
  cases hg : img.is_grayscale with
  | true =>
    have h1 : decide (toByte 1 = toByte 1) = true := by decide
    simp only [if_true, h1]
    rw [readGrid_encoded (readGrayPixel indet) (fun pixel => [pixel.r]) img.width img.height
      img.image_data (rgb 0 0 0) _ ?_ hrows hcols]
    · cases img
      simp only at hg
      subst hg
      rfl
    · intro row hrow v hv r
      have := hgray hg row hrow v hv
      exact readGrayPixel_encoded indet v r this.1 this.2
  | false =>
    have h0 : decide (toByte 0 = toByte 1) = false := by decide
    simp only [Bool.false_eq_true, if_false, h0]
    rw [readGrid_encoded (readColorPixel indet) (fun pixel => [pixel.r, pixel.g, pixel.b])
      img.width img.height img.image_data (rgb 0 0 0) _ ?_ hrows hcols]
    · cases img
      simp only at hg
      subst hg
      rfl
    · intro row _ v _ r
      exact readColorPixel_encoded indet v r

/-- C1 as amended: for an image whose dimensions are `uint32_t` values, whose grid has
`height` rows of `width` pixels, and whose grayscale flag is unset or whose pixels all have
`r = g = b`, the encoder emits the magic and the version `{1,0,0}` followed by bytes from
which the field-reading steps of the decoder rebuild exactly this image (width, height,
flag, every pixel), leaving the ten bytes of the end signature unread. -/
theorem C1_raw_fields_roundtrip (img start : UncompressedImage) (indet : Byte)
    (hw : img.width < U32) (hh : img.height < U32)
    (hrows : img.image_data.length = img.height)
    (hcols : ∀ row ∈ img.image_data, row.length = img.width)
    (hgray : img.is_grayscale = true →
      ∀ row ∈ img.image_data, ∀ p ∈ row, p.g = p.r ∧ p.b = p.r) :
    img.writeToFile.take 13 = charArray10 RAWIMAGE ++ [toByte 1, toByte 0, toByte 0] ∧
    start.readFields (IStream.mk (img.writeToFile.drop 13) false) indet =
      (img, IStream.mk (charArray10 RAWIMGEND) false) :=
  raw_readFields_written img start indet hw hh hrows hcols hgray

/-- C1 as amended, at a 2 by 1 color image. -/
theorem C1_raw_fields_roundtrip_witness :
    (rawSample.width < U32 ∧ rawSample.height < U32 ∧
      rawSample.image_data.length = rawSample.height ∧
      (∀ row ∈ rawSample.image_data, row.length = rawSample.width) ∧
      (rawSample.is_grayscale = true →
        ∀ row ∈ rawSample.image_data, ∀ p ∈ row, p.g = p.r ∧ p.b = p.r)) ∧
    UncompressedImage.new.readFields (IStream.mk (rawSample.writeToFile.drop 13) false)
        (toByte 0) = (rawSample, IStream.mk (charArray10 RAWIMGEND) false) :=
  ⟨⟨by decide, by decide, by decide, by decide, by decide⟩,
   (C1_raw_fields_roundtrip rawSample UncompressedImage.new (toByte 0) (by decide) (by decide)
      (by decide) (by decide) (by decide)).2⟩

/-- C1 fails at the 1 by 1 image with the grayscale flag set and the pixel (1, 2, 3):
`readFromFile` on the written bytes returns failure and leaves the receiving image empty,
and the pixel that the field-reading steps of the decoder rebuild from these bytes is
(1, 1, 1). -/
theorem C1_raw_roundtrip_counterexample :
    UncompressedImage.new.readFromFile flaggedColorImage.writeToFile (toByte 0) =
      (false, UncompressedImage.new) ∧
    (UncompressedImage.new.readFields
        (IStream.mk (flaggedColorImage.writeToFile.drop 13) false) (toByte 0)).1.image_data =
      [[rgb 1 1 1]] ∧
    flaggedColorImage.image_data = [[rgb 1 2 3]] := by
  decide

/-! ## The CMPRIMAGE codec -/

theorem readFromFileStream_encoded (indet : Byte) (c : ColorRGB) (r : List Byte) :
    readFromFileStream (IStream.mk ([c.r, c.g, c.b] ++ r) false) indet =
      (c, IStream.mk r false) := by
  simp [readFromFileStream, IStream.read]

theorem readIndex_encoded (indet : Byte) (v : Byte) (r : List Byte) :
    readIndex indet (IStream.mk ([v] ++ r) false) = (some v, IStream.mk r false) := by
  simp [readIndex, IStream.read]

theorem powLoop_pow (k : Nat) (h : k ≤ 8) : powLoop (2 ^ k) 9 0 = k := by
  interval_cases k <;> rfl

/-- The palette-reading loop on a stream that starts with the encoding of the colors
`cs`: they are stored under the keys `pre.length`, `pre.length + 1`, ... -/
theorem paletteStep_foldl (indet : Byte) (rest : List Byte) :
    ∀ (cs pre : List ColorRGB) (c2i : ColorRGB → Option Byte),
      pre.length + cs.length ≤ 256 →
      ((List.range' pre.length cs.length).foldl (paletteStep indet)
        { id_to_color := ColorTable.ofList pre, color_to_id := c2i
          s := IStream.mk (cs.flatMap (fun c => [c.r, c.g, c.b]) ++ rest) false }).id_to_color =
        ColorTable.ofList (pre ++ cs) ∧
      ((List.range' pre.length cs.length).foldl (paletteStep indet)
        { id_to_color := ColorTable.ofList pre, color_to_id := c2i
          s := IStream.mk (cs.flatMap (fun c => [c.r, c.g, c.b]) ++ rest) false }).s =
        IStream.mk rest false := by
  intro cs
  induction cs with
  | nil => intro pre c2i _; simp
  | cons c cs ih =>
    intro pre c2i hlen
    simp only [List.length_cons] at hlen
    simp only [List.length_cons, List.range'_succ, List.foldl_cons, List.flatMap_cons,
      List.append_assoc]
    have hstep : paletteStep indet
        { id_to_color := ColorTable.ofList pre, color_to_id := c2i
          s := IStream.mk ([c.r, c.g, c.b] ++
            (cs.flatMap (fun c => [c.r, c.g, c.b]) ++ rest)) false } pre.length =
        { id_to_color := ColorTable.ofList (pre ++ [c])
          color_to_id := fun k => if k = c then some (toByte pre.length) else c2i k
          s := IStream.mk (cs.flatMap (fun c => [c.r, c.g, c.b]) ++ rest) false } := by
      simp only [paletteStep, readFromFileStream_encoded, ofList_insert pre c (by omega)]
    rw [hstep]
    have := ih (pre ++ [c]) (fun k => if k = c then some (toByte pre.length) else c2i k)
      (by simp only [List.length_append, List.length_singleton]; omega)
    simp only [List.length_append, List.length_singleton, List.append_assoc,
      List.singleton_append] at this
    exact this

/-- The decoder steps of `CompressedImage::readFromFile` after the magic and version
checks, run on what `writeToFile` emits after magic and version, for a palette that holds
`2 ^ k` colors under the keys `0 .. 2 ^ k - 1`. -/
theorem cmpr_readFields_written (img start : CompressedImage) (indet : Byte)
    (k : Nat) (colors : List ColorRGB) (hk : k ≤ 8)
    (hpal : img.id_to_color = ColorTable.ofList colors) (hlen : colors.length = 2 ^ k)
    (hw : img.width < U32) (hh : img.height < U32)
    (hrows : img.image_data.length = img.height)
    (hcols : ∀ row ∈ img.image_data, row.length = img.width) :
    img.writeToFile.take 13 = charArray10 CMPRIMAGE ++ [toByte 6, toByte 6, toByte 6] ∧
    (start.readFields (IStream.mk (img.writeToFile.drop 13) false) indet).1 = true ∧
    (start.readFields (IStream.mk (img.writeToFile.drop 13) false) indet).2.1.width =
      img.width ∧
    (start.readFields (IStream.mk (img.writeToFile.drop 13) false) indet).2.1.height =
      img.height ∧
    (start.readFields (IStream.mk (img.writeToFile.drop 13) false) indet).2.1.id_to_color =
      img.id_to_color ∧
    (start.readFields (IStream.mk (img.writeToFile.drop 13) false) indet).2.1.image_data =
      img.image_data ∧
    (start.readFields (IStream.mk (img.writeToFile.drop 13) false) indet).2.2 =
      IStream.mk (charArray10 CMPRIMGEND) false := by
  have h256 : colors.length ≤ 256 := by
    rw [hlen]
    calc 2 ^ k ≤ 2 ^ 8 := Nat.pow_le_pow_right (by decide) hk
      _ = 256 := by decide
  have hsize : img.id_to_color.size = 2 ^ k := by
    rw [hpal, ColorTable.ofList_size colors h256, hlen]
  have hent : img.id_to_color.entries.flatMap (fun e => [e.2.r, e.2.g, e.2.b]) =
      colors.flatMap (fun c => [c.r, c.g, c.b]) := by
    have := ColorTable.ofList_entries_snd colors h256
    rw [← hpal] at this
    rw [← this, List.flatMap_map]
  have hpow : powLoop img.id_to_color.size 9 0 = k := by rw [hsize, powLoop_pow k hk]
  have hsplit : img.writeToFile =
      (charArray10 CMPRIMAGE ++ [toByte 6, toByte 6, toByte 6]) ++
      (toLE32 img.width ++ (toLE32 img.height ++ ([toByte k] ++
        (colors.flatMap (fun c => [c.r, c.g, c.b]) ++
          (img.image_data.flatMap (fun row => row.flatMap (fun color_id => [color_id])) ++
            charArray10 CMPRIMGEND))))) := by
    simp only [CompressedImage.writeToFile, List.append_assoc, hpow, hent]
  have h13 : (charArray10 CMPRIMAGE ++ [toByte 6, toByte 6, toByte 6]).length = 13 := by
    simp [charArray10_length]
  rw [hsplit, List.take_left' h13, List.drop_left' h13]
  refine ⟨rfl, ?_⟩
  simp only [CompressedImage.readFields]
  rw [IStream.read_exact _ _ _ (by simp [toLE32_length])]
  simp only
  rw [IStream.read_exact _ _ _ (by simp [toLE32_length])]
  simp only
  rw [IStream.read_exact _ _ _ (by simp), ofLE32_toLE32 _ hw, ofLE32_toLE32 _ hh]
  simp only [List.getD_cons_zero, toByte_val_of_lt k (by omega)]
  have hpalette := paletteStep_foldl indet
    (img.image_data.flatMap (fun row => row.flatMap (fun color_id => [color_id])) ++
      charArray10 CMPRIMGEND) colors [] (fun _ => none) (by simpa using h256)
  have hempty : ColorTable.ofList [] = ColorTable.empty := by
    simp [ColorTable.empty, ColorTable.ofList]
  simp only [List.length_nil, ← List.range_eq_range', List.nil_append, hlen, hempty]
    at hpalette
  rw [hpalette.2, hpalette.1]
  rw [readGrid_encoded (readIndex indet) (fun color_id => [color_id]) img.width img.height
    img.image_data (toByte 0) _ (fun _ _ v _ r => readIndex_encoded indet v r) hrows hcols]
  refine ⟨?_, ?_, ?_, ?_, ?_, ?_⟩ <;> first | rfl | trivial | exact hpal.symm

/-- C2 as amended: for a compressed image whose dimensions are `uint32_t` values, whose
grid has `height` rows of `width` indices and whose palette holds `2 ^ k` colors
(`k ≤ 8`) under the keys `0 .. 2 ^ k - 1`, the encoder emits the magic and the version
`{6,6,6}` followed by bytes from which the field-reading steps of the decoder rebuild the
same width, height, index-to-color palette and index grid without a short read, leaving
the ten bytes of the end signature unread. -/
theorem C2_cmpr_fields_roundtrip (img start : CompressedImage) (indet : Byte)
    (k : Nat) (colors : List ColorRGB) (hk : k ≤ 8)
    (hpal : img.id_to_color = ColorTable.ofList colors) (hlen : colors.length = 2 ^ k)
    (hw : img.width < U32) (hh : img.height < U32)
    (hrows : img.image_data.length = img.height)
    (hcols : ∀ row ∈ img.image_data, row.length = img.width) :
    img.writeToFile.take 13 = charArray10 CMPRIMAGE ++ [toByte 6, toByte 6, toByte 6] ∧
    (start.readFields (IStream.mk (img.writeToFile.drop 13) false) indet).1 = true ∧
    (start.readFields (IStream.mk (img.writeToFile.drop 13) false) indet).2.1.width =
      img.width ∧
    (start.readFields (IStream.mk (img.writeToFile.drop 13) false) indet).2.1.height =
      img.height ∧
    (start.readFields (IStream.mk (img.writeToFile.drop 13) false) indet).2.1.id_to_color =
      img.id_to_color ∧
    (start.readFields (IStream.mk (img.writeToFile.drop 13) false) indet).2.1.image_data =
      img.image_data ∧
    (start.readFields (IStream.mk (img.writeToFile.drop 13) false) indet).2.2 =
      IStream.mk (charArray10 CMPRIMGEND) false :=
  cmpr_readFields_written img start indet k colors hk hpal hlen hw hh hrows hcols

/-- C2 as amended, at a 2 by 1 image with a two-color palette. -/
theorem C2_cmpr_fields_roundtrip_witness :
    ((1 : Nat) ≤ 8 ∧ cmprSample.id_to_color = ColorTable.ofList [rgb 0 0 0, rgb 255 255 255] ∧
      [rgb 0 0 0, rgb 255 255 255].length = 2 ^ 1 ∧
      cmprSample.width < U32 ∧ cmprSample.height < U32 ∧
      cmprSample.image_data.length = cmprSample.height ∧
      (∀ row ∈ cmprSample.image_data, row.length = cmprSample.width)) ∧
    (CompressedImage.new.readFields (IStream.mk (cmprSample.writeToFile.drop 13) false)
        (toByte 0)).2.1.image_data = cmprSample.image_data :=
  ⟨⟨by decide, rfl, by decide, by decide, by decide, by decide, by decide⟩,
   (C2_cmpr_fields_roundtrip cmprSample CompressedImage.new (toByte 0) 1
      [rgb 0 0 0, rgb 255 255 255] (by decide) rfl (by decide) (by decide) (by decide)
      (by decide) (by decide)).2.2.2.2.2.1⟩

/-- C2 fails at the 1 by 1 image whose palette has one entry (`2 ^ 0`) under key 5:
`readFromFile` on the written bytes returns failure, and the palette that the decoder steps
rebuild holds the color under key 0 and nothing under key 5. -/
theorem C2_cmpr_roundtrip_counterexample :
    sparsePaletteImage.id_to_color.size = 2 ^ 0 ∧
    (CompressedImage.new.readFromFile sparsePaletteImage.writeToFile (toByte 0)).1 = false ∧
    (CompressedImage.new.readFields
      (IStream.mk (sparsePaletteImage.writeToFile.drop 13) false) (toByte 0)).2.1.id_to_color.find
        (toByte 5) = none ∧
    sparsePaletteImage.id_to_color.find (toByte 5) = some (rgb 9 9 9) := by
  decide

/-! ## Color transforms -/

theorem invertColor_invertColor (c : ColorRGB) : invertColor (invertColor c) = c := by
  cases c with
  | mk r g b =>
    have hr := r.isLt
    have hg := g.isLt
    have hb := b.isLt
    simp only [invertColor, toByte, ColorRGB.mk.injEq]
    refine ⟨Fin.ext ?_, Fin.ext ?_, Fin.ext ?_⟩ <;> simp only <;> omega

/-- C13: applying `negative` twice gives back the image, for both image classes: every
pixel color or palette entry has its original value and the dimensions, the flag and the
index grid are unchanged. -/
theorem C13_negative_involution :
    (∀ img : Flat.UncompressedImage, negative (negative img) = img) ∧
    (∀ img : Flat.CompressedImage, negativeCompressed (negativeCompressed img) = img) := by
  constructor
  · intro img
    cases img with
    | mk w h g px =>
      simp only [negative, List.map_map, Flat.UncompressedImage.mk.injEq, true_and]
      have : invertColor ∘ invertColor = id := funext invertColor_invertColor
      rw [this, List.map_id]
  · intro img
    cases img with
    | mk w h g t ids =>
      simp only [negativeCompressed, Flat.CompressedImage.mk.injEq, true_and, and_true]
      ext1
      funext k
      simp only [Option.map_map]
      have : invertColor ∘ invertColor = id := funext invertColor_invertColor
      rw [this, Option.map_id, id]

theorem colorToGrayscale_gray : ∀ v : Byte, colorToGrayscale ⟨v, v, v⟩ = v := by decide

theorem grayColor_grayColor (c : ColorRGB) : grayColor (grayColor c) = grayColor c := by
  simp only [grayColor, colorToGrayscale_gray]

/-- C14: calling `toGrayscale` twice gives exactly the image that one call gives, for both
image classes (pixels or palette, flag, dimensions, index grid). -/
theorem C14_toGrayscale_idempotent :
    (∀ img : Flat.UncompressedImage, toGrayscale (toGrayscale img) = toGrayscale img) ∧
    (∀ img : Flat.CompressedImage,
      toGrayscaleCompressed (toGrayscaleCompressed img) = toGrayscaleCompressed img) := by
  constructor
  · intro img
    cases hg : img.grayscale with
    | true => simp [toGrayscale, hg]
    | false => simp [toGrayscale, hg]
  · intro img
    cases img with
    | mk w h g t ids =>
      simp only [toGrayscaleCompressed, Flat.CompressedImage.mk.injEq, true_and, and_true]
      ext1
      funext k
      simp only [Option.map_map]
      have : grayColor ∘ grayColor = grayColor := funext grayColor_grayColor
      rw [this]

/-! ## `setPixel` -/

theorem setAt_length {α : Type} (grid : List (List α)) (x y : Nat) (v : α) :
    (setAt grid x y v).length = grid.length := by
  unfold setAt
  split <;> simp

theorem setAt_row_lengths {α : Type} (grid : List (List α)) (x y : Nat) (v : α) :
    (setAt grid x y v).map List.length = grid.map List.length := by
  unfold setAt
  split
  · rename_i row hrow
    apply List.ext_getElem?
    intro j
    simp only [List.getElem?_map]
    by_cases hj : y = j
    · subst hj
      rw [List.getElem?_set_self (List.getElem?_eq_some.1 hrow).1, hrow]
      simp
    · rw [List.getElem?_set_ne hj]
  · rfl

theorem setAt_entry_self {α : Type} (grid : List (List α)) (x y : Nat) (v : α)
    (row : List α) (hrow : grid[y]? = some row) (hx : x < row.length) :
    entryAt (setAt grid x y v) x y = some v := by
  simp only [entryAt, setAt, hrow]
  rw [List.getElem?_set_self (List.getElem?_eq_some.1 hrow).1]
  simp only [Option.some_bind]
  exact List.getElem?_set_self hx

theorem setAt_entry_other {α : Type} (grid : List (List α)) (x y x2 y2 : Nat) (v : α)
    (h : x2 ≠ x ∨ y2 ≠ y) : entryAt (setAt grid x y v) x2 y2 = entryAt grid x2 y2 := by
  unfold setAt
  split
  · rename_i row hrow
    simp only [entryAt]
    by_cases hy : y = y2
    · subst hy
      have hx : x ≠ x2 := by
        rcases h with h | h
        · exact Ne.symm h
        · exact absurd rfl h
      rw [List.getElem?_set_self (List.getElem?_eq_some.1 hrow).1, hrow]
      simp only [Option.some_bind]
      exact List.getElem?_set_ne hx
    · rw [List.getElem?_set_ne hy]
  · rfl

/-- C20: on an image whose grid matches its width and height, for both image classes,
`setPixel(x, y, v)` with `x >= width` or `y >= height` leaves the image as it is; with
`x < width` and `y < height` the entry at row `y`, column `x` becomes `v`, every other
entry keeps its value, and width, height, flag or palette tables and the shape of the grid
are unchanged. -/
theorem C20_setPixel_frame (x y : Nat) :
    (∀ (img : UncompressedImage) (color : ColorRGB), img.GridOK →
      ((x ≥ img.width ∨ y ≥ img.height) → img.setPixel x y color = img) ∧
      (x < img.width → y < img.height →
        (img.setPixel x y color).width = img.width ∧
        (img.setPixel x y color).height = img.height ∧
        (img.setPixel x y color).is_grayscale = img.is_grayscale ∧
        (img.setPixel x y color).GridOK ∧
        entryAt (img.setPixel x y color).image_data x y = some color ∧
        ∀ x2 y2, (x2 ≠ x ∨ y2 ≠ y) →
          entryAt (img.setPixel x y color).image_data x2 y2 =
            entryAt img.image_data x2 y2)) ∧
    (∀ (img : CompressedImage) (color_id : Byte), img.GridOK →
      ((x ≥ img.width ∨ y ≥ img.height) → img.setPixel x y color_id = img) ∧
      (x < img.width → y < img.height →
        (img.setPixel x y color_id).width = img.width ∧
        (img.setPixel x y color_id).height = img.height ∧
        (img.setPixel x y color_id).id_to_color = img.id_to_color ∧
        (img.setPixel x y color_id).color_to_id = img.color_to_id ∧
        (img.setPixel x y color_id).GridOK ∧
        entryAt (img.setPixel x y color_id).image_data x y = some color_id ∧
        ∀ x2 y2, (x2 ≠ x ∨ y2 ≠ y) →
          entryAt (img.setPixel x y color_id).image_data x2 y2 =
            entryAt img.image_data x2 y2)) := by
  have shape : ∀ {α : Type} (grid : List (List α)) (w h : Nat) (v : α),
      (grid.length = h ∧ ∀ row ∈ grid, row.length = w) →
      ((setAt grid x y v).length = h ∧ ∀ row ∈ setAt grid x y v, row.length = w) := by
    intro α grid w h v hg
    refine ⟨by rw [setAt_length]; exact hg.1, ?_⟩
    intro row hrow
    have h1 : row.length ∈ (setAt grid x y v).map List.length := List.mem_map_of_mem _ hrow
    rw [setAt_row_lengths] at h1
    obtain ⟨r0, hr0, e⟩ := List.mem_map.1 h1
    rw [← e]
    exact hg.2 r0 hr0
  have rowAt : ∀ {α : Type} (grid : List (List α)) (w h : Nat),
      (grid.length = h ∧ ∀ row ∈ grid, row.length = w) → y < h →
      ∃ row, grid[y]? = some row ∧ row.length = w := by
    intro α grid w h hg hy
    have hlt : y < grid.length := by rw [hg.1]; exact hy
    exact ⟨grid[y], List.getElem?_eq_getElem hlt, hg.2 _ (List.getElem_mem hlt)⟩
  constructor
  · intro img color hg
    constructor
    · intro hout
      simp only [UncompressedImage.setPixel, hout, if_true]
    · intro hx hy
      have hin : ¬ (x ≥ img.width ∨ y ≥ img.height) := by omega
      have e : img.setPixel x y color =
          { img with image_data := setAt img.image_data x y color } := by
        simp only [UncompressedImage.setPixel, hin, if_false]
      rw [e]
      obtain ⟨row, hrow, hlen⟩ := rowAt img.image_data img.width img.height hg hy
      exact ⟨rfl, rfl, rfl, shape img.image_data img.width img.height color hg,
        setAt_entry_self _ x y color row hrow (by rw [hlen]; exact hx),
        fun x2 y2 h => setAt_entry_other _ x y x2 y2 color h⟩
  · intro img color_id hg
    constructor
    · intro hout
      simp only [CompressedImage.setPixel, hout, if_true]
    · intro hx hy
      have hin : ¬ (x ≥ img.width ∨ y ≥ img.height) := by omega
      have e : img.setPixel x y color_id =
          { img with image_data := setAt img.image_data x y color_id } := by
        simp only [CompressedImage.setPixel, hin, if_false]
      rw [e]
      obtain ⟨row, hrow, hlen⟩ := rowAt img.image_data img.width img.height hg hy
      exact ⟨rfl, rfl, rfl, rfl, shape img.image_data img.width img.height color_id hg,
        setAt_entry_self _ x y color_id row hrow (by rw [hlen]; exact hx),
        fun x2 y2 h => setAt_entry_other _ x y x2 y2 color_id h⟩

/-- C20 at the 2 by 1 sample images: inside at `(1, 0)`. -/
theorem C20_setPixel_frame_witness :
    (rawSample.GridOK ∧ 1 < rawSample.width ∧ 0 < rawSample.height ∧
      entryAt (rawSample.setPixel 1 0 (rgb 9 9 9)).image_data 1 0 = some (rgb 9 9 9)) ∧
    (cmprSample.GridOK ∧ 1 < cmprSample.width ∧ 0 < cmprSample.height ∧
      entryAt (cmprSample.setPixel 1 0 (toByte 0)).image_data 1 0 = some (toByte 0)) :=
  ⟨⟨by decide, by decide, by decide,
      (((C20_setPixel_frame 1 0).1 rawSample (rgb 9 9 9) (by decide)).2
        (by decide) (by decide)).2.2.2.2.1⟩,
   ⟨by decide, by decide, by decide,
      (((C20_setPixel_frame 1 0).2 cmprSample (toByte 0) (by decide)).2
        (by decide) (by decide)).2.2.2.2.2.1⟩⟩

/-! ## The decoders in stages -/

theorem raw_readFromFile_eq (img : UncompressedImage) (file : List Byte) (indet : Byte) :
    img.readFromFile file indet =
      if stringNe ((IStream.mk file false).read (List.replicate 10 indet)).1 RAWIMAGE
      then (false, img)
      else img.readAfterMagic ((IStream.mk file false).read (List.replicate 10 indet)).2 indet :=
  rfl
theorem cmpr_readFromFile_eq (img : CompressedImage) (file : List Byte) (indet : Byte) :
    img.readFromFile file indet =
      if stringNe ((IStream.mk file false).read (List.replicate 10 indet)).1 CMPRIMAGE
      then (false, img)
      else img.readAfterMagic ((IStream.mk file false).read (List.replicate 10 indet)).2 indet :=
  rfl
theorem raw_writeToFile_eq (img : UncompressedImage) :
    img.writeToFile = charArray10 RAWIMAGE ++ [toByte 1, toByte 0, toByte 0] ++
      img.encodedFields ++ charArray10 RAWIMGEND := by
  simp only [UncompressedImage.writeToFile, UncompressedImage.encodedFields, List.append_assoc]
theorem cmpr_writeToFile_eq (img : CompressedImage) :
    img.writeToFile = charArray10 CMPRIMAGE ++ [toByte 6, toByte 6, toByte 6] ++
      cmprFields img.width img.height (toByte (powLoop img.id_to_color.size 9 0))
        (img.id_to_color.entries.map Prod.snd) img.image_data ++ charArray10 CMPRIMGEND := by
  simp only [CompressedImage.writeToFile, cmprFields, List.append_assoc, List.flatMap_map]
theorem powLoop_invariant (n : Nat) (h : n ≤ 256) :
    ∀ fuel pow : Nat, pow + fuel = 9 → 1 ≤ fuel → (∀ q, q < pow → 2 ^ q < n) →
      n ≤ 2 ^ powLoop n fuel pow ∧ powLoop n fuel pow ≤ 8 ∧
        ∀ q, q < powLoop n fuel pow → 2 ^ q < n := by
  intro fuel
  induction fuel with
  | zero => intro pow _ h1; omega
  | succ k ih =>
    intro pow hsum _ hinv
    simp only [powLoop]
    by_cases hlt : 2 ^ pow < n
    · rw [if_pos hlt]
      have hpow : pow < 8 := by
        by_contra hge
        have h8 : pow = 8 := by omega
        rw [h8] at hlt
        have : (2 : Nat) ^ 8 = 256 := by decide
        omega
      rw [Nat.mod_eq_of_lt (by omega)]
      apply ih (pow + 1) (by omega) (by omega)
      intro q hq
      rcases Nat.lt_or_ge q pow with hq2 | hq2
      · exact hinv q hq2
      · have : q = pow := by omega
        rw [this]; exact hlt
    · rw [if_neg hlt]
      exact ⟨by omega, by omega, hinv⟩

/-- The `pow` loop of the CMPRIMAGE writers yields the least exponent whose power of two
is at least the size of the table. -/
theorem powLoop_least (n : Nat) (h : n ≤ 256) :
    n ≤ 2 ^ powLoop n 9 0 ∧ powLoop n 9 0 ≤ 8 ∧ ∀ q, q < powLoop n 9 0 → 2 ^ q < n :=
  powLoop_invariant n h 9 0 rfl (by decide) (fun q hq => absurd hq (Nat.not_lt_zero q))

/-- The field-reading steps of `UncompressedImage::readFromFile` on the encoded fields of
an image, whatever follows them. -/
theorem raw_readFields_encoded (img start : UncompressedImage) (indet : Byte)
    (rest : List Byte) (hw : img.width < U32) (hh : img.height < U32)
    (hrows : img.image_data.length = img.height)
    (hcols : ∀ row ∈ img.image_data, row.length = img.width)
    (hgray : img.is_grayscale = true →
      ∀ row ∈ img.image_data, ∀ p ∈ row, p.g = p.r ∧ p.b = p.r) :
    start.readFields (IStream.mk (img.encodedFields ++ rest) false) indet =
      (img, IStream.mk rest false) := by
  have hsplit : img.encodedFields ++ rest =
      toLE32 img.width ++ (toLE32 img.height ++
        ([if img.is_grayscale then toByte 1 else toByte 0] ++
          ((if img.is_grayscale then
              img.image_data.flatMap (fun row => row.flatMap (fun pixel => [pixel.r]))
            else
              img.image_data.flatMap
                (fun row => row.flatMap (fun pixel => [pixel.r, pixel.g, pixel.b])))
            ++ rest))) := by
    simp only [UncompressedImage.encodedFields, List.append_assoc]
  rw [hsplit]
  simp only [UncompressedImage.readFields]
  rw [IStream.read_exact _ _ _ (by simp [toLE32_length])]
  simp only
  rw [IStream.read_exact _ _ _ (by simp [toLE32_length])]
  simp only
  rw [IStream.read_exact _ _ _ (by simp), ofLE32_toLE32 _ hw, ofLE32_toLE32 _ hh]
  simp only [List.getD_cons_zero]
  cases hg : img.is_grayscale with
  | true =>
    have h1 : decide (toByte 1 = toByte 1) = true := by decide
    simp only [if_true, h1]
    rw [readGrid_encoded (readGrayPixel indet) (fun pixel => [pixel.r]) img.width img.height
      img.image_data (rgb 0 0 0) _ ?_ hrows hcols]
    · cases img
      simp only at hg
      subst hg
      rfl
    · intro row hrow v hv r
      have := hgray hg row hrow v hv
      exact readGrayPixel_encoded indet v r this.1 this.2
  | false =>
    have h0 : decide (toByte 0 = toByte 1) = false := by decide
    simp only [Bool.false_eq_true, if_false, h0]
    rw [readGrid_encoded (readColorPixel indet) (fun pixel => [pixel.r, pixel.g, pixel.b])
      img.width img.height img.image_data (rgb 0 0 0) _ ?_ hrows hcols]
    · cases img
      simp only at hg
      subst hg
      rfl
    · intro row _ v _ r
      exact readColorPixel_encoded indet v r

/-- The palette-reading loop consumes three bytes per iteration. -/
theorem paletteStep_foldl_stream (indet : Byte) (rest : List Byte) :
    ∀ (cs : List ColorRGB) (L : List Nat) (st : PaletteState),
      L.length = cs.length →
      st.s = IStream.mk (cs.flatMap (fun c => [c.r, c.g, c.b]) ++ rest) false →
      (L.foldl (paletteStep indet) st).s = IStream.mk rest false := by
  intro cs
  induction cs with
  | nil =>
    intro L st hL hs
    have : L = [] := List.length_eq_zero.1 hL
    subst this
    simpa using hs
  | cons c cs ih =>
    intro L st hL hs
    cases L with
    | nil => simp at hL
    | cons i L =>
      simp only [List.foldl_cons]
      apply ih L _ (by simpa using hL)
      simp only [paletteStep, hs, List.flatMap_cons, List.append_assoc]
      rw [readFromFileStream_encoded]

/-- What a successful `readIndex` does to the stream. -/
theorem readIndex_some (indet : Byte) (s s2 : IStream) (v : Byte)
    (h : readIndex indet s = (some v, s2)) :
    s2.fail = false ∧ s2.data.length + 1 = s.data.length := by
  unfold readIndex IStream.read at h
  by_cases hf : s.fail = true
  · simp [hf] at h
  · simp only [hf, Bool.false_eq_true, if_false, List.length_singleton] at h
    by_cases hl : 1 ≤ s.data.length
    · simp only [hl, if_true, Bool.false_eq_true, if_false, Prod.mk.injEq] at h
      obtain ⟨-, rfl⟩ := h
      simp only [List.length_drop, true_and]
      omega
    · simp [hl] at h

/-- One row of a reading loop whose reads consume one byte each: if it ends without
`return false`, it started that way and has consumed one byte per column. -/
theorem readGrid_row_consumes {α : Type} (readOne : IStream → Option α × IStream)
    (hone : ∀ (s s2 : IStream) (v : α), readOne s = (some v, s2) →
      s2.fail = false ∧ s2.data.length + 1 = s.data.length) (y : Nat) :
    ∀ (L : List Nat) (st : ReadState α),
      (L.foldl (fun (st : ReadState α) x =>
        if st.ok then
          match readOne st.s with
          | (some v, s2) => { ok := true, grid := setAt st.grid x y v, s := s2 }
          | (none, s2) => { ok := false, grid := st.grid, s := s2 }
        else st) st).ok = true →
      st.ok = true ∧
      (L.foldl (fun (st : ReadState α) x =>
        if st.ok then
          match readOne st.s with
          | (some v, s2) => { ok := true, grid := setAt st.grid x y v, s := s2 }
          | (none, s2) => { ok := false, grid := st.grid, s := s2 }
        else st) st).s.data.length + L.length = st.s.data.length := by
  intro L
  induction L with
  | nil => intro st h; exact ⟨h, rfl⟩
  | cons x L ih =>
    intro st h
    simp only [List.foldl_cons] at h ⊢
    obtain ⟨hok, hlen⟩ := ih _ h
    by_cases hst : st.ok = true
    · simp only [hst, if_true] at hok hlen ⊢
      cases hr : readOne st.s with
      | mk o s2 =>
        cases o with
        | none => simp [hr] at hok
        | some v =>
          simp only [hr] at hlen ⊢
          have := (hone st.s s2 v hr).2
          simp only [List.length_cons]
          exact ⟨trivial, by omega⟩
    · simp [hst] at hok

/-- A reading loop nest whose reads consume one byte each: if it ends without
`return false`, it has consumed one byte per grid position. -/
theorem readGrid_consumes {α : Type} (readOne : IStream → Option α × IStream)
    (hone : ∀ (s s2 : IStream) (v : α), readOne s = (some v, s2) →
      s2.fail = false ∧ s2.data.length + 1 = s.data.length) (width : Nat) :
    ∀ (L : List Nat) (st : ReadState α),
      (L.foldl (fun (st : ReadState α) y =>
        (List.range width).foldl (fun (st : ReadState α) x =>
          if st.ok then
            match readOne st.s with
            | (some v, s2) => { ok := true, grid := setAt st.grid x y v, s := s2 }
            | (none, s2) => { ok := false, grid := st.grid, s := s2 }
          else st) st) st).ok = true →
      st.ok = true ∧
      (L.foldl (fun (st : ReadState α) y =>
        (List.range width).foldl (fun (st : ReadState α) x =>
          if st.ok then
            match readOne st.s with
            | (some v, s2) => { ok := true, grid := setAt st.grid x y v, s := s2 }
            | (none, s2) => { ok := false, grid := st.grid, s := s2 }
          else st) st) st).s.data.length + L.length * width = st.s.data.length := by
  intro L
  induction L with
  | nil => intro st h; exact ⟨h, by simp⟩
  | cons y L ih =>
    intro st h
    simp only [List.foldl_cons] at h ⊢
    obtain ⟨hok, hlen⟩ := ih _ h
    obtain ⟨hok2, hlen2⟩ := readGrid_row_consumes readOne hone y (List.range width) st hok
    simp only [List.length_range] at hlen2
    refine ⟨hok2, ?_⟩
    simp only [List.length_cons, Nat.succ_mul]
    omega

/-- With fewer bytes than grid positions the index loop executes `return false`. -/
theorem readGrid_readIndex_short (indet : Byte) (width height : Nat)
    (grid : List (List Byte)) (idx : List Byte) (h : idx.length < width * height) :
    (readGrid (readIndex indet) width height grid (IStream.mk idx false)).ok = false := by
  rw [← Bool.not_eq_true]
  intro hok
  have := (readGrid_consumes (readIndex indet) (readIndex_some indet) width
    (List.range height) { ok := true, grid := grid, s := IStream.mk idx false } hok).2
  simp only [List.length_range] at this
  have e : height * width = width * height := Nat.mul_comm _ _
  omega

/-- The field-reading steps of `CompressedImage::readFromFile` on a stream that holds
width, height, `pow` and a complete palette section: what remains is the index loop on
the bytes `tail` that follow the palette. -/
theorem cmpr_readFields_palette (start : CompressedImage) (indet : Byte) (w h : Nat)
    (pow : Byte) (colors : List ColorRGB) (tail : List Byte)
    (hw : w < U32) (hh : h < U32) (hlen : colors.length = 2 ^ pow.val) :
    start.readFields (IStream.mk (toLE32 w ++ (toLE32 h ++ ([pow] ++
        (colors.flatMap (fun c => [c.r, c.g, c.b]) ++ tail)))) false) indet =
      ((readGrid (readIndex indet) w h (List.replicate h (List.replicate w (toByte 0)))
          (IStream.mk tail false)).ok,
       { width := w, height := h
         id_to_color := ((List.range (2 ^ pow.val)).foldl (paletteStep indet)
           { id_to_color := ColorTable.empty, color_to_id := fun _ => none
             s := IStream.mk (colors.flatMap (fun c => [c.r, c.g, c.b]) ++ tail) false
           }).id_to_color
         color_to_id := ((List.range (2 ^ pow.val)).foldl (paletteStep indet)
           { id_to_color := ColorTable.empty, color_to_id := fun _ => none
             s := IStream.mk (colors.flatMap (fun c => [c.r, c.g, c.b]) ++ tail) false
           }).color_to_id
         image_data := (readGrid (readIndex indet) w h
           (List.replicate h (List.replicate w (toByte 0))) (IStream.mk tail false)).grid },
       (readGrid (readIndex indet) w h (List.replicate h (List.replicate w (toByte 0)))
          (IStream.mk tail false)).s) := by
  simp only [CompressedImage.readFields]
  rw [IStream.read_exact _ _ _ (by simp [toLE32_length])]
  simp only
  rw [IStream.read_exact _ _ _ (by simp [toLE32_length])]
  simp only
  rw [IStream.read_exact _ _ _ (by simp), ofLE32_toLE32 _ hw, ofLE32_toLE32 _ hh]
  simp only [List.getD_cons_zero]
  have hs := paletteStep_foldl_stream indet tail colors (List.range (2 ^ pow.val))
    { id_to_color := ColorTable.empty, color_to_id := fun _ => none
      s := IStream.mk (colors.flatMap (fun c => [c.r, c.g, c.b]) ++ tail) false }
    (by rw [List.length_range, hlen]) rfl
  rw [hs]

/-- The field-reading steps of `CompressedImage::readFromFile` on the encoded fields of a
grid of `h` rows of `w` indices with a complete palette section, whatever follows. -/
theorem cmpr_readFields_encoded (start : CompressedImage) (indet : Byte) (w h : Nat)
    (pow : Byte) (colors : List ColorRGB) (grid : List (List Byte)) (rest : List Byte)
    (hw : w < U32) (hh : h < U32) (hlen : colors.length = 2 ^ pow.val)
    (hrows : grid.length = h) (hcols : ∀ row ∈ grid, row.length = w) :
    (start.readFields (IStream.mk (cmprFields w h pow colors grid ++ rest) false) indet).1 =
      true ∧
    (start.readFields
      (IStream.mk (cmprFields w h pow colors grid ++ rest) false) indet).2.1.width = w ∧
    (start.readFields
      (IStream.mk (cmprFields w h pow colors grid ++ rest) false) indet).2.1.height = h ∧
    (start.readFields
      (IStream.mk (cmprFields w h pow colors grid ++ rest) false) indet).2.1.image_data =
        grid ∧
    (start.readFields
      (IStream.mk (cmprFields w h pow colors grid ++ rest) false) indet).2.2 =
        IStream.mk rest false ∧
    (colors.length ≤ 256 →
      (start.readFields
        (IStream.mk (cmprFields w h pow colors grid ++ rest) false) indet).2.1.id_to_color =
          ColorTable.ofList colors) := by
  have hsplit : cmprFields w h pow colors grid ++ rest =
      toLE32 w ++ (toLE32 h ++ ([pow] ++ (colors.flatMap (fun c => [c.r, c.g, c.b]) ++
        (grid.flatMap (fun row => row.flatMap (fun color_id => [color_id])) ++ rest)))) := by
    simp only [cmprFields, List.append_assoc]
  rw [hsplit, cmpr_readFields_palette start indet w h pow colors _ hw hh hlen]
  rw [readGrid_encoded (readIndex indet) (fun color_id => [color_id]) w h grid (toByte 0) _
    (fun _ _ v _ r => readIndex_encoded indet v r) hrows hcols]
  refine ⟨rfl, rfl, rfl, rfl, rfl, ?_⟩
  intro h256
  have hpalette := paletteStep_foldl indet
    (grid.flatMap (fun row => row.flatMap (fun color_id => [color_id])) ++ rest)
    colors [] (fun _ => none) (by simpa using h256)
  have hempty : ColorTable.ofList [] = ColorTable.empty := by
    simp [ColorTable.empty, ColorTable.ofList]
  simp only [List.length_nil, ← List.range_eq_range', List.nil_append, hlen, hempty]
    at hpalette
  exact hpalette.1

/-- C16: for both custom codecs, when the first 10 bytes of the file are not the format
magic or the next 3 bytes are not the version, `readFromFile` returns failure and leaves
the receiving image exactly as it was; and on a stream that starts with three bytes other
than the version, the steps after the magic comparison return failure before anything is
stored in the image. -/
theorem C16_bad_magic_or_version_rejected (file : List Byte) (indet : Byte) :
    (∀ img : UncompressedImage,
      (file.take 10 ≠ charArray10 RAWIMAGE ∨
        (file.drop 10).take 3 ≠ [toByte 1, toByte 0, toByte 0]) →
      img.readFromFile file indet = (false, img)) ∧
    (∀ img : CompressedImage,
      (file.take 10 ≠ charArray10 CMPRIMAGE ∨
        (file.drop 10).take 3 ≠ [toByte 6, toByte 6, toByte 6]) →
      img.readFromFile file indet = (false, img)) ∧
    (∀ (img : UncompressedImage) (v0 v1 v2 : Byte) (rest : List Byte),
      [v0, v1, v2] ≠ [toByte 1, toByte 0, toByte 0] →
      img.readAfterMagic (IStream.mk ([v0, v1, v2] ++ rest) false) indet = (false, img)) ∧
    (∀ (img : CompressedImage) (v0 v1 v2 : Byte) (rest : List Byte),
      [v0, v1, v2] ≠ [toByte 6, toByte 6, toByte 6] →
      img.readAfterMagic (IStream.mk ([v0, v1, v2] ++ rest) false) indet = (false, img)) := by
  refine ⟨fun img _ => raw_readFromFile_fails img file indet,
    fun img _ => cmpr_readFromFile_fails img file indet, ?_, ?_⟩
  · intro img v0 v1 v2 rest hne
    have hv : v0 ≠ toByte 1 ∨ v1 ≠ toByte 0 ∨ v2 ≠ toByte 0 := by
      by_contra hc
      simp only [not_or, not_not] at hc
      exact hne (by rw [hc.1, hc.2.1, hc.2.2])
    simp only [UncompressedImage.readAfterMagic]
    rw [IStream.read_exact _ _ _ (by simp)]
    simp only [List.getD_cons_zero, List.getD_cons_succ]
    rw [if_pos hv]
  · intro img v0 v1 v2 rest hne
    have hv : v0 ≠ toByte 6 ∨ v1 ≠ toByte 6 ∨ v2 ≠ toByte 6 := by
      by_contra hc
      simp only [not_or, not_not] at hc
      exact hne (by rw [hc.1, hc.2.1, hc.2.2])
    simp only [CompressedImage.readAfterMagic]
    rw [IStream.read_exact _ _ _ (by simp)]
    simp only [List.getD_cons_zero, List.getD_cons_succ]
    rw [if_pos hv]

/-- C16 at the encoding of the 2 by 1 raw image with its version changed to `{2,0,0}`. -/
theorem C16_bad_magic_or_version_rejected_witness :
    ((charArray10 RAWIMAGE ++ [toByte 2, toByte 0, toByte 0] ++ rawSample.encodedFields).take 10
        ≠ charArray10 RAWIMAGE ∨
      ((charArray10 RAWIMAGE ++ [toByte 2, toByte 0, toByte 0] ++
          rawSample.encodedFields).drop 10).take 3 ≠ [toByte 1, toByte 0, toByte 0]) ∧
    UncompressedImage.new.readFromFile
        (charArray10 RAWIMAGE ++ [toByte 2, toByte 0, toByte 0] ++ rawSample.encodedFields)
        (toByte 0) = (false, UncompressedImage.new) :=
  ⟨Or.inr (by decide),
   (C16_bad_magic_or_version_rejected
      (charArray10 RAWIMAGE ++ [toByte 2, toByte 0, toByte 0] ++ rawSample.encodedFields)
      (toByte 0)).1 UncompressedImage.new (Or.inr (by decide))⟩

/-- C17: on a CMPRIMAGE stream with the magic, the version, width, height, a `pow` byte
and a complete palette section of `2 ^ pow` colors, followed by fewer than
`width * height` bytes, `CompressedImage::readFromFile` returns failure; the steps after
the magic comparison return failure as well, through the check of the index loop. -/
theorem C17_short_index_data_fails (img : CompressedImage) (indet : Byte) (w h : Nat)
    (pow : Byte) (colors : List ColorRGB) (idx : List Byte)
    (hw : w < U32) (hh : h < U32) (hlen : colors.length = 2 ^ pow.val)
    (hshort : idx.length < w * h) :
    (img.readFromFile
      (charArray10 CMPRIMAGE ++ ([toByte 6, toByte 6, toByte 6] ++ (toLE32 w ++ (toLE32 h ++
        ([pow] ++ (colors.flatMap (fun c => [c.r, c.g, c.b]) ++ idx)))))) indet).1 = false ∧
    (img.readAfterMagic
      (IStream.mk ([toByte 6, toByte 6, toByte 6] ++ (toLE32 w ++ (toLE32 h ++
        ([pow] ++ (colors.flatMap (fun c => [c.r, c.g, c.b]) ++ idx))))) false) indet).1 =
      false := by
  constructor
  · rw [cmpr_readFromFile_fails]
  · simp only [CompressedImage.readAfterMagic]
    rw [IStream.read_exact _ _ _ (by simp)]
    simp only [List.getD_cons_zero, List.getD_cons_succ, ne_eq, not_true_eq_false, or_self,
      if_false]
    rw [cmpr_readFields_palette img indet w h pow colors idx hw hh hlen]
    simp only [readGrid_readIndex_short indet w h _ idx hshort, if_true]

/-- C17 at a 2 by 2 grid with a one-color palette and three index bytes. -/
theorem C17_short_index_data_fails_witness :
    ((2 : Nat) < U32 ∧ [rgb 1 2 3].length = 2 ^ (toByte 0).val ∧
      [toByte 0, toByte 0, toByte 0].length < 2 * 2) ∧
    (CompressedImage.new.readAfterMagic
      (IStream.mk ([toByte 6, toByte 6, toByte 6] ++ (toLE32 2 ++ (toLE32 2 ++
        ([toByte 0] ++ ([rgb 1 2 3].flatMap (fun c => [c.r, c.g, c.b]) ++
          [toByte 0, toByte 0, toByte 0]))))) false) (toByte 0)).1 = false :=
  ⟨⟨by decide, by decide, by decide⟩,
   (C17_short_index_data_fails CompressedImage.new (toByte 0) 2 2 (toByte 0) [rgb 1 2 3]
      [toByte 0, toByte 0, toByte 0] (by decide) (by decide) (by decide) (by decide)).2⟩

theorem raw_checkTrailer_fails (body : UncompressedImage × IStream) (indet : Byte) :
    UncompressedImage.checkTrailer body indet = (false, body.1) := by
  have h : stringNe (body.2.read (List.replicate 10 indet)).1 RAWIMGEND = true :=
    stringNe_of_short _ _ (by rw [IStream.read_length]; simp) (by decide)
  simp only [UncompressedImage.checkTrailer, h, if_true]

/-- The ten bytes that a read into an uninitialised ten-byte buffer leaves in it: the
bytes of the stream, then what the buffer held. -/
theorem IStream.read_ten (tail : List Byte) (indet : Byte) :
    ((IStream.mk tail false).read (List.replicate 10 indet)).1 =
      (tail ++ List.replicate 10 indet).take 10 := by
  simp only [IStream.read, Bool.false_eq_true, if_false, List.length_replicate]
  by_cases h : 10 ≤ tail.length
  · simp only [h, if_true]
    rw [List.take_append_of_le_length h]
  · simp only [h, if_false]
    have hlt : tail.length < 10 := by omega
    rw [List.take_append_eq_append_take, List.take_of_length_le (by omega)]
    congr 1
    simp only [List.drop_replicate, List.take_replicate]
    congr 1
    omega

theorem cmpr_checkTrailer_mismatch (img : CompressedImage) (tail : List Byte) (indet : Byte)
    (h : (tail ++ List.replicate 10 indet).take 10 ≠ charArray10 CMPRIMGEND) :
    CompressedImage.checkTrailer (img, IStream.mk tail false) indet = (false, img) := by
  have hc : cString CMPRIMGEND = charArray10 CMPRIMGEND := by decide
  have hne : stringNe ((IStream.mk tail false).read (List.replicate 10 indet)).1 CMPRIMGEND
      = true := by
    unfold stringNe
    rw [decide_eq_true_iff, IStream.read_ten, hc]
    exact h
  simp only [CompressedImage.checkTrailer, hne, if_true]

/-- C18 as amended: on a RAWIMAGE or CMPRIMAGE stream that is well-formed from the version
up to and including the last pixel or index byte, when the ten bytes that the end buffer
holds after its read (the bytes that follow in the stream, then leftover uninitialised
content) are not the written end signature, the steps of the decoder after the magic
comparison return failure (a hard failure, not a soft warning), while the image holds the
width, the height and every pixel or index encoded in the stream. -/
theorem C18_trailer_mismatch_hard_failure (indet : Byte) (tail : List Byte) :
    (∀ (img start : UncompressedImage), img.width < U32 → img.height < U32 →
      img.image_data.length = img.height →
      (∀ row ∈ img.image_data, row.length = img.width) →
      (img.is_grayscale = true → ∀ row ∈ img.image_data, ∀ p ∈ row, p.g = p.r ∧ p.b = p.r) →
      (tail ++ List.replicate 10 indet).take 10 ≠ charArray10 RAWIMGEND →
      start.readAfterMagic
        (IStream.mk ([toByte 1, toByte 0, toByte 0] ++ (img.encodedFields ++ tail)) false)
        indet = (false, img)) ∧
    (∀ (start : CompressedImage) (w h : Nat) (pow : Byte) (colors : List ColorRGB)
        (grid : List (List Byte)),
      w < U32 → h < U32 → colors.length = 2 ^ pow.val → grid.length = h →
      (∀ row ∈ grid, row.length = w) →
      (tail ++ List.replicate 10 indet).take 10 ≠ charArray10 CMPRIMGEND →
      (start.readAfterMagic
        (IStream.mk ([toByte 6, toByte 6, toByte 6] ++ (cmprFields w h pow colors grid ++ tail))
          false) indet).1 = false ∧
      (start.readAfterMagic
        (IStream.mk ([toByte 6, toByte 6, toByte 6] ++ (cmprFields w h pow colors grid ++ tail))
          false) indet).2.width = w ∧
      (start.readAfterMagic
        (IStream.mk ([toByte 6, toByte 6, toByte 6] ++ (cmprFields w h pow colors grid ++ tail))
          false) indet).2.height = h ∧
      (start.readAfterMagic
        (IStream.mk ([toByte 6, toByte 6, toByte 6] ++ (cmprFields w h pow colors grid ++ tail))
          false) indet).2.image_data = grid) := by
  constructor
  · intro img start hw hh hrows hcols hgray _
    simp only [UncompressedImage.readAfterMagic]
    rw [IStream.read_exact _ _ _ (by simp)]
    simp only [List.getD_cons_zero, List.getD_cons_succ, ne_eq, not_true_eq_false, or_self,
      if_false]
    rw [raw_readFields_encoded img start indet tail hw hh hrows hcols hgray,
      raw_checkTrailer_fails]
  · intro start w h pow colors grid hw hh hlen hrows hcols htail
    obtain ⟨e1, e2, e3, e4, e5, -⟩ :=
      cmpr_readFields_encoded start indet w h pow colors grid tail hw hh hlen hrows hcols
    simp only [CompressedImage.readAfterMagic]
    rw [IStream.read_exact _ _ _ (by simp)]
    simp only [List.getD_cons_zero, List.getD_cons_succ, ne_eq, not_true_eq_false, or_self,
      if_false]
    rw [e1]
    simp only [Bool.true_eq_false, if_false]
    have hb : (start.readFields
        (IStream.mk (cmprFields w h pow colors grid ++ tail) false) indet).2 =
        ((start.readFields
          (IStream.mk (cmprFields w h pow colors grid ++ tail) false) indet).2.1,
         IStream.mk tail false) := by
      rw [← e5]
    rw [hb, cmpr_checkTrailer_mismatch _ tail indet htail]
    exact ⟨rfl, e2, e3, e4⟩

/-- C18 as amended, at the 2 by 1 raw image followed by no trailer and at a 2 by 1 grid
with a two-color palette followed by no trailer. -/
theorem C18_trailer_mismatch_hard_failure_witness :
    ((([] : List Byte) ++ List.replicate 10 (toByte 0)).take 10 ≠ charArray10 RAWIMGEND ∧
      UncompressedImage.new.readAfterMagic
        (IStream.mk ([toByte 1, toByte 0, toByte 0] ++ (rawSample.encodedFields ++ [])) false)
        (toByte 0) = (false, rawSample)) ∧
    ((([] : List Byte) ++ List.replicate 10 (toByte 0)).take 10 ≠ charArray10 CMPRIMGEND ∧
      (CompressedImage.new.readAfterMagic
        (IStream.mk ([toByte 6, toByte 6, toByte 6] ++
          (cmprFields 2 1 (toByte 1) [rgb 0 0 0, rgb 255 255 255] [[toByte 1, toByte 0]] ++ []))
          false) (toByte 0)).2.image_data = [[toByte 1, toByte 0]]) :=
  ⟨⟨by decide,
    (C18_trailer_mismatch_hard_failure (toByte 0) []).1 rawSample UncompressedImage.new
      (by decide) (by decide) (by decide) (by decide) (by decide) (by decide)⟩,
   ⟨by decide,
    ((C18_trailer_mismatch_hard_failure (toByte 0) []).2 CompressedImage.new 2 1 (toByte 1)
      [rgb 0 0 0, rgb 255 255 255] [[toByte 1, toByte 0]]
      (by decide) (by decide) (by decide) (by decide) (by decide) (by decide)).2.2.2⟩⟩

/-- C18 fails at the encoding of the 2 by 1 raw image without its end signature:
`readFromFile` returns failure and the receiving image stays empty; the same stream from
the version on makes the steps after the magic comparison return failure, with the image
decoded; likewise for the encoding of a 2 by 1 compressed image without its end
signature. -/
theorem C18_soft_warning_counterexample :
    UncompressedImage.new.readFromFile
        (charArray10 RAWIMAGE ++ [toByte 1, toByte 0, toByte 0] ++ rawSample.encodedFields)
        (toByte 0) = (false, UncompressedImage.new) ∧
    UncompressedImage.new.readAfterMagic
        (IStream.mk ([toByte 1, toByte 0, toByte 0] ++ rawSample.encodedFields) false)
        (toByte 0) = (false, rawSample) ∧
    (CompressedImage.new.readFromFile
        (charArray10 CMPRIMAGE ++ [toByte 6, toByte 6, toByte 6] ++
          cmprFields 2 1 (toByte 1) [rgb 0 0 0, rgb 255 255 255] [[toByte 1, toByte 0]])
        (toByte 0)).1 = false ∧
    (CompressedImage.new.readAfterMagic
        (IStream.mk ([toByte 6, toByte 6, toByte 6] ++
          cmprFields 2 1 (toByte 1) [rgb 0 0 0, rgb 255 255 255] [[toByte 1, toByte 0]]) false)
        (toByte 0)).1 = false := by
  decide

theorem ColorTable.size_le (t : ColorTable) : t.size ≤ 256 := by
  unfold ColorTable.size ColorTable.entries
  have := List.length_filterMap_le (fun id => (t.find id).map (fun c => (id, c)))
    (List.finRange 256)
  simpa using this

theorem flatMap_three_length {α : Type} (l : List α) (a b c : α → Byte) :
    (l.flatMap (fun e => [a e, b e, c e])).length = 3 * l.length := by
  induction l with
  | nil => rfl
  | cons x xs ih =>
    simp only [List.flatMap_cons, List.length_append, ih, List.length_cons, List.length_nil]
    omega

theorem grid_bytes_length (w : Nat) :
    ∀ (h : Nat) (grid : List (List Byte)), grid.length = h →
      (∀ row ∈ grid, row.length = w) →
      (grid.flatMap (fun row => row.flatMap (fun color_id => [color_id]))).length = w * h := by
  intro h grid
  induction grid generalizing h with
  | nil => intro hl _; subst hl; simp
  | cons row rows ih =>
    intro hl hrow
    have hsing : ∀ r : List Byte, (r.flatMap (fun color_id => [color_id])).length = r.length := by
      intro r
      induction r with
      | nil => rfl
      | cons a r ihr => simp only [List.flatMap_cons, List.length_append, ihr,
          List.length_cons, List.length_nil]; omega
    simp only [List.flatMap_cons, List.length_append, hsing]
    rw [ih rows.length rfl (fun r hr => hrow r (List.mem_cons_of_mem _ hr)),
      hrow row (List.mem_cons_self _ _)]
    subst hl
    simp only [List.length_cons, Nat.mul_succ]
    omega

/-- The bytes of `CompressedImage::writeToFile` for a palette of `N` entries: the byte
`pow` is the least exponent with `2 ^ pow >= N`, the palette section has the `N` colors of
the map in key order and nothing else, and on a grid that matches width and height the
output has `10 + 3 + 4 + 4 + 1 + 3 * N + width * height + 10` bytes; when `N = 2 ^ pow`
with the colors under the keys `0 .. N - 1`, the field-reading steps of the decoder read
back the index grid and the palette. -/
theorem cmpr_writeToFile_layout (img : CompressedImage) :
    img.id_to_color.size ≤ 2 ^ powLoop img.id_to_color.size 9 0 ∧
    powLoop img.id_to_color.size 9 0 ≤ 8 ∧
    (∀ q, q < powLoop img.id_to_color.size 9 0 → 2 ^ q < img.id_to_color.size) ∧
    img.writeToFile = charArray10 CMPRIMAGE ++ [toByte 6, toByte 6, toByte 6] ++
      cmprFields img.width img.height (toByte (powLoop img.id_to_color.size 9 0))
        (img.id_to_color.entries.map Prod.snd) img.image_data ++ charArray10 CMPRIMGEND ∧
    (img.id_to_color.entries.map Prod.snd).length = img.id_to_color.size ∧
    (img.GridOK → img.writeToFile.length =
      10 + 3 + 4 + 4 + 1 + 3 * img.id_to_color.size + img.width * img.height + 10) ∧
    (∀ (start : CompressedImage) (indet : Byte) (colors : List ColorRGB),
      img.GridOK → img.width < U32 → img.height < U32 →
      img.id_to_color = ColorTable.ofList colors →
      colors.length = 2 ^ powLoop img.id_to_color.size 9 0 →
      (start.readFields (IStream.mk (img.writeToFile.drop 13) false) indet).1 = true ∧
      (start.readFields (IStream.mk (img.writeToFile.drop 13) false) indet).2.1.id_to_color =
        img.id_to_color ∧
      (start.readFields (IStream.mk (img.writeToFile.drop 13) false) indet).2.1.image_data =
        img.image_data) := by
  obtain ⟨h1, h2, h3⟩ := powLoop_least img.id_to_color.size img.id_to_color.size_le
  refine ⟨h1, h2, h3, cmpr_writeToFile_eq img, by simp [ColorTable.size], ?_, ?_⟩
  · intro hg
    simp only [CompressedImage.writeToFile, List.length_append, charArray10_length,
      toLE32_length, flatMap_three_length, List.length_cons, List.length_nil,
      grid_bytes_length img.width img.height img.image_data hg.1 hg.2, ColorTable.size]
  · intro start indet colors hg hw hh hpal hlen
    have r := cmpr_readFields_written img start indet (powLoop img.id_to_color.size 9 0)
      colors h2 hpal hlen hw hh hg.1 hg.2
    exact ⟨r.2.1, r.2.2.2.2.1, r.2.2.2.2.2.1⟩

/-- C19, the code at a palette of three colors: for the 1 by 1 image with the palette
(1,1,1), (2,2,2), (3,3,3) under the keys 0, 1, 2 and the index 2, `writeToFile` writes
`pow` = 2 and then the three colors only, directly followed by the index byte and the end
signature, 42 bytes in all instead of `10 + 3 + 4 + 4 + 1 + 3 * 2 ^ 2 + 1 + 10 = 45`.  The
decoder of the same class reads `2 ^ pow` = 4 colors from these bytes: it takes the index
byte and the first two bytes of the end signature for the color of key 3, reads the next
signature byte, 80, for the index, finds seven bytes where it expects the end signature
and returns `false`.  At the 2 by 1 image with two colors, where `2 ^ pow` is the palette
size, the same steps return `true` with the index grid as written. -/
theorem C19_three_color_palette_misread :
    threeColorImage.id_to_color.size = 3 ∧
    powLoop threeColorImage.id_to_color.size 9 0 = 2 ∧
    threeColorImage.writeToFile.length = 42 ∧
    threeColorImage.writeToFile.drop 22 =
      [toByte 1, toByte 1, toByte 1, toByte 2, toByte 2, toByte 2, toByte 3, toByte 3,
        toByte 3, toByte 2] ++ charArray10 CMPRIMGEND ∧
    (CompressedImage.new.readFields
      (IStream.mk (threeColorImage.writeToFile.drop 13) false) (toByte 0)).2.1.id_to_color.size
        = 4 ∧
    (CompressedImage.new.readFields
      (IStream.mk (threeColorImage.writeToFile.drop 13) false) (toByte 0)).2.1.id_to_color.find
        (toByte 3) = some (rgb 2 67 77) ∧
    (CompressedImage.new.readFields
      (IStream.mk (threeColorImage.writeToFile.drop 13) false) (toByte 0)).2.1.image_data =
        [[toByte 80]] ∧
    threeColorImage.image_data = [[toByte 2]] ∧
    (CompressedImage.new.readFields
      (IStream.mk (threeColorImage.writeToFile.drop 13) false) (toByte 0)).2.2.data.length
        = 7 ∧
    (CompressedImage.new.readAfterMagic
      (IStream.mk (threeColorImage.writeToFile.drop 10) false) (toByte 0)).1 = false ∧
    (CompressedImage.new.readAfterMagic
      (IStream.mk (cmprSample.writeToFile.drop 10) false) (toByte 0)).1 = true ∧
    (CompressedImage.new.readAfterMagic
      (IStream.mk (cmprSample.writeToFile.drop 10) false) (toByte 0)).2.image_data =
        cmprSample.image_data := by
  decide

/-! ## Validation of the kernel -/

/-- When the validation test of `applyKernel` holds, the function returns at once and the
image is the one passed in. -/
theorem applyKernel_rejected (img : Flat.UncompressedImage) (kernel : List (List Int))
    (divisor : Int) (h : kernelRejected kernel = true) :
    applyKernel img kernel divisor = some img := by
  unfold applyKernel
  rw [if_pos h]

/-- The validation test of `applyKernel` holds for the empty kernel, for a kernel with an
even number of rows, and for a kernel whose first row differs in length from the number
of rows. -/
theorem kernelRejected_cases (kernel : List (List Int))
    (h : kernel = [] ∨ kernel.length % 2 = 0 ∨ (kernel.headD []).length ≠ kernel.length) :
    kernelRejected kernel = true := by
  unfold kernelRejected
  rcases h with h | h | h
  · rw [h]; rfl
  · simp [h]
  · have h2 : kernel.length ≠ (kernel.headD []).length := fun e => h e.symm
    rw [decide_eq_true h2, Bool.or_true, Bool.true_or]

/-- C11: the validation of `applyKernel` compares the number of rows with the length of
the first row only.  The empty kernel, a 2 by 2 kernel and a 3 by 4 kernel are rejected
and leave the sample image as it is; a kernel of three rows whose middle row has four
entries, or two entries, is not square and still passes: with the long row the run
replaces the six pixels of the sample image by (0, 0, 0), with the short row the run reads
`kernel[1][2]` outside the row. -/
theorem C11_only_first_row_validated :
    applyKernel image3x2 [] 1 = some image3x2 ∧
    applyKernel image3x2 [[1, 2], [3, 4]] 1 = some image3x2 ∧
    applyKernel image3x2 [[1, 2, 3, 4], [1, 2, 3, 4], [1, 2, 3, 4]] 1 = some image3x2 ∧
    (∃ row ∈ longRowKernel, row.length ≠ longRowKernel.length) ∧
    kernelRejected longRowKernel = false ∧
    applyKernel image3x2 longRowKernel 1 =
      some { image3x2 with pixels := List.replicate 6 (rgb 0 0 0) } ∧
    (∃ row ∈ raggedKernel, row.length ≠ raggedKernel.length) ∧
    kernelRejected raggedKernel = false ∧
    applyKernel whitePixelImage raggedKernel 1 = none := by
  decide

/-! ## Convolution -/

theorem toInt32_of_range (z : Int) (h1 : -2147483648 ≤ z) (h2 : z < 2147483648) :
    toInt32 z = z := by
  unfold toInt32
  omega

theorem toInt32_of_natAbs (z : Int) (h : z.natAbs < 2147483648) : toInt32 z = z := by
  apply toInt32_of_range <;> omega

theorem clampInt_bounds (v lo hi : Int) (h : lo ≤ hi) :
    lo ≤ clampInt v lo hi ∧ clampInt v lo hi ≤ hi := by
  unfold clampInt
  split_ifs <;> omega

theorem natAbs_add_mul_le (a k : Int) (p : Byte) :
    (a + (p.val : Int) * k).natAbs ≤ a.natAbs + 255 * k.natAbs := by
  have h1 := Int.natAbs_add_le a ((p.val : Int) * k)
  have h2 : ((p.val : Int) * k).natAbs = p.val * k.natAbs := by
    rw [Int.natAbs_mul, Int.natAbs_ofNat]
  have h3 : p.val * k.natAbs ≤ 255 * k.natAbs :=
    Nat.mul_le_mul_right _ (by have := p.isLt; omega)
  omega

theorem ChannelSums.add_inRange (s : ChannelSums) (p : Pixel) (k : Int) (slack : Nat)
    (h : s.InRange (255 * k.natAbs + slack)) : (s.add p k).InRange slack := by
  obtain ⟨hr, hg, hb⟩ := h
  have := natAbs_add_mul_le s.sum_r k p.r
  have := natAbs_add_mul_le s.sum_g k p.g
  have := natAbs_add_mul_le s.sum_b k p.b
  refine ⟨?_, ?_, ?_⟩ <;> simp only [ChannelSums.add] <;> omega

theorem clampCoord_lt (v : Int) (n : Nat) (hn : 1 ≤ n) :
    clampCoord v n < n ∧ ((clampCoord v n : Nat) : Int) = clampInt v 0 ((n : Int) - 1) := by
  have hb := clampInt_bounds v 0 ((n : Int) - 1) (by omega)
  unfold clampCoord
  constructor <;> omega

theorem kernelEntry_lookup (kernel : List (List Int)) (n ky kx : Nat)
    (hK : kernel.length = n) (hrows : ∀ row ∈ kernel, row.length = n)
    (hky : ky < n) (hkx : kx < n) :
    (kernel[ky]?).bind (fun row => row[kx]?) = some (kernelEntry kernel ky kx) := by
  have h1 : ky < kernel.length := by omega
  have h2 : kx < (kernel[ky]).length := by
    rw [hrows _ (List.getElem_mem h1)]; exact hkx
  simp only [kernelEntry, List.getElem?_eq_getElem h1, Option.some_bind,
    List.getElem?_eq_getElem h2, List.getD_eq_getElem?_getD, Option.getD_some]

theorem getPixel_lookup (img : Flat.UncompressedImage) (hwf : img.WellFormed) (cx cy : Nat)
    (hx : cx < img.width) (hy : cy < img.height) :
    img.pixels[cy * img.width + cx]? = some (img.getPixel cx cy) := by
  obtain ⟨-, -, hWH, hlen⟩ := hwf
  have h0 : cy * img.width + cx < img.width * img.height := by
    rw [Nat.mul_comm img.width img.height]; exact index_lt img.height img.width cy cx hy hx
  have h1 : cy * img.width + cx < img.pixels.length := by rw [hlen]; exact h0
  simp only [Flat.UncompressedImage.getPixel, Nat.mod_eq_of_lt (Nat.lt_trans h0 hWH),
    List.getD_eq_getElem?_getD, List.getElem?_eq_getElem h1, Option.getD_some]

/-- One step of the inner loops of `applyKernel` when every `int` computation of the
position stays in range: the body adds the sampled pixel weighted by the kernel entry,
each accumulator wrapped to `int`. -/
theorem kernelCell_eval (img : Flat.UncompressedImage) (kernel : List (List Int)) (m : Nat)
    (x y ky kx : Nat) (s : ChannelSums) (hwf : img.WellFormed)
    (hx : x < img.width) (hy : y < img.height) (hky : ky < 2 * m + 1) (hkx : kx < 2 * m + 1)
    (hK : kernel.length = 2 * m + 1) (hrows : ∀ row ∈ kernel, row.length = 2 * m + 1)
    (hwm : img.width + (2 * m + 1) ≤ 2147483648)
    (hhm : img.height + (2 * m + 1) ≤ 2147483648) :
    kernelCell img kernel (m : Int) x y (some s) ky kx =
      some
        { sum_r := toInt32 ((s.add
            (img.getPixel (clampCoord ((x : Int) + (kx : Int) - (m : Int)) img.width)
              (clampCoord ((y : Int) + (ky : Int) - (m : Int)) img.height))
            (kernelEntry kernel ky kx)).sum_r)
          sum_g := toInt32 ((s.add
            (img.getPixel (clampCoord ((x : Int) + (kx : Int) - (m : Int)) img.width)
              (clampCoord ((y : Int) + (ky : Int) - (m : Int)) img.height))
            (kernelEntry kernel ky kx)).sum_g)
          sum_b := toInt32 ((s.add
            (img.getPixel (clampCoord ((x : Int) + (kx : Int) - (m : Int)) img.width)
              (clampCoord ((y : Int) + (ky : Int) - (m : Int)) img.height))
            (kernelEntry kernel ky kx)).sum_b) } := by
  have hcx := clampCoord_lt ((x : Int) + (kx : Int) - (m : Int)) img.width (by omega)
  have hcy := clampCoord_lt ((y : Int) + (ky : Int) - (m : Int)) img.height (by omega)
  have e1 : toInt32 ((x : Int) + (kx : Int) - (m : Int)) = (x : Int) + (kx : Int) - (m : Int) :=
    toInt32_of_range _ (by omega) (by omega)
  have e2 : toInt32 ((y : Int) + (ky : Int) - (m : Int)) = (y : Int) + (ky : Int) - (m : Int) :=
    toInt32_of_range _ (by omega) (by omega)
  have e3 : toInt32 (toInt32 (img.width : Int) - 1) = (img.width : Int) - 1 := by
    rw [toInt32_of_range (img.width : Int) (by omega) (by omega)]
    exact toInt32_of_range _ (by omega) (by omega)
  have e4 : toInt32 (toInt32 (img.height : Int) - 1) = (img.height : Int) - 1 := by
    rw [toInt32_of_range (img.height : Int) (by omega) (by omega)]
    exact toInt32_of_range _ (by omega) (by omega)
  have hidx : ((clampInt ((y : Int) + (ky : Int) - (m : Int)) 0 ((img.height : Int) - 1) *
        (img.width : Int) +
        clampInt ((x : Int) + (kx : Int) - (m : Int)) 0 ((img.width : Int) - 1)) %
          (U32 : Int)).toNat =
      clampCoord ((y : Int) + (ky : Int) - (m : Int)) img.height * img.width +
        clampCoord ((x : Int) + (kx : Int) - (m : Int)) img.width := by
    rw [← hcx.2, ← hcy.2]
    have h0 : clampCoord ((y : Int) + (ky : Int) - (m : Int)) img.height * img.width +
        clampCoord ((x : Int) + (kx : Int) - (m : Int)) img.width < img.width * img.height := by
      rw [Nat.mul_comm img.width img.height]
      exact index_lt img.height img.width _ _ hcy.1 hcx.1
    have h1 := hwf.2.2.1
    have hcast : ((clampCoord ((y : Int) + (ky : Int) - (m : Int)) img.height : Nat) : Int) *
        (img.width : Int) +
        ((clampCoord ((x : Int) + (kx : Int) - (m : Int)) img.width : Nat) : Int) =
        ((clampCoord ((y : Int) + (ky : Int) - (m : Int)) img.height * img.width +
          clampCoord ((x : Int) + (kx : Int) - (m : Int)) img.width : Nat) : Int) := by
      push_cast; rfl
    rw [hcast, Int.emod_eq_of_lt (Int.ofNat_nonneg _) (by exact_mod_cast Nat.lt_trans h0 h1),
      Int.toNat_ofNat]
  simp only [kernelCell, e1, e2, e3, e4, hidx,
    getPixel_lookup img hwf _ _ hcx.1 hcy.1,
    kernelEntry_lookup kernel (2 * m + 1) ky kx hK hrows hky hkx, ChannelSums.add]

/-- When width and height, increased by the side of the kernel, stay within `int`, every
step of the inner loops is exact. -/
theorem cellsExact_of_range (img : Flat.UncompressedImage) (kernel : List (List Int)) (m : Nat)
    (hwf : img.WellFormed)
    (hK : kernel.length = 2 * m + 1) (hrows : ∀ row ∈ kernel, row.length = 2 * m + 1)
    (hwm : img.width + (2 * m + 1) ≤ 2147483648)
    (hhm : img.height + (2 * m + 1) ≤ 2147483648) : CellsExact img kernel m :=
  fun x y ky kx s hx hy hky hkx =>
    kernelCell_eval img kernel m x y ky kx s hwf hx hy hky hkx hK hrows hwm hhm

theorem kernelCell_add (img : Flat.UncompressedImage) (kernel : List (List Int)) (m : Nat)
    (x y ky kx : Nat) (s : ChannelSums) (hwf : img.WellFormed)
    (hx : x < img.width) (hy : y < img.height) (hky : ky < 2 * m + 1) (hkx : kx < 2 * m + 1)
    (hK : kernel.length = 2 * m + 1) (hrows : ∀ row ∈ kernel, row.length = 2 * m + 1)
    (hcell : CellsExact img kernel m)
    (hs : s.InRange (255 * (kernelEntry kernel ky kx).natAbs)) :
    kernelCell img kernel (m : Int) x y (some s) ky kx =
      some (s.add (samplePixel img m x y ky kx) (kernelEntry kernel ky kx)) := by
  rw [hcell x y ky kx s hx hy hky hkx]
  obtain ⟨hr, hg, hb⟩ := ChannelSums.add_inRange s (samplePixel img m x y ky kx)
    (kernelEntry kernel ky kx) 0 hs
  show some (ChannelSums.mk _ _ _) = _
  rw [toInt32_of_natAbs _ (by simpa using hr), toInt32_of_natAbs _ (by simpa using hg),
    toInt32_of_natAbs _ (by simpa using hb)]

theorem ChannelSums.InRange_mono (s : ChannelSums) (a b : Nat) (h : a ≤ b)
    (hs : s.InRange b) : s.InRange a := by
  obtain ⟨hr, hg, hb⟩ := hs
  exact ⟨by omega, by omega, by omega⟩

/-- The inner loops over the kernel positions `cs` compute the sums over the integers
as long as the accumulators have room for 255 times the absolute kernel entries. -/
theorem kernelCell_foldl (img : Flat.UncompressedImage) (kernel : List (List Int)) (m : Nat)
    (x y : Nat) (hwf : img.WellFormed)
    (hx : x < img.width) (hy : y < img.height)
    (hK : kernel.length = 2 * m + 1) (hrows : ∀ row ∈ kernel, row.length = 2 * m + 1)
    (hcell : CellsExact img kernel m) (cs : List (Nat × Nat)) :
    (∀ c ∈ cs, c.1 < 2 * m + 1 ∧ c.2 < 2 * m + 1) →
    ∀ (s : ChannelSums) (slack : Nat),
      s.InRange (255 * (cs.map (fun c => (kernelEntry kernel c.1 c.2).natAbs)).sum + slack) →
      cs.foldl (fun a c => kernelCell img kernel (m : Int) x y a c.1 c.2) (some s) =
          some (sumOver img kernel m x y cs s) ∧
        (sumOver img kernel m x y cs s).InRange slack := by
  induction cs with
  | nil =>
    intro _ s slack hs
    exact ⟨rfl, by simpa using hs⟩
  | cons c t ih =>
    intro hcs s slack hs
    have hc := hcs c (List.mem_cons_self _ _)
    simp only [List.map_cons, List.sum_cons, Nat.mul_add] at hs
    have hs1 : s.InRange (255 * (kernelEntry kernel c.1 c.2).natAbs) :=
      ChannelSums.InRange_mono s _ _ (by omega) hs
    have hs2 : (s.add (samplePixel img m x y c.1 c.2) (kernelEntry kernel c.1 c.2)).InRange
        (255 * (t.map (fun c => (kernelEntry kernel c.1 c.2).natAbs)).sum + slack) :=
      ChannelSums.add_inRange s _ _ _
        (ChannelSums.InRange_mono s _ _ (by omega) hs)
    simp only [List.foldl_cons, sumOver]
    rw [kernelCell_add img kernel m x y c.1 c.2 s hwf hx hy hc.1 hc.2 hK hrows hcell hs1]
    exact ih (fun c2 h2 => hcs c2 (List.mem_cons_of_mem _ h2)) _ slack hs2

theorem sumOver_eq (img : Flat.UncompressedImage) (kernel : List (List Int)) (m x y : Nat)
    (cs : List (Nat × Nat)) :
    ∀ s : ChannelSums, sumOver img kernel m x y cs s =
      { sum_r := s.sum_r + (cs.map (fun c => kernelEntry kernel c.1 c.2 *
          (((samplePixel img m x y c.1 c.2).r).val : Int))).sum
        sum_g := s.sum_g + (cs.map (fun c => kernelEntry kernel c.1 c.2 *
          (((samplePixel img m x y c.1 c.2).g).val : Int))).sum
        sum_b := s.sum_b + (cs.map (fun c => kernelEntry kernel c.1 c.2 *
          (((samplePixel img m x y c.1 c.2).b).val : Int))).sum } := by
  induction cs with
  | nil => intro s; simp [sumOver]
  | cons c t ih =>
    intro s
    have e : sumOver img kernel m x y (c :: t) s =
        sumOver img kernel m x y t
          (s.add (samplePixel img m x y c.1 c.2) (kernelEntry kernel c.1 c.2)) := rfl
    rw [e, ih]
    simp only [ChannelSums.add, List.map_cons, List.sum_cons, ChannelSums.mk.injEq]
    refine ⟨?_, ?_, ?_⟩ <;> ring

theorem sum_kernelCells {β : Type} [AddCommMonoid β] (n : Nat) (f : Nat → Nat → β) :
    ((kernelCells n).map (fun c => f c.1 c.2)).sum =
      ((List.range n).map (fun ky => ((List.range n).map (fun kx => f ky kx)).sum)).sum := by
  simp only [kernelCells, List.flatMap, List.map_flatten, List.sum_flatten, List.map_map]
  congr 1
  apply List.map_congr_left
  intro ky _
  simp only [Function.comp, List.map_map]
  rfl

theorem mem_kernelCells (n : Nat) (c : Nat × Nat) (h : c ∈ kernelCells n) :
    c.1 < n ∧ c.2 < n := by
  simp only [kernelCells, List.mem_flatMap, List.mem_map, List.mem_range] at h
  obtain ⟨ky, hky, kx, hkx, rfl⟩ := h
  exact ⟨hky, hkx⟩

theorem kernel_eq_entries (kernel : List (List Int)) (n : Nat)
    (hK : kernel.length = n) (hrows : ∀ row ∈ kernel, row.length = n) :
    kernel = (List.range n).map (fun ky => (List.range n).map (fun kx =>
      kernelEntry kernel ky kx)) := by
  apply List.ext_getElem
  · simp [hK]
  · intro i h1 h2
    have hrow : (kernel[i]).length = n := hrows _ (List.getElem_mem h1)
    apply List.ext_getElem
    · simp [hrow]
    · intro j h3 h4
      simp only [List.getElem_map, List.getElem_range, kernelEntry,
        List.getD_eq_getElem _ _ h1, List.getD_eq_getElem _ _ h3]

theorem kernelAbsSum_cells (kernel : List (List Int)) (n : Nat)
    (hK : kernel.length = n) (hrows : ∀ row ∈ kernel, row.length = n) :
    ((kernelCells n).map (fun c => (kernelEntry kernel c.1 c.2).natAbs)).sum =
      kernelAbsSum kernel := by
  rw [sum_kernelCells n (fun ky kx => (kernelEntry kernel ky kx).natAbs)]
  conv_rhs => rw [kernelAbsSum, kernel_eq_entries kernel n hK hrows]
  simp only [List.map_map]
  congr 1
  apply List.map_congr_left
  intro ky _
  simp only [Function.comp, List.map_map]
  rfl

theorem foldl_kernelCells {β : Type} (n : Nat) (F : β → Nat → Nat → β) (init : β) :
    (List.range n).foldl (fun a ky => (List.range n).foldl (fun a kx => F a ky kx) a) init =
      (kernelCells n).foldl (fun a c => F a c.1 c.2) init := by
  simp only [kernelCells, List.flatMap, List.foldl_flatten, List.foldl_map]

/-- The two inner loops of `applyKernel` compute the three weighted sums exactly when
255 times the absolute kernel sum fits `int`; the sums then fit `int` too. -/
theorem kernelSums_eq (img : Flat.UncompressedImage) (kernel : List (List Int)) (m : Nat)
    (x y : Nat) (hwf : img.WellFormed)
    (hx : x < img.width) (hy : y < img.height)
    (hK : kernel.length = 2 * m + 1) (hrows : ∀ row ∈ kernel, row.length = 2 * m + 1)
    (hcell : CellsExact img kernel m) (hside : 2 * m + 1 < 2147483648)
    (hsum : 255 * kernelAbsSum kernel < 2147483648) :
    kernelSums img kernel x y =
        some { sum_r := weightedSum img kernel m (fun p => p.r) x y
               sum_g := weightedSum img kernel m (fun p => p.g) x y
               sum_b := weightedSum img kernel m (fun p => p.b) x y } ∧
      (weightedSum img kernel m (fun p => p.r) x y).natAbs < 2147483648 ∧
      (weightedSum img kernel m (fun p => p.g) x y).natAbs < 2147483648 ∧
      (weightedSum img kernel m (fun p => p.b) x y).natAbs < 2147483648 := by
  have hoff : toInt32 ((kernel.length : Nat) : Int) / 2 = (m : Int) := by
    rw [hK, toInt32_of_range _ (by omega) (by omega)]
    omega
  have hfold := kernelCell_foldl img kernel m x y hwf hx hy hK hrows hcell
    (kernelCells (2 * m + 1)) (fun c hc => mem_kernelCells _ c hc)
    { sum_r := 0, sum_g := 0, sum_b := 0 } 0
    (by
      rw [kernelAbsSum_cells kernel (2 * m + 1) hK hrows]
      exact ⟨by simpa using hsum, by simpa using hsum, by simpa using hsum⟩)
  have hval : sumOver img kernel m x y (kernelCells (2 * m + 1))
      { sum_r := 0, sum_g := 0, sum_b := 0 } =
      { sum_r := weightedSum img kernel m (fun p => p.r) x y
        sum_g := weightedSum img kernel m (fun p => p.g) x y
        sum_b := weightedSum img kernel m (fun p => p.b) x y } := by
    rw [sumOver_eq]
    simp only [Int.zero_add, weightedSum, ChannelSums.mk.injEq]
    exact ⟨sum_kernelCells (2 * m + 1) (fun ky kx => kernelEntry kernel ky kx *
        (((samplePixel img m x y ky kx).r).val : Int)),
      sum_kernelCells (2 * m + 1) (fun ky kx => kernelEntry kernel ky kx *
        (((samplePixel img m x y ky kx).g).val : Int)),
      sum_kernelCells (2 * m + 1) (fun ky kx => kernelEntry kernel ky kx *
        (((samplePixel img m x y ky kx).b).val : Int))⟩
  rw [hval] at hfold
  obtain ⟨h1, hr, hg, hb⟩ := hfold
  refine ⟨?_, by simpa using hr, by simpa using hg, by simpa using hb⟩
  rw [← h1]
  unfold kernelSums
  rw [hoff, hK]
  exact foldl_kernelCells (2 * m + 1)
    (fun a ky kx => kernelCell img kernel (m : Int) x y a ky kx) _

/-- The division of `applyKernel` does not trap for a non-zero divisor when the sum lies
strictly inside the limits of `int`. -/
theorem divInt32_of_natAbs (s d : Int) (hd : d ≠ 0) (h : s.natAbs < 2147483648) :
    divInt32 s d = some (Int.tdiv s d) := by
  have hs : ¬ (s = -2147483648 ∧ d = -1) := by
    rintro ⟨e, _⟩
    omega
  simp only [divInt32, if_neg hd, if_neg hs]

/-- The division of `applyKernel` does not trap for a divisor other than 0 and -1. -/
theorem divInt32_of_ne (s d : Int) (hd : d ≠ 0) (h : d ≠ -1) :
    divInt32 s d = some (Int.tdiv s d) := by
  have hs : ¬ (s = -2147483648 ∧ d = -1) := fun e => h e.2
  simp only [divInt32, if_neg hd, if_neg hs]

/-- One step of the outer loops of `applyKernel`: the convolved pixel is stored at
`y * width + x`. -/
theorem kernelStore_eval (img : Flat.UncompressedImage) (kernel : List (List Int)) (m : Nat)
    (divisor : Int) (buf : List Pixel) (x y : Nat) (hwf : img.WellFormed)
    (hx : x < img.width) (hy : y < img.height)
    (hK : kernel.length = 2 * m + 1) (hrows : ∀ row ∈ kernel, row.length = 2 * m + 1)
    (hcell : CellsExact img kernel m) (hside : 2 * m + 1 < 2147483648)
    (hsum : 255 * kernelAbsSum kernel < 2147483648) (hd : divisor ≠ 0)
    (hbuf : buf.length = img.width * img.height) :
    kernelStore img kernel divisor (some buf) y x =
      some (buf.set (y * img.width + x) (convolvedPixel img kernel m divisor x y)) := by
  obtain ⟨hs, hr, hg, hb⟩ :=
    kernelSums_eq img kernel m x y hwf hx hy hK hrows hcell hside hsum
  have h0 : y * img.width + x < img.width * img.height := by
    rw [Nat.mul_comm img.width img.height]; exact index_lt img.height img.width y x hy hx
  have h1 : (y * img.width + x) % U32 = y * img.width + x :=
    Nat.mod_eq_of_lt (Nat.lt_trans h0 hwf.2.2.1)
  simp only [kernelStore, hs, kernelPixel, divInt32_of_natAbs _ divisor hd hr,
    divInt32_of_natAbs _ divisor hd hg, divInt32_of_natAbs _ divisor hd hb, h1, hbuf,
    if_pos h0, convolvedPixel]

theorem kernelStore_foldl (img : Flat.UncompressedImage) (kernel : List (List Int)) (m : Nat)
    (divisor : Int) (hwf : img.WellFormed)
    (hK : kernel.length = 2 * m + 1) (hrows : ∀ row ∈ kernel, row.length = 2 * m + 1)
    (hcell : CellsExact img kernel m) (hside : 2 * m + 1 < 2147483648)
    (hsum : 255 * kernelAbsSum kernel < 2147483648) (hd : divisor ≠ 0)
    (cs : List (Nat × Nat)) :
    (∀ c ∈ cs, c.1 < img.height ∧ c.2 < img.width) →
    ∀ buf : List Pixel, buf.length = img.width * img.height →
      cs.foldl (fun b c => kernelStore img kernel divisor b c.1 c.2) (some buf) =
        some ((cs.map (fun c => (c.1 * img.width + c.2,
          convolvedPixel img kernel m divisor c.2 c.1))).foldl
            (fun b w => b.set w.1 w.2) buf) := by
  induction cs with
  | nil => intro _ buf _; rfl
  | cons c t ih =>
    intro hcs buf hbuf
    have hc := hcs c (List.mem_cons_self _ _)
    simp only [List.foldl_cons, List.map_cons]
    rw [kernelStore_eval img kernel m divisor buf c.2 c.1 hwf hc.2 hc.1 hK hrows hcell hside hsum
      hd hbuf]
    exact ih (fun c2 h2 => hcs c2 (List.mem_cons_of_mem _ h2)) _
      (by rw [List.length_set]; exact hbuf)

theorem kernelRejected_square (kernel : List (List Int)) (m : Nat)
    (hK : kernel.length = 2 * m + 1) (hrows : ∀ row ∈ kernel, row.length = 2 * m + 1) :
    kernelRejected kernel = false := by
  cases kernel with
  | nil => simp at hK
  | cons row t =>
    have h1 : row.length = 2 * m + 1 := hrows row (List.mem_cons_self _ _)
    have h2 : (row :: t).length = 2 * m + 1 := hK
    have h3 : ¬ ((2 * m + 1) % 2 = 0) := by omega
    simp only [kernelRejected, List.isEmpty_cons, List.headD_cons, h1, h2, ne_eq,
      not_true_eq_false, decide_False, h3, Bool.or_self]

theorem foldl_pixelCells {β : Type} (H W : Nat) (F : β → Nat → Nat → β) (init : β) :
    (List.range H).foldl (fun a y => (List.range W).foldl (fun a x => F a y x) a) init =
      ((List.range H).flatMap (fun y => (List.range W).map (fun x => (y, x)))).foldl
        (fun a c => F a c.1 c.2) init := by
  simp only [List.flatMap, List.foldl_flatten, List.foldl_map]

/-- C12 as amended: for a well-formed image, a square kernel `K` of odd side `2m + 1` and a
non-zero divisor `d`, when the computation stays inside `int` (width and height plus the
side of the kernel at most 2^31, and 255 times the sum of the absolute kernel entries
below 2^31), `applyKernel` returns an image with the same width, height and flag in which
each pixel `(x, y)` is, channel by channel, `clamp(S / d, 0, 255)`, where `S` is the sum
over `0 <= ky, kx <= 2m` of `K[ky][kx]` times the channel value of the original pixel at
`(clamp(x + kx - m, 0, width - 1), clamp(y + ky - m, 0, height - 1))` and `/` truncates
toward zero. -/
theorem C12_applyKernel_convolution (img : Flat.UncompressedImage) (kernel : List (List Int))
    (m : Nat) (divisor : Int) (hwf : img.WellFormed)
    (hK : kernel.length = 2 * m + 1) (hrows : ∀ row ∈ kernel, row.length = 2 * m + 1)
    (hd : divisor ≠ 0)
    (hwm : img.width + (2 * m + 1) ≤ 2147483648)
    (hhm : img.height + (2 * m + 1) ≤ 2147483648)
    (hsum : 255 * kernelAbsSum kernel < 2147483648) :
    ∃ out, applyKernel img kernel divisor = some out ∧
      out.width = img.width ∧ out.height = img.height ∧ out.grayscale = img.grayscale ∧
      out.pixels.length = img.width * img.height ∧
      ∀ x y, x < img.width → y < img.height →
        out.pixels[y * img.width + x]? = some (convolvedPixel img kernel m divisor x y) := by
  have hinit : (List.replicate ((img.width * img.height) % U32) (rgb 0 0 0)).length =
      img.width * img.height := by
    rw [List.length_replicate, Nat.mod_eq_of_lt hwf.2.2.1]
  have hrun := kernelStore_foldl img kernel m divisor hwf hK hrows
    (cellsExact_of_range img kernel m hwf hK hrows hwm hhm) (by omega) hsum hd
    ((List.range img.height).flatMap (fun y => (List.range img.width).map (fun x => (y, x))))
    (by
      intro c hc
      simp only [List.mem_flatMap, List.mem_map, List.mem_range] at hc
      obtain ⟨y, hy, x, hx, rfl⟩ := hc
      exact ⟨hy, hx⟩)
    _ hinit
  have happ : applyKernel img kernel divisor =
      some { img with pixels :=
        ((((List.range img.height).flatMap (fun y =>
            (List.range img.width).map (fun x => (y, x)))).map
          (fun c => (c.1 * img.width + c.2, convolvedPixel img kernel m divisor c.2 c.1))).foldl
          (fun b w => b.set w.1 w.2)
          (List.replicate ((img.width * img.height) % U32) (rgb 0 0 0))) } := by
    unfold applyKernel
    rw [if_neg (by rw [kernelRejected_square kernel m hK hrows]; exact Bool.false_ne_true)]
    simp only []
    rw [foldl_pixelCells img.height img.width
      (fun buf y x => kernelStore img kernel divisor buf y x), hrun]
    rfl
  refine ⟨_, happ, rfl, rfl, rfl, ?_, ?_⟩
  · simp only []
    rw [foldl_set_length, hinit]
  · intro x y hx hy
    simp only []
    apply foldl_set_written
    · rintro ⟨i, v⟩ hw hi
      simp only [List.mem_map, List.mem_flatMap, List.mem_range, Prod.mk.injEq] at hw
      obtain ⟨c, ⟨y2, hy2, x2, hx2, rfl⟩, rfl, rfl⟩ := hw
      simp only at hi
      obtain ⟨e1, e2⟩ := index_inj img.width y2 x2 y x hx2 hx hi
      rw [e1, e2]
    · simp only [List.mem_map, List.mem_flatMap, List.mem_range, Prod.mk.injEq]
      exact ⟨(y, x), ⟨y, hy, x, hx, rfl⟩, rfl, rfl⟩
    · rw [hinit, Nat.mul_comm img.width img.height]
      exact index_lt img.height img.width y x hy hx

/-- C12 as amended, at the 3 by 2 sample image with the sharpen kernel (`m = 1`) and the
divisor 1. -/
theorem C12_applyKernel_convolution_witness :
    image3x2.WellFormed ∧ sharpenKernel.length = 2 * 1 + 1 ∧
    (∀ row ∈ sharpenKernel, row.length = 2 * 1 + 1) ∧ (1 : Int) ≠ 0 ∧
    image3x2.width + (2 * 1 + 1) ≤ 2147483648 ∧ image3x2.height + (2 * 1 + 1) ≤ 2147483648 ∧
    255 * kernelAbsSum sharpenKernel < 2147483648 ∧
    ∃ out, applyKernel image3x2 sharpenKernel 1 = some out ∧
      out.width = image3x2.width ∧ out.height = image3x2.height ∧
      out.grayscale = image3x2.grayscale ∧
      out.pixels.length = image3x2.width * image3x2.height ∧
      ∀ x y, x < image3x2.width → y < image3x2.height →
        out.pixels[y * image3x2.width + x]? =
          some (convolvedPixel image3x2 sharpenKernel 1 1 x y) :=
  ⟨by decide, by decide, by decide, by decide, by decide, by decide, by decide,
   C12_applyKernel_convolution image3x2 sharpenKernel 1 1 (by decide) (by decide) (by decide)
     (by decide) (by decide) (by decide) (by decide)⟩

/-- C12 fails when the sums leave the range of `int`: on the 1 by 1 image with
the pixel (255, 255, 255), the 1 by 1 kernel with the entry 2^30 and the divisor 1, the
claimed value is `clamp(255 * 2^30, 0, 255) = 255` in each channel, while the function
stores (0, 0, 0). -/
theorem C12_int_overflow_counterexample :
    whitePixelImage.WellFormed ∧ 1 ≤ whitePixelImage.width ∧ 1 ≤ whitePixelImage.height ∧
    [[(1073741824 : Int)]].length = 2 * 0 + 1 ∧
    (∀ row ∈ [[(1073741824 : Int)]], row.length = 2 * 0 + 1) ∧
    convolvedPixel whitePixelImage [[1073741824]] 0 1 0 0 = rgb 255 255 255 ∧
    applyKernel whitePixelImage [[1073741824]] 1 =
      some { whitePixelImage with pixels := [rgb 0 0 0] } := by
  decide

/-! ## The bitmap container -/

theorem ofLE16_toLE16 (n : Nat) (h : n < 65536) : ofLE16 (toLE16 n) = n := by
  simp only [ofLE16, toLE16, toByte, List.getD_cons_zero, List.getD_cons_succ] at *
  omega

theorem ofLE32s_toLE32s (z : Int) (h1 : -2147483648 ≤ z) (h2 : z < 2147483648) :
    ofLE32s (toLE32s z) = z := by
  have hlt : (z % (U32 : Int)).toNat < U32 := by
    have := Int.emod_lt_of_pos z (show (0 : Int) < (U32 : Int) by decide)
    have := Int.emod_nonneg z (show (U32 : Int) ≠ 0 by decide)
    omega
  unfold ofLE32s toLE32s
  rw [ofLE32_toLE32 _ hlt]
  unfold toInt32
  have h0 : (0 : Int) ≤ z % (U32 : Int) := Int.emod_nonneg z (by decide)
  rw [Int.toNat_of_nonneg h0]
  simp only [U32, Nat.cast_ofNat]
  omega

theorem fileHeader_bytes_length (h : BMPHeader) : h.bytes.length = 14 := rfl

theorem infoHeader_bytes_length (h : BMPInfoHeader) : h.bytes.length = 40 := rfl

theorem fileHeader_ofBytes_bytes (h : BMPHeader) :
    BMPHeader.ofBytes h.bytes =
      { file_type := ofLE16 (toLE16 h.file_type), file_size := ofLE32 (toLE32 h.file_size)
        reserved1 := ofLE16 (toLE16 h.reserved1), reserved2 := ofLE16 (toLE16 h.reserved2)
        offset_data := ofLE32 (toLE32 h.offset_data) } := rfl

theorem infoHeader_ofBytes_bytes (h : BMPInfoHeader) :
    BMPInfoHeader.ofBytes h.bytes =
      { size := ofLE32 (toLE32 h.size), width := ofLE32s (toLE32s h.width)
        height := ofLE32s (toLE32s h.height), planes := ofLE16 (toLE16 h.planes)
        bit_count := ofLE16 (toLE16 h.bit_count), compression := ofLE32 (toLE32 h.compression)
        size_image := ofLE32 (toLE32 h.size_image)
        x_pixels_per_meter := ofLE32s (toLE32s h.x_pixels_per_meter)
        y_pixels_per_meter := ofLE32s (toLE32s h.y_pixels_per_meter)
        colors_used := ofLE32 (toLE32 h.colors_used)
        colors_important := ofLE32 (toLE32 h.colors_important) } := rfl

/-- Overwriting the bytes 2 to 5 of a file that starts with a file header stores the new
`file_size` in that header. -/
theorem patch_file_size (h : BMPHeader) (rest : List Byte) (file_size : Nat) :
    (h.bytes ++ rest).take 2 ++ toLE32 file_size ++ (h.bytes ++ rest).drop 6 =
      ({ h with file_size := file_size } : BMPHeader).bytes ++ rest := rfl

theorem rowOffset_bottom_up (H S y : Nat) (hy : y < H) (hH : H < 2147483648)
    (hsz : S * H < U32) : rowOffset (H : Int) S true y = (H - 1 - y) * S := by
  have e1 : toInt32 ((H : Int) - 1) = (H : Int) - 1 := toInt32_of_range _ (by omega) (by omega)
  have e2 : toInt32 ((H : Int) - 1 - (y : Int)) = (((H - 1 - y : Nat)) : Int) := by
    rw [toInt32_of_range _ (by omega) (by omega)]; omega
  have hle : (H - 1 - y) * S ≤ S * H := by
    rw [Nat.mul_comm S H]; exact Nat.mul_le_mul_right S (by omega)
  simp only [rowOffset, if_true, e1, e2]
  rw [← Nat.cast_mul, Int.emod_eq_of_lt (Int.ofNat_nonneg _)
    (by exact_mod_cast Nat.lt_of_le_of_lt hle hsz), Int.toNat_ofNat]

theorem row_end_le (H S y : Nat) (hy : y < H) : (H - 1 - y) * S + S ≤ S * H := by
  have h : (H - 1 - y + 1) * S ≤ H * S := Nat.mul_le_mul_right S (by omega)
  rw [Nat.add_mul, Nat.one_mul] at h
  rw [Nat.mul_comm S H]; exact h

/-- The row loop of `BMP::write` for a bottom-up image appends the rows of `data` from
the last to the first, each followed by the padding. -/
theorem writeRow_fold (self : BMP) (H pad : Nat)
    (hH : self.bmp_info_header.height = (H : Int))
    (hdata : self.data.length = self.row_stride * H) (hH31 : H < 2147483648)
    (hsz : self.row_stride * H < U32) :
    ∀ j, j ≤ H → ∀ out : List Byte,
      (List.range j).foldl (self.writeRow true pad) (some out) =
        some (out ++ (List.range j).flatMap (storedRow self.data H self.row_stride pad)) := by
  intro j
  induction j with
  | zero => intro _ out; simp
  | succ j ih =>
    intro hj out
    rw [List.range_succ, List.foldl_append, ih (by omega) out, List.flatMap_append]
    simp only [List.foldl_cons, List.foldl_nil, BMP.writeRow, Option.some_bind, hH,
      rowOffset_bottom_up H self.row_stride j (by omega) hH31 hsz, hdata,
      if_pos (row_end_le H self.row_stride j (by omega)), List.flatMap_singleton, storedRow]
    by_cases hp : pad > 0
    · simp only [if_pos hp, List.append_assoc]
    · have h0 : pad = 0 := by omega
      subst h0
      simp

/-- One step of the row loop of `BMP::read` on a stream that starts with a stored row:
the row is copied into `data` at its offset and the padding is skipped. -/
theorem readRow_step (orig d rest : List Byte) (H S pad y : Nat) (hy : y < H)
    (horig : orig.length = S * H) (hd : d.length = S * H) (hH31 : H < 2147483648)
    (hsz : S * H < U32) :
    BMP.readRow (H : Int) S true pad
        (some (d, IStream.mk (storedRow orig H S pad y ++ rest) false)) y =
      some (d.take ((H - 1 - y) * S) ++ (orig.drop ((H - 1 - y) * S)).take S ++
          d.drop ((H - 1 - y) * S + S), IStream.mk rest false) := by
  have hend := row_end_le H S y hy
  have hlen : ((d.drop ((H - 1 - y) * S)).take S).length =
      ((orig.drop ((H - 1 - y) * S)).take S).length := by
    simp only [List.length_take, List.length_drop, horig, hd]
  simp only [BMP.readRow, Option.some_bind, rowOffset_bottom_up H S y hy hH31 hsz, hd,
    if_pos hend, storedRow, List.append_assoc]
  rw [IStream.read_exact _ _ _ hlen]
  by_cases hp : pad > 0
  · simp only [if_pos hp, IStream.ignore, Bool.false_eq_true, if_false]
    rw [List.drop_left' (List.length_replicate _ _)]
  · have h0 : pad = 0 := by omega
    subst h0
    simp

/-- The row loop of `BMP::read` on the rows stored by `BMP::write`: after `j` steps the
last `j` rows of `data` are those of the written object and the stream stands at the
row of step `j`. -/
theorem readRow_fold (orig tail : List Byte) (H S pad : Nat)
    (horig : orig.length = S * H) (hH31 : H < 2147483648) (hsz : S * H < U32) :
    ∀ j, j ≤ H → ∀ d0 : List Byte, d0.length = S * H →
      ∃ d, (List.range j).foldl (BMP.readRow (H : Int) S true pad)
          (some (d0, IStream.mk ((List.range' 0 H).flatMap (storedRow orig H S pad) ++ tail)
            false)) =
          some (d, IStream.mk ((List.range' j (H - j)).flatMap (storedRow orig H S pad) ++ tail)
            false) ∧
        d.length = S * H ∧
        ∀ k c, H - j ≤ k → k < H → c < S → d[k * S + c]? = orig[k * S + c]? := by
  intro j
  induction j with
  | zero =>
    intro _ d0 hd0
    exact ⟨d0, rfl, hd0, fun k c h1 h2 _ => absurd h2 (by omega)⟩
  | succ j ih =>
    intro hj d0 hd0
    obtain ⟨d, hfold, hd, hrows⟩ := ih (by omega) d0 hd0
    have hsplit : H - j = (H - (j + 1)) + 1 := by omega
    have hend := row_end_le H S j (by omega)
    have hoff : (H - 1 - j) * S + S = (H - j) * S := by
      have : H - j = (H - 1 - j) + 1 := by omega
      rw [this, Nat.add_mul, Nat.one_mul]
    refine ⟨d.take ((H - 1 - j) * S) ++ (orig.drop ((H - 1 - j) * S)).take S ++
      d.drop ((H - 1 - j) * S + S), ?_, ?_, ?_⟩
    · rw [List.range_succ, List.foldl_append, hfold, hsplit, List.range'_succ,
        List.flatMap_cons, List.append_assoc]
      simp only [List.foldl_cons, List.foldl_nil]
      exact readRow_step orig d _ H S pad j (by omega) horig hd hH31 hsz
    · simp only [List.length_append, List.length_take, List.length_drop, horig, hd]
      omega
    · intro k c hk1 hk2 hc
      have hlen1 : (d.take ((H - 1 - j) * S)).length = (H - 1 - j) * S := by
        rw [List.length_take, hd]; omega
      have hlen2 : ((orig.drop ((H - 1 - j) * S)).take S).length = S := by
        rw [List.length_take, List.length_drop, horig]; omega
      by_cases hkj : k = H - 1 - j
      · subst hkj
        rw [List.getElem?_append_left (by rw [List.length_append, hlen1, hlen2]; omega),
          List.getElem?_append_right (by rw [hlen1]; omega), hlen1, Nat.add_sub_cancel_left,
          List.getElem?_take_of_lt hc, List.getElem?_drop]
      · have hk3 : H - j ≤ k := by omega
        have hk4 : (H - j) * S ≤ k * S := Nat.mul_le_mul_right S hk3
        rw [List.getElem?_append_right (by rw [List.length_append, hlen1, hlen2]; omega),
          List.length_append, hlen1, hlen2, List.getElem?_drop]
        have e : (H - 1 - j) * S + S + (k * S + c - ((H - 1 - j) * S + S)) = k * S + c := by
          omega
        rw [e]
        exact hrows k c hk3 hk2 hc

theorem strideOf_24 (W : Nat) (hW : 24 * W < 2147483648) : strideOf (W : Int) 24 = 3 * W := by
  unfold strideOf
  rw [toInt32_of_range _ (by omega) (by omega), Int.tdiv_eq_ediv (by omega) (by omega)]
  have e : ((W : Int) * ((24 : Nat) : Int)) / 8 = ((3 * W : Nat) : Int) := by omega
  rw [e, Int.emod_eq_of_lt (Int.ofNat_nonneg _) (by simp only [U32]; omega), Int.toNat_ofNat]

theorem resizeBytes_length (data : List Byte) (n : Nat) : (resizeBytes data n).length = n := by
  simp only [resizeBytes, List.length_append, List.length_take, List.length_replicate]
  omega

theorem height_lt (W H : Nat) (hW : 0 < W) (hsz : 3 * W * H < U32) : H < 2147483648 := by
  have h1 : H ≤ W * H := Nat.le_mul_of_pos_left H hW
  have h2 : 3 * W * H = 3 * (W * H) := Nat.mul_assoc 3 W H
  simp only [U32] at hsz
  omega

/-- The part of `BMP::read` after the headers, for a 24-bit info header with positive
width `W` and height `H`, on the rows stored by `BMP::write`: the object read has that
info header, the stride `3 * W`, and a `data` that agrees with the written `data` at every
position of every row. -/
theorem readPixels_stored (target : BMP) (fh : BMPHeader) (info : BMPInfoHeader)
    (orig tail : List Byte) (W H : Nat) (hw : info.width = (W : Int))
    (hh : info.height = (H : Int)) (hb : info.bit_count = 24) (hW : 0 < W)
    (horig : orig.length = 3 * W * H) (hW31 : 24 * W < 2147483648)
    (hsz : 3 * W * H < U32) :
    ∃ loaded, target.readPixels fh info
        (IStream.mk ((List.range H).flatMap (storedRow orig H (3 * W)
          ((strideLoop 4 4 (3 * W) + U32 - 3 * W) % U32)) ++ tail) false) = some loaded ∧
      loaded.bmp_info_header = info ∧ loaded.row_stride = 3 * W ∧
      ∀ k c, k < H → c < 3 * W → loaded.data[k * (3 * W) + c]? = orig[k * (3 * W) + c]? := by
  have hH31 := height_lt W H hW hsz
  have hsize : ((((3 * W : Nat) : Int) * (H : Int)) % (U32 : Int)).toNat = 3 * W * H := by
    rw [← Nat.cast_mul, Int.emod_eq_of_lt (Int.ofNat_nonneg _) (by exact_mod_cast hsz),
      Int.toNat_ofNat]
  obtain ⟨d, hfold, -, hrows⟩ := readRow_fold orig tail H (3 * W)
    ((strideLoop 4 4 (3 * W) + U32 - 3 * W) % U32) horig hH31 hsz H (Nat.le_refl H)
    (resizeBytes target.data (3 * W * H)) (resizeBytes_length _ _)
  rw [← List.range_eq_range'] at hfold
  have hneg : ¬ ((H : Int) < 0) := by omega
  have h32 : ¬ ((24 : Nat) = 32) := by decide
  refine ⟨{ file_header :=
              { fh with
                file_size := (((fh.offset_data : Int) + ((3 * W : Nat) : Int) * (H : Int) +
                  (((strideLoop 4 4 (3 * W) + U32 - 3 * W) % U32 : Nat) : Int) * (H : Int)) %
                    (U32 : Int)).toNat }
            bmp_info_header := info
            bmp_color_header := BMPColorHeader.ofBytes target.bmp_color_header.bytes
            row_stride := 3 * W, data := d }, ?main, rfl, rfl, ?rows⟩
  case main =>
    simp only [BMP.readPixels, hb, hh, hw, h32, hneg, decide_False, Bool.false_eq_true,
      false_and, if_false, not_false_eq_true, decide_True, strideOf_24 W hW31, hsize,
      Int.toNat_ofNat, hfold, Option.map_some']
  case rows =>
    intro k c hk hc
    exact hrows k c (by omega) hk hc

/-- The points at which `get_pixel` reads `data` for an in-range position of a 24-bit
object with positive width `W`, height `H` and stride `3 * W`. -/
theorem get_pixel_eval (self : BMP) (W H x y : Nat)
    (hw : self.bmp_info_header.width = (W : Int))
    (hh : self.bmp_info_header.height = (H : Int)) (hb : self.bmp_info_header.bit_count = 24)
    (hs : self.row_stride = 3 * W) (hx : x < W) (hy : y < H) (hsz : 3 * W * H < U32) :
    self.get_pixel (x : Int) (y : Int) =
      (self.data[y * (3 * W) + 3 * x]?).bind (fun b =>
        (self.data[y * (3 * W) + (3 * x + 1)]?).bind (fun g =>
          (self.data[y * (3 * W) + (3 * x + 2)]?).map (fun r => (r, g, b)))) := by
  have hlt : y * (3 * W) + 3 * x + 2 < 3 * W * H := by
    have := index_lt H (3 * W) y (3 * x + 2) hy (by omega)
    rw [Nat.mul_comm H (3 * W)] at this
    omega
  have hout : self.outOfBounds (x : Int) (y : Int) = false := by
    have h1 : ¬ ((x : Int) < 0) := by omega
    have h2 : ¬ ((y : Int) < 0) := by omega
    have h3 : ¬ ((x : Int) ≥ (W : Int)) := by omega
    have h4 : ¬ ((y : Int) ≥ (H : Int)) := by omega
    have h5 : ¬ ((H : Int) < 0) := by omega
    simp only [BMP.outOfBounds, hw, hh, absInt32, if_neg h5, h1, h2, h3, h4, decide_False,
      Bool.or_self]
  have hidx : self.pixelIndex (x : Int) (y : Int) = y * (3 * W) + 3 * x := by
    have e : (y : Int) * ((3 * W : Nat) : Int) + (x : Int) * (((24 / 8 : Nat)) : Int) =
        ((y * (3 * W) + 3 * x : Nat) : Int) := by
      push_cast; ring
    simp only [BMP.pixelIndex, hb, hs]
    rw [e, Int.emod_eq_of_lt (Int.ofNat_nonneg _) (by exact_mod_cast (by omega :
      y * (3 * W) + 3 * x < U32)), Int.toNat_ofNat]
  have e1 : (y * (3 * W) + 3 * x + 1) % U32 = y * (3 * W) + (3 * x + 1) := by
    rw [Nat.mod_eq_of_lt (by omega)]; omega
  have e2 : (y * (3 * W) + 3 * x + 2) % U32 = y * (3 * W) + (3 * x + 2) := by
    rw [Nat.mod_eq_of_lt (by omega)]; omega
  simp only [BMP.get_pixel, hout, Bool.false_eq_true, if_false, hidx, e1, e2]

/-- The file written by `BMP::write` for a 24-bit object with positive width `W`, height
`H`, stride `3 * W` and `3 * W * H` bytes of data: the file header with the patched
size, the info header, and the stored rows. -/
theorem write_stored (self : BMP) (W H : Nat)
    (hh : self.bmp_info_header.height = (H : Int)) (hb : self.bmp_info_header.bit_count = 24)
    (hs : self.row_stride = 3 * W) (hd : self.data.length = 3 * W * H) (hW : 0 < W)
    (hH : 0 < H) (hsz : 3 * W * H < U32) :
    ∃ file_size, self.write =
      some (({ self.file_header with file_size := file_size } : BMPHeader).bytes ++
        (self.bmp_info_header.bytes ++
          ((List.range H).flatMap (storedRow self.data H (3 * W)
            ((strideLoop 4 4 (3 * W) + U32 - 3 * W) % U32)) ++ [])),
        { self with file_header := { self.file_header with file_size := file_size } }) := by
  have hH31 := height_lt W H hW hsz
  have hfold := writeRow_fold self H ((strideLoop 4 4 (3 * W) + U32 - 3 * W) % U32) hh
    (by rw [hs]; exact hd) hH31 (by rw [hs]; exact hsz) H (Nat.le_refl H) self.write_headers
  have hpos : (H : Int) > 0 := by omega
  have h32 : ¬ ((24 : Nat) = 32) := by decide
  have hhdr : self.write_headers = self.file_header.bytes ++ self.bmp_info_header.bytes := by
    simp only [BMP.write_headers, hb, if_neg h32, List.append_nil]
  refine ⟨(((self.file_header.offset_data : Int) + ((3 * W : Nat) : Int) * (H : Int) +
    (((strideLoop 4 4 (3 * W) + U32 - 3 * W) % U32 : Nat) : Int) * (H : Int)) %
      (U32 : Int)).toNat, ?_⟩
  simp only [BMP.write, BMP.make_stride_aligned, hh, Int.toNat_ofNat, hpos, decide_True]
  rw [hs] at hfold ⊢
  rw [hfold, hhdr, Option.map_some']
  refine congrArg some (Prod.ext ?_ rfl)
  simp only [List.append_assoc, List.append_nil]
  have hp := patch_file_size self.file_header (self.bmp_info_header.bytes ++
    (List.range H).flatMap (storedRow self.data H (3 * W)
      ((strideLoop 4 4 (3 * W) + U32 - 3 * W) % U32)))
    (((self.file_header.offset_data : Int) + ((3 * W : Nat) : Int) * (H : Int) +
      (((strideLoop 4 4 (3 * W) + U32 - 3 * W) % U32 : Nat) : Int) * (H : Int)) %
        (U32 : Int)).toNat
  rw [List.append_assoc] at hp
  exact hp

/-- `BMP::read` on a file made of a file header with the magic, a 24-bit info header with
positive width `W` and height `H`, and the stored rows of `orig`. -/
theorem read_stored (target : BMP) (fh : BMPHeader) (info : BMPInfoHeader)
    (orig : List Byte) (W H : Nat) (hmagic : fh.file_type = 19778)
    (hw : info.width = (W : Int)) (hh : info.height = (H : Int)) (hb : info.bit_count = 24)
    (hW : 0 < W) (horig : orig.length = 3 * W * H) (hW31 : 24 * W < 2147483648)
    (hsz : 3 * W * H < U32) :
    ∃ loaded, target.read (fh.bytes ++ (info.bytes ++
        ((List.range H).flatMap (storedRow orig H (3 * W)
          ((strideLoop 4 4 (3 * W) + U32 - 3 * W) % U32)) ++ []))) = some loaded ∧
      loaded.bmp_info_header.width = (W : Int) ∧ loaded.bmp_info_header.height = (H : Int) ∧
      loaded.bmp_info_header.bit_count = 24 ∧ loaded.row_stride = 3 * W ∧
      ∀ k c, k < H → c < 3 * W → loaded.data[k * (3 * W) + c]? = orig[k * (3 * W) + c]? := by
  have hH31 := height_lt W H hW hsz
  have hw2 : (BMPInfoHeader.ofBytes info.bytes).width = (W : Int) := by
    rw [infoHeader_ofBytes_bytes]
    show ofLE32s (toLE32s info.width) = _
    rw [hw]
    exact ofLE32s_toLE32s _ (by omega) (by omega)
  have hh2 : (BMPInfoHeader.ofBytes info.bytes).height = (H : Int) := by
    rw [infoHeader_ofBytes_bytes]
    show ofLE32s (toLE32s info.height) = _
    rw [hh]
    exact ofLE32s_toLE32s _ (by omega) (by omega)
  have hb2 : (BMPInfoHeader.ofBytes info.bytes).bit_count = 24 := by
    rw [infoHeader_ofBytes_bytes]
    show ofLE16 (toLE16 info.bit_count) = _
    rw [hb]
    exact ofLE16_toLE16 24 (by decide)
  have hm2 : (BMPHeader.ofBytes fh.bytes).file_type = 19778 := by
    rw [fileHeader_ofBytes_bytes]
    show ofLE16 (toLE16 fh.file_type) = _
    rw [hmagic]
    exact ofLE16_toLE16 19778 (by decide)
  obtain ⟨loaded, hrun, hinfo, hstride, hrows⟩ :=
    readPixels_stored target (BMPHeader.ofBytes fh.bytes) (BMPInfoHeader.ofBytes info.bytes)
      orig [] W H hw2 hh2 hb2 hW horig hW31 hsz
  refine ⟨loaded, ?_, by rw [hinfo, hw2], by rw [hinfo, hh2], by rw [hinfo, hb2], hstride,
    hrows⟩
  unfold BMP.read
  simp only []
  rw [IStream.read_exact fh.bytes _ target.file_header.bytes rfl]
  simp only [hm2, ne_eq, not_true_eq_false, if_false]
  rw [IStream.read_exact info.bytes _ target.bmp_info_header.bytes rfl]
  exact hrun

/-- The constructor builds 24-bit objects that satisfy the hypotheses of the round trip. -/
theorem create_invariants (W H : Nat) (hW : 0 < W) (hH : 0 < H)
    (hW31 : 24 * W < 2147483648) (hsz : 3 * W * H < U32) :
    ∃ bmp, BMP.create (W : Int) (H : Int) false = some bmp ∧
      bmp.file_header.file_type = 19778 ∧ bmp.bmp_info_header.bit_count = 24 ∧
      bmp.bmp_info_header.width = (W : Int) ∧ bmp.bmp_info_header.height = (H : Int) ∧
      bmp.row_stride = 3 * W ∧ bmp.data.length = 3 * W * H := by
  have h1 : ¬ ((W : Int) ≤ 0 ∨ (H : Int) = 0) := by omega
  have hneg : ¬ ((H : Int) < 0) := by omega
  have hsize : ((((3 * W : Nat) : Int) * (H : Int)) % (U32 : Int)).toNat = 3 * W * H := by
    rw [← Nat.cast_mul, Int.emod_eq_of_lt (Int.ofNat_nonneg _) (by exact_mod_cast hsz),
      Int.toNat_ofNat]
  simp only [BMP.create, if_neg h1, Bool.false_eq_true, if_false, Option.some.injEq,
    exists_eq_left', strideOf_24 W hW31, absInt32, if_neg hneg, hsize, resizeBytes_length]
  exact ⟨rfl, trivial, trivial, trivial, trivial, trivial⟩

/-- The function `set_pixel` changes neither the headers nor the stride nor the size of
`data`. -/
theorem set_pixel_invariants (bmp out : BMP) (x y : Int) (r g b : Byte)
    (h : bmp.set_pixel x y r g b = some out) :
    out.file_header = bmp.file_header ∧ out.bmp_info_header = bmp.bmp_info_header ∧
      out.row_stride = bmp.row_stride ∧ out.data.length = bmp.data.length := by
  unfold BMP.set_pixel at h
  split at h
  · exact absurd h (by simp)
  · simp only [] at h
    split at h
    · simp only [Option.some.injEq] at h
      subst h
      exact ⟨rfl, rfl, rfl, by simp only [List.length_set]⟩
    · exact absurd h (by simp)

/-- C15: for every 24-bit BMP object with the magic 0x4D42, positive width and height,
the stride `3 * width`, `stride * height` bytes of data, and a size that the integer
types of the class hold (24 times the width below 2^31, the data below 2^32 bytes),
whatever the width (a row size that is not a multiple of 4 included) and whatever the
bytes of `data`, `BMP::write` returns and `BMP::read` of the written bytes, into any
object, returns an object with the same width, the same height and, at every in-range
`(x, y)`, the same `(r, g, b)` from `get_pixel`. -/
theorem C15_bmp_write_read_round_trip (bmp target : BMP)
    (hmagic : bmp.file_header.file_type = 19778)
    (hbits : bmp.bmp_info_header.bit_count = 24)
    (hw : 0 < bmp.bmp_info_header.width) (hh : 0 < bmp.bmp_info_header.height)
    (hstride : (bmp.row_stride : Int) = 3 * bmp.bmp_info_header.width)
    (hdata : (bmp.data.length : Int) = (bmp.row_stride : Int) * bmp.bmp_info_header.height)
    (hw31 : 24 * bmp.bmp_info_header.width < 2147483648)
    (hsize : bmp.data.length < U32) :
    ∃ bytes written loaded, bmp.write = some (bytes, written) ∧
      target.read bytes = some loaded ∧
      loaded.get_width = bmp.get_width ∧ loaded.get_height = bmp.get_height ∧
      ∀ x y : Int, 0 ≤ x → x < bmp.get_width → 0 ≤ y → y < bmp.get_height →
        ∃ r g b, bmp.get_pixel x y = some (r, g, b) ∧
          loaded.get_pixel x y = some (r, g, b) := by
  obtain ⟨W, hWeq⟩ := Int.eq_ofNat_of_zero_le (le_of_lt hw)
  obtain ⟨H, hHeq⟩ := Int.eq_ofNat_of_zero_le (le_of_lt hh)
  have hW : 0 < W := by omega
  have hH : 0 < H := by omega
  have hs : bmp.row_stride = 3 * W := by omega
  have hd : bmp.data.length = 3 * W * H := by
    have : (bmp.data.length : Int) = ((3 * W * H : Nat) : Int) := by
      rw [hdata, hHeq, hs]; push_cast; ring
    exact_mod_cast this
  have hsz : 3 * W * H < U32 := by rw [← hd]; exact hsize
  have hW31 : 24 * W < 2147483648 := by omega
  obtain ⟨file_size, hwrite⟩ := write_stored bmp W H hHeq hbits hs hd hW hH hsz
  obtain ⟨loaded, hread, hlw, hlh, hlb, hls, hrows⟩ :=
    read_stored target ({ bmp.file_header with file_size := file_size } : BMPHeader)
      bmp.bmp_info_header bmp.data W H hmagic hWeq hHeq hbits hW hd hW31 hsz
  refine ⟨_, _, loaded, hwrite, hread, ?_, ?_, ?_⟩
  · show loaded.bmp_info_header.width = bmp.bmp_info_header.width
    rw [hlw, hWeq]
  · show loaded.bmp_info_header.height = bmp.bmp_info_header.height
    rw [hlh, hHeq]
  · intro x y hx0 hx1 hy0 hy1
    have hx1b : x < bmp.bmp_info_header.width := hx1
    have hy1b : y < bmp.bmp_info_header.height := hy1
    obtain ⟨xn, rfl⟩ := Int.eq_ofNat_of_zero_le hx0
    obtain ⟨yn, rfl⟩ := Int.eq_ofNat_of_zero_le hy0
    have hxn : xn < W := by omega
    have hyn : yn < H := by omega
    have hlt : yn * (3 * W) + (3 * xn + 2) < bmp.data.length := by
      have := index_lt H (3 * W) yn (3 * xn + 2) hyn (by omega)
      rw [Nat.mul_comm H (3 * W)] at this
      omega
    rw [get_pixel_eval bmp W H xn yn hWeq hHeq hbits hs hxn hyn hsz,
      get_pixel_eval loaded W H xn yn hlw hlh hlb hls hxn hyn hsz,
      hrows yn (3 * xn) hyn (by omega), hrows yn (3 * xn + 1) hyn (by omega),
      hrows yn (3 * xn + 2) hyn (by omega)]
    have h0 : yn * (3 * W) + 3 * xn < bmp.data.length := by omega
    have h1 : yn * (3 * W) + (3 * xn + 1) < bmp.data.length := by omega
    refine ⟨bmp.data[yn * (3 * W) + (3 * xn + 2)], bmp.data[yn * (3 * W) + (3 * xn + 1)],
      bmp.data[yn * (3 * W) + 3 * xn], ?_⟩
    simp only [List.getElem?_eq_getElem h0, List.getElem?_eq_getElem h1,
      List.getElem?_eq_getElem hlt, Option.some_bind, Option.map_some', and_self]

/-- C15 at the 2 by 2 image with the pixels (255,0,0), (0,255,0), (0,0,255),
(255,255,255), read back into a freshly initialised object. -/
theorem C15_bmp_write_read_round_trip_witness :
    bmp2x2 = some bmp2x2Object ∧
    bmp2x2Object.get_pixel 0 0 = some (toByte 255, toByte 0, toByte 0) ∧
    bmp2x2Object.get_pixel 1 0 = some (toByte 0, toByte 255, toByte 0) ∧
    bmp2x2Object.get_pixel 0 1 = some (toByte 0, toByte 0, toByte 255) ∧
    bmp2x2Object.get_pixel 1 1 = some (toByte 255, toByte 255, toByte 255) ∧
    ∃ bytes written loaded, bmp2x2Object.write = some (bytes, written) ∧
      BMP.initial.read bytes = some loaded ∧
      loaded.get_width = bmp2x2Object.get_width ∧
      loaded.get_height = bmp2x2Object.get_height ∧
      ∀ x y : Int, 0 ≤ x → x < bmp2x2Object.get_width → 0 ≤ y → y < bmp2x2Object.get_height →
        ∃ r g b, bmp2x2Object.get_pixel x y = some (r, g, b) ∧
          loaded.get_pixel x y = some (r, g, b) :=
  ⟨by decide, by decide, by decide, by decide, by decide,
   C15_bmp_write_read_round_trip bmp2x2Object BMP.initial (by decide) (by decide) (by decide)
     (by decide) (by decide) (by decide) (by decide) (by decide)⟩

/-! ## The data-model invariant of `toCompressed` -/

theorem buildStep_nonempty (st : BuildState) (pixel : Pixel)
    (hs : st.stopped = false) (hid : st.currentId < 256) :
    (buildStep st pixel).stopped = false ∧ (buildStep st pixel).currentId < 256 ∧
      (∃ k c, (buildStep st pixel).table.find k = some c) ∧
      ((∃ k c, st.table.find k = some c) → ∃ k c, (buildStep st pixel).table.find k = some c) := by
  unfold buildStep
  rw [hs]
  simp only [Bool.false_eq_true, if_false]
  by_cases hc : tableContains st.table pixel = true
  · rw [if_pos hc]
    obtain ⟨k, hk⟩ := (tableContains_iff st.table pixel).1 hc
    exact ⟨hs, hid, ⟨k, pixel, hk⟩, fun h => h⟩
  · rw [if_neg hc, if_neg (by omega)]
    have hins : (st.table.insert (toByte st.currentId) pixel).find (toByte st.currentId) =
        some pixel := by
      simp only [ColorTable.insert, if_true]
    exact ⟨rfl, Nat.mod_lt _ (by decide), ⟨_, _, hins⟩, fun _ => ⟨_, _, hins⟩⟩

theorem buildStep_foldl_nonempty (l : List Pixel) :
    ∀ st : BuildState, st.stopped = false → st.currentId < 256 →
      (∃ k c, st.table.find k = some c) →
      ∃ k c, (l.foldl buildStep st).table.find k = some c := by
  induction l with
  | nil => intro st _ _ h; exact h
  | cons p ps ih =>
    intro st hs hid h
    obtain ⟨h1, h2, h3, -⟩ := buildStep_nonempty st p hs hid
    exact ih _ h1 h2 h3

/-- The palette built from a non-empty pixel buffer is not empty. -/
theorem buildTable_nonempty (p : Pixel) (ps : List Pixel) :
    (buildTable (p :: ps)).isEmpty = false := by
  rw [ColorTable.isEmpty_eq_false_iff]
  unfold buildTable
  obtain ⟨h1, h2, h3, -⟩ := buildStep_nonempty ⟨ColorTable.empty, 0, false⟩ p rfl (by decide)
  exact buildStep_foldl_nonempty ps _ h1 h2 h3

/-- The palette that `toCompressed` uses is not empty as soon as the image has a pixel. -/
theorem toCompressed_table_nonempty (img : Flat.UncompressedImage) (color_table : ColorTable)
    (approximate allow_color_add : Bool) (h : img.pixels ≠ []) :
    (toCompressed img color_table approximate allow_color_add).colorTable.isEmpty = false := by
  show (if color_table.isEmpty then buildTable img.pixels else color_table).isEmpty = false
  by_cases he : color_table.isEmpty = true
  · rw [if_pos he]
    cases hp : img.pixels with
    | nil => exact absurd hp h
    | cons p ps => exact buildTable_nonempty p ps
  · rw [if_neg he]
    simpa using he

/-- C21: for every image and every palette argument, the image returned by `toCompressed`
satisfies the data-model invariant: every index of its buffer is a key of its palette,
the palette has at most 256 entries, the buffer has as many indices as the input has
pixels, and width and height are those of the input. -/
theorem C21_toCompressed_invariant (img : Flat.UncompressedImage) (color_table : ColorTable)
    (approximate allow_color_add : Bool) :
    (∀ id ∈ (toCompressed img color_table approximate allow_color_add).pixelIds,
      ∃ c, (toCompressed img color_table approximate allow_color_add).colorTable.find id =
        some c) ∧
    (toCompressed img color_table approximate allow_color_add).colorTable.size ≤ 256 ∧
    (toCompressed img color_table approximate allow_color_add).pixelIds.length =
      img.pixels.length ∧
    (toCompressed img color_table approximate allow_color_add).width = img.width ∧
    (toCompressed img color_table approximate allow_color_add).height = img.height := by
  refine ⟨?_, ColorTable.size_le _, ?_, rfl, rfl⟩
  · intro id hid
    have hids : (toCompressed img color_table approximate allow_color_add).pixelIds =
        img.pixels.map (fun q =>
          findClosestColorId q
            (toCompressed img color_table approximate allow_color_add).colorTable) := rfl
    rw [hids, List.mem_map] at hid
    obtain ⟨q, hq, rfl⟩ := hid
    have hne : img.pixels ≠ [] := List.ne_nil_of_mem hq
    obtain ⟨ci, hci, -⟩ := findClosestColorId_spec q _
      (toCompressed_table_nonempty img color_table approximate allow_color_add hne)
    exact ⟨ci, hci⟩
  · show (img.pixels.map _).length = _
    rw [List.length_map]

/-! ## The grid invariant of `UncompressedImage` -/

theorem gridOK_iff_lengths (img : UncompressedImage) :
    img.GridOK ↔ img.image_data.map List.length = List.replicate img.height img.width := by
  unfold UncompressedImage.GridOK
  constructor
  · rintro ⟨h1, h2⟩
    rw [List.eq_replicate_iff]
    refine ⟨by rw [List.length_map, h1], ?_⟩
    intro n hn
    obtain ⟨row, hrow, rfl⟩ := List.mem_map.1 hn
    exact h2 row hrow
  · intro h
    rw [List.eq_replicate_iff] at h
    refine ⟨by simpa using h.1, ?_⟩
    intro row hrow
    exact h.2 _ (List.mem_map.2 ⟨row, hrow, rfl⟩)

/-- The reading loops store into existing positions only: the row lengths of the grid
stay what they are. -/
theorem readGrid_row_lengths {α : Type} (readOne : IStream → Option α × IStream)
    (width height : Nat) (grid : List (List α)) (s : IStream) :
    (readGrid readOne width height grid s).grid.map List.length = grid.map List.length := by
  unfold readGrid
  have inner : ∀ (y : Nat) (xs : List Nat) (st : ReadState α),
      (xs.foldl (fun st x =>
        if st.ok then
          match readOne st.s with
          | (some v, s2) => { ok := true, grid := setAt st.grid x y v, s := s2 }
          | (none, s2) => { ok := false, grid := st.grid, s := s2 }
        else st) st).grid.map List.length = st.grid.map List.length := by
    intro y xs
    induction xs with
    | nil => intro st; rfl
    | cons x xs ih =>
      intro st
      simp only [List.foldl_cons]
      rw [ih]
      split
      · split
        · exact setAt_row_lengths _ _ _ _
        · rfl
      · rfl
  have outer : ∀ (ys : List Nat) (st : ReadState α),
      (ys.foldl (fun st y =>
        (List.range width).foldl (fun st x =>
          if st.ok then
            match readOne st.s with
            | (some v, s2) => { ok := true, grid := setAt st.grid x y v, s := s2 }
            | (none, s2) => { ok := false, grid := st.grid, s := s2 }
          else st) st) st).grid.map List.length = st.grid.map List.length := by
    intro ys
    induction ys with
    | nil => intro st; rfl
    | cons y ys ih =>
      intro st
      simp only [List.foldl_cons]
      rw [ih, inner]
  exact outer _ _

/-- The image that `readFields` leaves has a grid that matches the width and height it
has read, whatever the stream holds. -/
theorem raw_readFields_gridOK (img : UncompressedImage) (s : IStream) (indet : Byte) :
    (img.readFields s indet).1.GridOK := by
  rw [gridOK_iff_lengths]
  simp only [UncompressedImage.readFields]
  split
  · rw [readGrid_row_lengths]; simp
  · rw [readGrid_row_lengths]; simp

theorem create_gridOK (w h : Nat) (gray : Bool) : (UncompressedImage.create w h gray).GridOK := by
  rw [gridOK_iff_lengths]
  simp [UncompressedImage.create]

theorem raw_readFromFile_gridOK (img : UncompressedImage) (file : List Byte) (indet : Byte)
    (hok : img.GridOK) : (img.readFromFile file indet).2.GridOK := by
  unfold UncompressedImage.readFromFile
  simp only []
  split
  · exact hok
  · split
    · exact hok
    · split <;> exact raw_readFields_gridOK img _ indet

theorem raw_readAfterMagic_gridOK (img : UncompressedImage) (s : IStream) (indet : Byte)
    (hok : img.GridOK) : (img.readAfterMagic s indet).2.GridOK := by
  unfold UncompressedImage.readAfterMagic UncompressedImage.checkTrailer
  simp only []
  split
  · exact hok
  · split <;> exact raw_readFields_gridOK img _ indet

theorem setPixel_gridOK (img : UncompressedImage) (x y : Nat) (color : ColorRGB)
    (hok : img.GridOK) : (img.setPixel x y color).GridOK := by
  rw [gridOK_iff_lengths] at hok ⊢
  unfold UncompressedImage.setPixel
  split
  · exact hok
  · show (setAt img.image_data x y color).map List.length = _
    rw [setAt_row_lengths]; exact hok

/-- C22 as amended: the invariant "the grid has exactly `height` rows, each of exactly
`width` pixels" holds after both constructors of `UncompressedImage` and is preserved by
`setIsGrayscale`, `setPixel` and `readFromFile` (as a whole, and for its steps after the
magic comparison on any stream).  The three plain setters assign one member: after
`setWidth(w)` the invariant holds exactly when `w` is the old width or the image has no
row, after `setHeight(h)` exactly when `h` is the old height, after `setImageData(data)`
exactly when `data` has `height` rows of `width` pixels. -/
theorem C22_grid_invariant (img : UncompressedImage) (hok : img.GridOK) :
    UncompressedImage.new.GridOK ∧
    (∀ w h gray, (UncompressedImage.create w h gray).GridOK) ∧
    (∀ gray, (img.setIsGrayscale gray).GridOK) ∧
    (∀ x y color, (img.setPixel x y color).GridOK) ∧
    (∀ file indet, (img.readFromFile file indet).2.GridOK) ∧
    (∀ s indet, (img.readAfterMagic s indet).2.GridOK) ∧
    (∀ w, (img.setWidth w).GridOK ↔ (w = img.width ∨ img.height = 0)) ∧
    (∀ h, (img.setHeight h).GridOK ↔ h = img.height) ∧
    (∀ data, (img.setImageData data).GridOK ↔
      (data.length = img.height ∧ ∀ row ∈ data, row.length = img.width)) := by
  refine ⟨⟨rfl, fun row h => absurd h (List.not_mem_nil row)⟩, create_gridOK,
    fun _ => hok, fun x y c => setPixel_gridOK img x y c hok,
    fun file indet => raw_readFromFile_gridOK img file indet hok,
    fun s indet => raw_readAfterMagic_gridOK img s indet hok, ?_, ?_, fun _ => Iff.rfl⟩
  · intro w
    obtain ⟨h1, h2⟩ := hok
    constructor
    · rintro ⟨-, hw⟩
      cases hd : img.image_data with
      | nil =>
        right
        rw [← h1, hd]; rfl
      | cons row rest =>
        left
        have hm : row ∈ img.image_data := by rw [hd]; exact List.mem_cons_self _ _
        have e1 : row.length = w := hw row hm
        have e2 : row.length = img.width := h2 row hm
        omega
    · rintro (rfl | h0)
      · exact ⟨h1, h2⟩
      · refine ⟨h1, ?_⟩
        intro row hrow
        have hnil : img.image_data = [] := List.eq_nil_of_length_eq_zero (by rw [h1, h0])
        have hrow2 : row ∈ img.image_data := hrow
        rw [hnil] at hrow2
        exact absurd hrow2 (List.not_mem_nil row)
  · intro h
    obtain ⟨h1, h2⟩ := hok
    constructor
    · rintro ⟨hl, -⟩
      have : img.image_data.length = h := hl
      omega
    · rintro rfl
      exact ⟨h1, h2⟩

/-- C22 as amended, at the 2 by 1 color image. -/
theorem C22_grid_invariant_witness :
    rawSample.GridOK ∧
    (∀ x y color, (rawSample.setPixel x y color).GridOK) ∧
    (∀ file indet, (rawSample.readFromFile file indet).2.GridOK) ∧
    (∀ w, (rawSample.setWidth w).GridOK ↔ (w = rawSample.width ∨ rawSample.height = 0)) :=
  ⟨by decide, (C22_grid_invariant rawSample (by decide)).2.2.2.1,
   (C22_grid_invariant rawSample (by decide)).2.2.2.2.1,
   (C22_grid_invariant rawSample (by decide)).2.2.2.2.2.2.1⟩

/-- C22 fails for the three plain setters: the image constructed with width 1 and
height 1 satisfies the invariant, and it no longer does after `setWidth(2)`, after
`setHeight(2)`, or after `setImageData` with an empty grid. -/
theorem C22_plain_setters_counterexample :
    (UncompressedImage.create 1 1 false).GridOK ∧
    ¬ ((UncompressedImage.create 1 1 false).setWidth 2).GridOK ∧
    ¬ ((UncompressedImage.create 1 1 false).setHeight 2).GridOK ∧
    ¬ ((UncompressedImage.create 1 1 false).setImageData []).GridOK := by
  decide

/-! ## `colorToGrayscale` and the exact weighted sum -/

theorem excessBits_le_of_lt (fuel : Nat) :
    ∀ (j n : Nat), n < 2 ^ (53 + j) → excessBits fuel n ≤ j := by
  induction fuel with
  | zero => intro j n _; exact Nat.zero_le j
  | succ fuel ih =>
    intro j n hn
    unfold excessBits
    split
    · exact Nat.zero_le j
    · rename_i h53
      cases j with
      | zero => exact absurd hn h53
      | succ j =>
        have h2 : n / 2 < 2 ^ (53 + j) := by
          have e : 2 ^ (53 + (j + 1)) = 2 * 2 ^ (53 + j) := by
            rw [← Nat.add_assoc, Nat.pow_succ, Nat.mul_comm]
          rw [e] at hn
          omega
        exact Nat.succ_le_succ (ih j (n / 2) h2)

/-- Rounding to `double` moves a value below `2 ^ 8` by at most `2 ^ (-46)` (1024 units of
`2 ^ (-56)`). -/
theorem roundDouble_error (n : Nat) (hn : n < 2 ^ 64) :
    roundDouble n ≤ n + 1024 ∧ n ≤ roundDouble n + 1024 := by
  unfold roundDouble
  split
  · exact ⟨by omega, by omega⟩
  · have hk : excessBits 64 n ≤ 11 := excessBits_le_of_lt 64 11 n hn
    have hP : 2 ^ excessBits 64 n ≤ 2 ^ 11 := Nat.pow_le_pow_right (by decide) hk
    have hP0 : 0 < 2 ^ excessBits 64 n := Nat.pow_pos (by decide)
    have hdm : 2 ^ excessBits 64 n * (n / 2 ^ excessBits 64 n) + n % 2 ^ excessBits 64 n = n :=
      Nat.div_add_mod n _
    have hrem : n % 2 ^ excessBits 64 n < 2 ^ excessBits 64 n := Nat.mod_lt _ hP0
    simp only []
    generalize 2 ^ excessBits 64 n = P at *
    generalize hq : n / P = q at *
    generalize hr : n % P = rem at *
    have hmul : (q + 1) * P = P * q + P := by ring
    have hmul2 : q * P = P * q := Nat.mul_comm q P
    split
    · rename_i hc
      rw [hmul]
      have : P ≤ 2 * rem := by
        rcases hc with hc | hc
        · omega
        · omega
      norm_num at hP
      omega
    · rename_i hc
      rw [hmul2]
      have : 2 * rem ≤ P := by
        by_contra hgt
        exact hc (Or.inl (by omega))
      norm_num at hP
      omega

/-- The `double` sum of `colorToGrayscale`, in units of `2 ^ (-56)`: it differs from the
sum of the three exact products by at most 5120 units and stays below 256. -/
theorem grayValue_error (r g b : Nat) (hr : r < 256) (hg : g < 256) (hb : b < 256) :
    roundDouble (roundDouble (roundDouble (DOUBLE_0_299 * r) + roundDouble (DOUBLE_0_587 * g)) +
        roundDouble (DOUBLE_0_114 * b)) ≤
      DOUBLE_0_299 * r + DOUBLE_0_587 * g + DOUBLE_0_114 * b + 5120 ∧
    DOUBLE_0_299 * r + DOUBLE_0_587 * g + DOUBLE_0_114 * b ≤
      roundDouble (roundDouble (roundDouble (DOUBLE_0_299 * r) + roundDouble (DOUBLE_0_587 * g)) +
        roundDouble (DOUBLE_0_114 * b)) + 5120 := by
  have h64 : (2 : Nat) ^ 64 = 18446744073709551616 := by norm_num
  have hA := roundDouble_error (DOUBLE_0_299 * r) (by rw [h64]; simp only [DOUBLE_0_299]; omega)
  have hB := roundDouble_error (DOUBLE_0_587 * g) (by rw [h64]; simp only [DOUBLE_0_587]; omega)
  have hC := roundDouble_error (DOUBLE_0_114 * b) (by rw [h64]; simp only [DOUBLE_0_114]; omega)
  generalize roundDouble (DOUBLE_0_299 * r) = A at *
  generalize roundDouble (DOUBLE_0_587 * g) = B at *
  generalize roundDouble (DOUBLE_0_114 * b) = C at *
  have hAB := roundDouble_error (A + B)
    (by rw [h64]; simp only [DOUBLE_0_299, DOUBLE_0_587] at hA hB; omega)
  generalize roundDouble (A + B) = AB at *
  have hS := roundDouble_error (AB + C)
    (by rw [h64]; simp only [DOUBLE_0_299, DOUBLE_0_587, DOUBLE_0_114] at hA hB hC; omega)
  generalize roundDouble (AB + C) = S at *
  omega

/-- C23 as amended: for every color `(r, g, b)`, with `N = 299 r + 587 g + 114 b`, the value
`v` of `colorToGrayscale` lies in `0 .. 255` and within one half of `N / 1000`
(`1000 v - 500 <= N <= 1000 v + 500`), so it is the integer nearest to `N / 1000`
whenever `N / 1000` is not a half-integer (`v = (N + 500) div 1000` unless
`N mod 1000 = 500`); and a color with `r = g = b = v` is mapped to `v`. -/
theorem C23_colorToGrayscale_nearest (color : ColorRGB) (v : Byte) :
    (colorToGrayscale color).val ≤ 255 ∧
    1000 * (colorToGrayscale color).val ≤
      299 * color.r.val + 587 * color.g.val + 114 * color.b.val + 500 ∧
    299 * color.r.val + 587 * color.g.val + 114 * color.b.val ≤
      1000 * (colorToGrayscale color).val + 500 ∧
    ((299 * color.r.val + 587 * color.g.val + 114 * color.b.val) % 1000 = 500 ∨
      (colorToGrayscale color).val =
        (299 * color.r.val + 587 * color.g.val + 114 * color.b.val + 500) / 1000) ∧
    colorToGrayscale ⟨v, v, v⟩ = v := by
  have hr := color.r.isLt
  have hg := color.g.isLt
  have hb := color.b.isLt
  obtain ⟨h1, h2⟩ := grayValue_error color.r.val color.g.val color.b.val hr hg hb
  have hval : (colorToGrayscale color).val =
      (stdRound (roundDouble (roundDouble (roundDouble (DOUBLE_0_299 * color.r.val) +
        roundDouble (DOUBLE_0_587 * color.g.val)) +
          roundDouble (DOUBLE_0_114 * color.b.val)))) % 256 := rfl
  generalize roundDouble (roundDouble (roundDouble (DOUBLE_0_299 * color.r.val) +
        roundDouble (DOUBLE_0_587 * color.g.val)) +
          roundDouble (DOUBLE_0_114 * color.b.val)) = S at *
  have h56 : (2 : Nat) ^ 56 = 72057594037927936 := by norm_num
  have h55 : (2 : Nat) ^ 55 = 36028797018963968 := by norm_num
  have hround : stdRound S = (S + 36028797018963968) / 72057594037927936 := by
    unfold stdRound
    rw [h56, h55]
    split <;> omega
  rw [hround] at hval
  simp only [DOUBLE_0_299, DOUBLE_0_587, DOUBLE_0_114] at h1 h2
  generalize (colorToGrayscale color).val = out at *
  generalize color.r.val = r at *
  generalize color.g.val = g at *
  generalize color.b.val = b at *
  have hq1 : 72057594037927936 * ((S + 36028797018963968) / 72057594037927936) ≤
      S + 36028797018963968 := Nat.mul_div_le _ _
  have hq2 : S + 36028797018963968 <
      72057594037927936 * ((S + 36028797018963968) / 72057594037927936) +
        72057594037927936 := by
    have := Nat.lt_mul_div_succ (S + 36028797018963968)
      (show 0 < 72057594037927936 by decide)
    omega
  generalize (S + 36028797018963968) / 72057594037927936 = q at *
  have hq255 : q ≤ 255 := by
    by_contra hc
    have : 72057594037927936 * 256 ≤ 72057594037927936 * q :=
      Nat.mul_le_mul_left _ (by omega)
    omega
  have hout : out = q := by omega
  subst hout
  have hup : 1000 * out ≤ 299 * r + 587 * g + 114 * b + 500 := by
    by_contra hc
    have : 72057594037927936 * (299 * r + 587 * g + 114 * b + 501) ≤
        72057594037927936 * (1000 * out) := Nat.mul_le_mul_left _ (by omega)
    omega
  have hlo : 299 * r + 587 * g + 114 * b ≤ 1000 * out + 500 := by
    by_contra hc
    have : 72057594037927936 * (1000 * out + 501) ≤
        72057594037927936 * (299 * r + 587 * g + 114 * b) := Nat.mul_le_mul_left _ (by omega)
    omega
  refine ⟨hq255, hup, hlo, ?_, colorToGrayscale_gray v⟩
  clear h1 h2 hq1 hq2 hval
  generalize 299 * r + 587 * g + 114 * b = N at *
  omega

/-- C23 fails at the color (0, 36, 12): the exact value is `22500 / 1000 = 22.5`, whose
nearest integer with a half rounded away from zero is 23, while the `double` sum is
below 22.5 and `colorToGrayscale` returns 22.  At (0, 0, 250), with the exact value 28.5,
it returns 29. -/
theorem C23_half_rounds_down_counterexample :
    (299 * 0 + 587 * 36 + 114 * 12 + 500) / 1000 = 23 ∧
    colorToGrayscale (rgb 0 36 12) = toByte 22 ∧
    (299 * 0 + 587 * 0 + 114 * 250 + 500) / 1000 = 29 ∧
    colorToGrayscale (rgb 0 0 250) = toByte 29 := by
  decide

/-! ## `colorDistanceSq` -/

theorem toInt64_of_range (z : Int) (h1 : -9223372036854775808 ≤ z)
    (h2 : z < 9223372036854775808) : toInt64 z = z := by
  unfold toInt64
  omega

theorem sq_diff_bounds (a b : Byte) :
    0 ≤ ((a.val : Int) - (b.val : Int)) * ((a.val : Int) - (b.val : Int)) ∧
    ((a.val : Int) - (b.val : Int)) * ((a.val : Int) - (b.val : Int)) ≤ 65025 := by
  have ha := a.isLt
  have hb := b.isLt
  constructor
  · exact mul_self_nonneg _
  · have h1 : -255 ≤ (a.val : Int) - (b.val : Int) := by omega
    have h2 : (a.val : Int) - (b.val : Int) ≤ 255 := by omega
    nlinarith

/-- No operation of `colorDistanceSq` leaves the range of `int64_t`: the 64-bit
computation is the computation over the integers. -/
theorem colorDistanceSq64_eq (c1 c2 : ColorRGB) :
    colorDistanceSq64 c1 c2 = colorDistanceSq c1 c2 := by
  have hr := sq_diff_bounds c1.r c2.r
  have hg := sq_diff_bounds c1.g c2.g
  have hb := sq_diff_bounds c1.b c2.b
  have h1 := c1.r.isLt
  have h2 := c1.g.isLt
  have h3 := c1.b.isLt
  have h4 := c2.r.isLt
  have h5 := c2.g.isLt
  have h6 := c2.b.isLt
  unfold colorDistanceSq64 colorDistanceSq
  simp only []
  rw [toInt64_of_range (c1.r.val : Int) (by omega) (by omega),
    toInt64_of_range (c1.g.val : Int) (by omega) (by omega),
    toInt64_of_range (c1.b.val : Int) (by omega) (by omega),
    toInt64_of_range (c2.r.val : Int) (by omega) (by omega),
    toInt64_of_range (c2.g.val : Int) (by omega) (by omega),
    toInt64_of_range (c2.b.val : Int) (by omega) (by omega),
    toInt64_of_range ((c1.r.val : Int) - (c2.r.val : Int)) (by omega) (by omega),
    toInt64_of_range ((c1.g.val : Int) - (c2.g.val : Int)) (by omega) (by omega),
    toInt64_of_range ((c1.b.val : Int) - (c2.b.val : Int)) (by omega) (by omega)]
  generalize ((c1.r.val : Int) - (c2.r.val : Int)) * ((c1.r.val : Int) - (c2.r.val : Int)) = R at *
  generalize ((c1.g.val : Int) - (c2.g.val : Int)) * ((c1.g.val : Int) - (c2.g.val : Int)) = G at *
  generalize ((c1.b.val : Int) - (c2.b.val : Int)) * ((c1.b.val : Int) - (c2.b.val : Int)) = B at *
  rw [toInt64_of_range R (by omega) (by omega), toInt64_of_range G (by omega) (by omega),
    toInt64_of_range B (by omega) (by omega), toInt64_of_range (R + G) (by omega) (by omega),
    toInt64_of_range (R + G + B) (by omega) (by omega)]

/-- C24: for all colors `c1` and `c2`, `colorDistanceSq(c1, c2)`, computed in `int64_t`,
equals `(r1 - r2)^2 + (g1 - g2)^2 + (b1 - b2)^2` over the integers (nothing wraps), is
symmetric in its arguments, lies between 0 and 195075 inclusive, and is 0 exactly when
`c1` and `c2` are equal channel by channel. -/
theorem C24_colorDistanceSq_exact (c1 c2 : ColorRGB) :
    colorDistanceSq64 c1 c2 =
      ((c1.r.val : Int) - (c2.r.val : Int)) ^ 2 + ((c1.g.val : Int) - (c2.g.val : Int)) ^ 2 +
        ((c1.b.val : Int) - (c2.b.val : Int)) ^ 2 ∧
    colorDistanceSq c1 c2 = colorDistanceSq64 c1 c2 ∧
    colorDistanceSq64 c1 c2 = colorDistanceSq64 c2 c1 ∧
    0 ≤ colorDistanceSq64 c1 c2 ∧ colorDistanceSq64 c1 c2 ≤ 195075 ∧
    (colorDistanceSq64 c1 c2 = 0 ↔ (c1.r = c2.r ∧ c1.g = c2.g ∧ c1.b = c2.b)) := by
  rw [colorDistanceSq64_eq c1 c2, colorDistanceSq64_eq c2 c1]
  refine ⟨?_, rfl, ?_, colorDistanceSq_nonneg c1 c2, colorDistanceSq_le c1 c2, ?_⟩
  · simp only [colorDistanceSq]; ring
  · simp only [colorDistanceSq]; ring
  · rw [colorDistanceSq_eq_zero]
    constructor
    · rintro rfl; exact ⟨rfl, rfl, rfl⟩
    · rintro ⟨h1, h2, h3⟩
      cases c1; cases c2
      simp only at h1 h2 h3
      subst h1 h2 h3
      rfl

/-! ## The grayscale round trip through `readFromFile` -/

/-- C25, the code at a flagged gray image: the 2 by 1 image with the gray pixels (7,7,7)
and (200,200,200) is written with one byte per pixel; `readFromFile` on the written bytes
returns `false` at the magic comparison and leaves the receiving image as constructed
(0 by 0), so `matchUncompressedImages` reports the two images as different; the steps of
the decoder after the magic and the version, run on the same bytes, rebuild the image,
which `matchUncompressedImages` reports as equal to the original. -/
theorem C25_gray_roundtrip_stops_at_magic :
    graySample.is_grayscale = true ∧
    (∀ row ∈ graySample.image_data, ∀ p ∈ row, p.g = p.r ∧ p.b = p.r) ∧
    graySample.writeToFile.length = 10 + 3 + 4 + 4 + 1 + 1 * (2 * 1) + 10 ∧
    (∀ indet, UncompressedImage.new.readFromFile graySample.writeToFile indet =
      (false, UncompressedImage.new)) ∧
    matchUncompressedImages graySample UncompressedImage.new = some false ∧
    (∀ indet, (UncompressedImage.new.readFields
      (IStream.mk (graySample.writeToFile.drop 13) false) indet).1 = graySample) ∧
    matchUncompressedImages graySample graySample = some true := by
  refine ⟨rfl, by decide, by decide,
    fun indet => raw_readFromFile_fails UncompressedImage.new graySample.writeToFile indet,
    by decide, ?_, by decide⟩
  intro indet
  rw [(raw_readFields_written graySample UncompressedImage.new indet (by decide) (by decide)
    (by decide) (by decide) (by decide)).2]

/-! ## The layout after `mirror` -/

theorem getPixel_eq_of_getElem? (img img2 : Flat.UncompressedImage) (x y x2 y2 : Nat)
    (hw : img.width = img2.width)
    (h : img.pixels[(y * img.width + x) % U32]? = img2.pixels[(y2 * img2.width + x2) % U32]?) :
    img.getPixel x y = img2.getPixel x2 y2 := by
  simp only [Flat.UncompressedImage.getPixel, List.getD_eq_getElem?_getD, h]

/-- C26: for every well-formed image of width `W` and height `H`, `mirror` leaves width,
height, flag and the size of the buffer unchanged and reverses along the chosen axis:
after `mirror(img, true)` the entry at `(x, y)` is the original entry at `(W - 1 - x, y)`,
after `mirror(img, false)` it is the original entry at `(x, H - 1 - y)`, for all
`0 <= x < W`, `0 <= y < H`; the same holds for the index buffer of a well-formed compressed
image. -/
theorem C26_mirror_layout (img : Flat.UncompressedImage) (hwf : img.WellFormed) :
    (∀ horizontal, (mirror img horizontal).width = img.width ∧
      (mirror img horizontal).height = img.height ∧
      (mirror img horizontal).grayscale = img.grayscale ∧
      (mirror img horizontal).pixels.length = img.width * img.height) ∧
    (∀ x y, x < img.width → y < img.height →
      (mirror img true).getPixel x y = img.getPixel (img.width - 1 - x) y) ∧
    (∀ x y, x < img.width → y < img.height →
      (mirror img false).getPixel x y = img.getPixel x (img.height - 1 - y)) ∧
    (∀ cimg : Flat.CompressedImage, cimg.WellFormed →
      (∀ horizontal, (mirrorCompressed cimg horizontal).width = cimg.width ∧
        (mirrorCompressed cimg horizontal).height = cimg.height ∧
        (mirrorCompressed cimg horizontal).pixelIds.length = cimg.width * cimg.height) ∧
      (∀ x y, x < cimg.width → y < cimg.height →
        (mirrorCompressed cimg true).pixelIds[y * cimg.width + x]? =
          cimg.pixelIds[y * cimg.width + (cimg.width - 1 - x)]?) ∧
      (∀ x y, x < cimg.width → y < cimg.height →
        (mirrorCompressed cimg false).pixelIds[y * cimg.width + x]? =
          cimg.pixelIds[(cimg.height - 1 - y) * cimg.width + x]?)) := by
  obtain ⟨hW, hH, hWH, hlen⟩ := hwf
  obtain ⟨hl1, hp1⟩ := mirrorBuffer_horizontal img.width img.height img.pixels hW hWH hlen
  obtain ⟨hl2, hp2⟩ := mirrorBuffer_vertical img.width img.height img.pixels hH hWH hlen
  have hmod : ∀ x y, x < img.width → y < img.height →
      (y * img.width + x) % U32 = y * img.width + x := by
    intro x y hx hy
    have b : y * img.width + x < img.width * img.height := by
      rw [Nat.mul_comm img.width img.height]; exact index_lt img.height img.width y x hy hx
    exact Nat.mod_eq_of_lt (Nat.lt_trans b hWH)
  refine ⟨?_, ?_, ?_, ?_⟩
  rotate_left 3
  · rintro cimg ⟨cW, cH, cWH, clen⟩
    obtain ⟨cl1, cp1⟩ := mirrorBuffer_horizontal cimg.width cimg.height cimg.pixelIds cW cWH clen
    obtain ⟨cl2, cp2⟩ := mirrorBuffer_vertical cimg.width cimg.height cimg.pixelIds cH cWH clen
    refine ⟨?_, cp1, cp2⟩
    intro horizontal
    refine ⟨rfl, rfl, ?_⟩
    cases horizontal
    · exact cl2
    · exact cl1
  · intro horizontal
    refine ⟨rfl, rfl, rfl, ?_⟩
    cases horizontal
    · exact hl2
    · exact hl1
  · intro x y hx hy
    apply getPixel_eq_of_getElem? (mirror img true) img x y (img.width - 1 - x) y rfl
    show (mirrorBuffer img.width img.height img.pixels true)[(y * img.width + x) % U32]? = _
    rw [hmod x y hx hy, hmod (img.width - 1 - x) y (by omega) hy]
    exact hp1 x y hx hy
  · intro x y hx hy
    apply getPixel_eq_of_getElem? (mirror img false) img x y x (img.height - 1 - y) rfl
    show (mirrorBuffer img.width img.height img.pixels false)[(y * img.width + x) % U32]? = _
    rw [hmod x y hx hy, hmod x (img.height - 1 - y) hx (by omega)]
    exact hp2 x y hx hy

/-- C26 at the 3 by 2 image (odd width, the middle column stays in place). -/
theorem C26_mirror_layout_witness :
    image3x2.WellFormed ∧
    (∀ x y, x < image3x2.width → y < image3x2.height →
      (mirror image3x2 true).getPixel x y = image3x2.getPixel (image3x2.width - 1 - x) y) ∧
    (∀ x y, x < image3x2.width → y < image3x2.height →
      (mirror image3x2 false).getPixel x y = image3x2.getPixel x (image3x2.height - 1 - y)) ∧
    (mirror image3x2 true).pixels =
      [rgb 3 0 0, rgb 2 0 0, rgb 1 0 0, rgb 6 0 0, rgb 5 0 0, rgb 4 0 0] :=
  ⟨by decide, (C26_mirror_layout image3x2 (by decide)).2.1,
   (C26_mirror_layout image3x2 (by decide)).2.2.1, by decide⟩

/-! ## `rotate` for every angle -/

/-- The two statements `angle = angle % 360; if (angle < 0) angle += 360;` bring the angle
into `0 .. 359`: the result is the remainder of the floored division. -/
theorem angle_normalised (a : Int) :
    (if Int.tmod a 360 < 0 then Int.tmod a 360 + 360 else Int.tmod a 360) = a % 360 := by
  rcases a with n | m
  · have e : Int.tmod (Int.ofNat n) 360 = ((n % 360 : Nat) : Int) := rfl
    rw [e]
    have : (Int.ofNat n) = (n : Int) := rfl
    rw [this]
    split <;> omega
  · have e : Int.tmod (Int.negSucc m) 360 = -(((m + 1) % 360 : Nat) : Int) := rfl
    rw [e, Int.negSucc_eq]
    split <;> omega

theorem foldl_range_iterate {α : Type} (f : α → α) (n : Nat) (a : α) :
    (List.range n).foldl (fun acc _ => f acc) a = Nat.iterate f n a := by
  induction n with
  | zero => rfl
  | succ n ih =>
    rw [List.range_succ, List.foldl_append, ih, Function.iterate_succ_apply']
    rfl

/-- What `rotate` does for an angle: nothing when the angle is not a multiple of 90,
otherwise `(a mod 360) / 90` times `rotate90`. -/
theorem rotate_eq (img : Flat.UncompressedImage) (a : Int) (fill : ColorRGB) (smart : Bool) :
    rotate img a fill smart =
      if (a % 360) % 90 ≠ 0 then img
      else Nat.iterate (fun i => rotate90 i fill smart) ((a % 360) / 90).toNat img := by
  unfold rotate
  simp only []
  rw [angle_normalised a]
  have h0 : 0 ≤ a % 360 := Int.emod_nonneg a (by decide)
  rw [Int.tmod_eq_emod h0 (by decide), Int.tdiv_eq_ediv h0 (by decide), foldl_range_iterate]

/-- C27: for every image and every integer angle `a`: if `a` is not a multiple of 90,
`rotate(img, a)` leaves the image unchanged; if it is, `rotate(img, a)` is the 90-degree
rotation applied `(a mod 360) / 90` times, with `a mod 360` in `0 .. 359`; `rotate` by `a`
and by `a + 360` agree; and on a well-formed image `rotate(img, 90)` followed by
`rotate(img, -90)` restores the image. -/
theorem C27_rotate_any_angle (img : Flat.UncompressedImage) (a : Int) (fill : ColorRGB)
    (smart : Bool) (hwf : img.WellFormed) :
    (¬ (90 ∣ a) → rotate img a fill smart = img) ∧
    ((90 ∣ a) → rotate img a fill smart =
      Nat.iterate (fun i => rotate90 i fill smart) ((a % 360) / 90).toNat img) ∧
    0 ≤ a % 360 ∧ a % 360 < 360 ∧
    rotate img (a + 360) fill smart = rotate img a fill smart ∧
    rotate (rotate img 90 fill smart) (-90) fill smart = img := by
  refine ⟨?_, ?_, by omega, by omega, ?_, ?_⟩
  · intro h
    rw [rotate_eq, if_pos (by omega)]
  · intro h
    rw [rotate_eq, if_neg (by omega)]
  · rw [rotate_eq, rotate_eq]
    have e : (a + 360) % 360 = a % 360 := by omega
    rw [e]
  · rw [rotate_eq (rotate img 90 fill smart) (-90), rotate_eq img 90]
    have e1 : ((90 : Int) % 360) % 90 = 0 := by decide
    have e2 : (((90 : Int) % 360) / 90).toNat = 1 := by decide
    have e3 : ((-90 : Int) % 360) % 90 = 0 := by decide
    have e4 : (((-90 : Int) % 360) / 90).toNat = 3 := by decide
    rw [if_neg (by rw [e3]; exact fun h => h rfl), if_neg (by rw [e1]; exact fun h => h rfl),
      e2, e4]
    exact rotate90_four img fill fill fill fill smart smart smart smart hwf

/-- C27 at the 3 by 2 image, for the angles 45, -270 and 90. -/
theorem C27_rotate_any_angle_witness :
    image3x2.WellFormed ∧
    rotate image3x2 45 black false = image3x2 ∧
    rotate image3x2 (-270) black false =
      Nat.iterate (fun i => rotate90 i black false) (((-270 : Int) % 360) / 90).toNat image3x2 ∧
    (((-270 : Int) % 360) / 90).toNat = 1 ∧
    rotate (rotate image3x2 90 black false) (-90) black false = image3x2 :=
  ⟨by decide, (C27_rotate_any_angle image3x2 45 black false (by decide)).1 (by decide),
   (C27_rotate_any_angle image3x2 (-270) black false (by decide)).2.1 (by decide),
   by decide,
   (C27_rotate_any_angle image3x2 90 black false (by decide)).2.2.2.2.2⟩

/-! ## Frame properties of `negative` and `toGrayscale` -/

theorem invertColor_val (c : ColorRGB) :
    (invertColor c).r.val = 255 - c.r.val ∧ (invertColor c).g.val = 255 - c.g.val ∧
      (invertColor c).b.val = 255 - c.b.val := by
  have h1 := c.r.isLt
  have h2 := c.g.isLt
  have h3 := c.b.isLt
  simp only [invertColor, toByte]
  refine ⟨?_, ?_, ?_⟩ <;> omega

/-- C28: for every compressed image, `negative` changes the palette table only: an index
is a key of the new palette exactly when it is a key of the old one, each palette entry
`(r, g, b)` becomes `(255 - r, 255 - g, 255 - b)`, and width, height and the index buffer
are unchanged; for an uncompressed image every pixel `(r, g, b)` becomes
`(255 - r, 255 - g, 255 - b)` with width, height and flag unchanged. -/
theorem C28_negative_frame (img : Flat.UncompressedImage) (cimg : Flat.CompressedImage) :
    ((negativeCompressed cimg).width = cimg.width ∧
      (negativeCompressed cimg).height = cimg.height ∧
      (negativeCompressed cimg).pixelIds = cimg.pixelIds ∧
      (∀ id, ((negativeCompressed cimg).colorTable.find id).isSome =
        (cimg.colorTable.find id).isSome) ∧
      (∀ id c, cimg.colorTable.find id = some c →
        ∃ c2, (negativeCompressed cimg).colorTable.find id = some c2 ∧
          c2.r.val = 255 - c.r.val ∧ c2.g.val = 255 - c.g.val ∧ c2.b.val = 255 - c.b.val)) ∧
    ((negative img).width = img.width ∧ (negative img).height = img.height ∧
      (negative img).grayscale = img.grayscale ∧
      (negative img).pixels.length = img.pixels.length ∧
      (∀ (i : Nat) (c : ColorRGB), img.pixels[i]? = some c →
        ∃ c2, (negative img).pixels[i]? = some c2 ∧
          c2.r.val = 255 - c.r.val ∧ c2.g.val = 255 - c.g.val ∧ c2.b.val = 255 - c.b.val)) := by
  refine ⟨⟨rfl, rfl, rfl, ?_, ?_⟩, ⟨rfl, rfl, rfl, ?_, ?_⟩⟩
  · intro id
    show ((cimg.colorTable.find id).map invertColor).isSome = _
    cases cimg.colorTable.find id <;> rfl
  · intro id c hc
    refine ⟨invertColor c, ?_, invertColor_val c⟩
    show (cimg.colorTable.find id).map invertColor = _
    rw [hc]; rfl
  · show (img.pixels.map invertColor).length = _
    rw [List.length_map]
  · intro i c hc
    refine ⟨invertColor c, ?_, invertColor_val c⟩
    show (img.pixels.map invertColor)[i]? = _
    rw [List.getElem?_map, hc]; rfl

/-- C29: for every uncompressed image whose grayscale flag is not set, `toGrayscale`
replaces each pixel `c` by `(g, g, g)` with `g = colorToGrayscale(c)`, sets the flag and
leaves width and height unchanged; if the flag is set the image is left as it is; for a
compressed image every palette entry `c` becomes `(g, g, g)` with
`g = colorToGrayscale(c)` while the palette indices and the index buffer are unchanged. -/
theorem C29_toGrayscale_effect (img : Flat.UncompressedImage) (cimg : Flat.CompressedImage) :
    (img.grayscale = false →
      (toGrayscale img).grayscale = true ∧ (toGrayscale img).width = img.width ∧
      (toGrayscale img).height = img.height ∧
      (toGrayscale img).pixels.length = img.pixels.length ∧
      ∀ (i : Nat) (c : ColorRGB), img.pixels[i]? = some c →
        (toGrayscale img).pixels[i]? =
          some ⟨colorToGrayscale c, colorToGrayscale c, colorToGrayscale c⟩) ∧
    (img.grayscale = true → toGrayscale img = img) ∧
    ((toGrayscaleCompressed cimg).width = cimg.width ∧
      (toGrayscaleCompressed cimg).height = cimg.height ∧
      (toGrayscaleCompressed cimg).pixelIds = cimg.pixelIds ∧
      (∀ id, ((toGrayscaleCompressed cimg).colorTable.find id).isSome =
        (cimg.colorTable.find id).isSome) ∧
      (∀ id c, cimg.colorTable.find id = some c →
        (toGrayscaleCompressed cimg).colorTable.find id =
          some ⟨colorToGrayscale c, colorToGrayscale c, colorToGrayscale c⟩)) := by
  refine ⟨?_, ?_, ⟨rfl, rfl, rfl, ?_, ?_⟩⟩
  · intro hg
    have e : toGrayscale img =
        { img with pixels := img.pixels.map grayColor, grayscale := true } := by
      unfold toGrayscale
      rw [hg]; rfl
    rw [e]
    refine ⟨rfl, rfl, rfl, by simp only [List.length_map], ?_⟩
    intro i c hc
    simp only [List.getElem?_map, hc, Option.map_some', grayColor]
  · intro hg
    unfold toGrayscale
    rw [hg]; rfl
  · intro id
    show ((cimg.colorTable.find id).map grayColor).isSome = _
    cases cimg.colorTable.find id <;> rfl
  · intro id c hc
    show (cimg.colorTable.find id).map grayColor = _
    rw [hc]; rfl

/-- C29 at the two-pixel sample image (flag not set) and at its gray version (flag set). -/
theorem C29_toGrayscale_effect_witness :
    sampleImage.grayscale = false ∧
    (toGrayscale sampleImage).grayscale = true ∧
    (toGrayscale sampleImage).pixels = [rgb 10 10 10, rgb 255 255 255] ∧
    (toGrayscale image3x2).pixels =
      [rgb 0 0 0, rgb 1 1 1, rgb 1 1 1, rgb 1 1 1, rgb 1 1 1, rgb 2 2 2] ∧
    (toGrayscale sampleImage).grayscale = true ∧
    toGrayscale (toGrayscale sampleImage) = toGrayscale sampleImage :=
  ⟨by decide, ((C29_toGrayscale_effect sampleImage compressed3x2).1 (by decide)).1,
   by decide, by decide, by decide,
   (C29_toGrayscale_effect (toGrayscale sampleImage) compressed3x2).2.1 (by decide)⟩

/-! ## Totality of `applyKernel` -/

/-- The inner loops over kernel positions inside a square kernel read every pixel and
every kernel entry in bounds, whatever the accumulated values. -/
theorem kernelCell_foldl_some (img : Flat.UncompressedImage) (kernel : List (List Int))
    (m x y : Nat) (hwf : img.WellFormed) (hx : x < img.width) (hy : y < img.height)
    (hK : kernel.length = 2 * m + 1) (hrows : ∀ row ∈ kernel, row.length = 2 * m + 1)
    (hwm : img.width + (2 * m + 1) ≤ 2147483648)
    (hhm : img.height + (2 * m + 1) ≤ 2147483648) (cs : List (Nat × Nat)) :
    (∀ c ∈ cs, c.1 < 2 * m + 1 ∧ c.2 < 2 * m + 1) →
    ∀ s : ChannelSums,
      ∃ s2, cs.foldl (fun a c => kernelCell img kernel (m : Int) x y a c.1 c.2) (some s) =
        some s2 := by
  induction cs with
  | nil => intro _ s; exact ⟨s, rfl⟩
  | cons c t ih =>
    intro hcs s
    have hc := hcs c (List.mem_cons_self _ _)
    simp only [List.foldl_cons]
    rw [kernelCell_eval img kernel m x y c.1 c.2 s hwf hx hy hc.1 hc.2 hK hrows hwm hhm]
    exact ih (fun c2 h2 => hcs c2 (List.mem_cons_of_mem _ h2)) _

theorem kernelSums_some (img : Flat.UncompressedImage) (kernel : List (List Int))
    (m x y : Nat) (hwf : img.WellFormed) (hx : x < img.width) (hy : y < img.height)
    (hK : kernel.length = 2 * m + 1) (hrows : ∀ row ∈ kernel, row.length = 2 * m + 1)
    (hwm : img.width + (2 * m + 1) ≤ 2147483648)
    (hhm : img.height + (2 * m + 1) ≤ 2147483648) :
    ∃ s, kernelSums img kernel x y = some s := by
  have hoff : toInt32 ((kernel.length : Nat) : Int) / 2 = (m : Int) := by
    rw [hK, toInt32_of_range _ (by omega) (by omega)]
    omega
  obtain ⟨s, hs⟩ := kernelCell_foldl_some img kernel m x y hwf hx hy hK hrows hwm hhm
    (kernelCells (2 * m + 1)) (fun c hc => mem_kernelCells _ c hc)
    { sum_r := 0, sum_g := 0, sum_b := 0 }
  refine ⟨s, ?_⟩
  rw [← hs]
  unfold kernelSums
  rw [hoff, hK]
  exact foldl_kernelCells (2 * m + 1)
    (fun a ky kx => kernelCell img kernel (m : Int) x y a ky kx) _

/-- The pixel computed from the sums when no division traps: the divisor is not 0, and it
is not -1 or every sum lies strictly inside the limits of `int`. -/
theorem kernelPixel_eq (s : ChannelSums) (d : Int) (hd : d ≠ 0)
    (h : d ≠ -1 ∨ (s.sum_r.natAbs < 2147483648 ∧ s.sum_g.natAbs < 2147483648 ∧
      s.sum_b.natAbs < 2147483648)) :
    kernelPixel s d =
      some ⟨toByte (clampInt (Int.tdiv s.sum_r d) 0 255).toNat,
        toByte (clampInt (Int.tdiv s.sum_g d) 0 255).toNat,
        toByte (clampInt (Int.tdiv s.sum_b d) 0 255).toNat⟩ := by
  rcases h with h | ⟨hr, hg, hb⟩
  · simp only [kernelPixel, divInt32_of_ne _ d hd h]
  · simp only [kernelPixel, divInt32_of_natAbs _ d hd hr, divInt32_of_natAbs _ d hd hg,
      divInt32_of_natAbs _ d hd hb]

/-- The sums at a pixel exist and, when the divisor is -1, lie strictly inside the limits
of `int` as soon as 255 times the absolute kernel sum does. -/
theorem kernelSums_safe (img : Flat.UncompressedImage) (kernel : List (List Int))
    (m x y : Nat) (divisor : Int) (hwf : img.WellFormed) (hx : x < img.width)
    (hy : y < img.height)
    (hK : kernel.length = 2 * m + 1) (hrows : ∀ row ∈ kernel, row.length = 2 * m + 1)
    (hwm : img.width + (2 * m + 1) ≤ 2147483648)
    (hhm : img.height + (2 * m + 1) ≤ 2147483648)
    (hd1 : divisor ≠ -1 ∨ 255 * kernelAbsSum kernel < 2147483648) :
    ∃ s, kernelSums img kernel x y = some s ∧
      (divisor ≠ -1 ∨ (s.sum_r.natAbs < 2147483648 ∧ s.sum_g.natAbs < 2147483648 ∧
        s.sum_b.natAbs < 2147483648)) := by
  rcases hd1 with h | h
  · obtain ⟨s, hs⟩ := kernelSums_some img kernel m x y hwf hx hy hK hrows hwm hhm
    exact ⟨s, hs, Or.inl h⟩
  · obtain ⟨hs, hr, hg, hb⟩ := kernelSums_eq img kernel m x y hwf hx hy hK hrows
      (cellsExact_of_range img kernel m hwf hK hrows hwm hhm) (by omega) h
    exact ⟨_, hs, Or.inr ⟨hr, hg, hb⟩⟩

theorem kernelStore_foldl_some (img : Flat.UncompressedImage) (kernel : List (List Int))
    (m : Nat) (divisor : Int) (hwf : img.WellFormed)
    (hK : kernel.length = 2 * m + 1) (hrows : ∀ row ∈ kernel, row.length = 2 * m + 1)
    (hwm : img.width + (2 * m + 1) ≤ 2147483648)
    (hhm : img.height + (2 * m + 1) ≤ 2147483648) (hd : divisor ≠ 0)
    (hd1 : divisor ≠ -1 ∨ 255 * kernelAbsSum kernel < 2147483648)
    (cs : List (Nat × Nat)) :
    (∀ c ∈ cs, c.1 < img.height ∧ c.2 < img.width) →
    ∀ buf : List Pixel, buf.length = img.width * img.height →
      ∃ buf2, cs.foldl (fun b c => kernelStore img kernel divisor b c.1 c.2) (some buf) =
        some buf2 ∧ buf2.length = img.width * img.height := by
  induction cs with
  | nil => intro _ buf hbuf; exact ⟨buf, rfl, hbuf⟩
  | cons c t ih =>
    intro hcs buf hbuf
    have hc := hcs c (List.mem_cons_self _ _)
    obtain ⟨s, hs, hsafe⟩ :=
      kernelSums_safe img kernel m c.2 c.1 divisor hwf hc.2 hc.1 hK hrows hwm hhm hd1
    have h0 : c.1 * img.width + c.2 < img.width * img.height := by
      rw [Nat.mul_comm img.width img.height]
      exact index_lt img.height img.width c.1 c.2 hc.1 hc.2
    have h1 : (c.1 * img.width + c.2) % U32 = c.1 * img.width + c.2 :=
      Nat.mod_eq_of_lt (Nat.lt_trans h0 hwf.2.2.1)
    have hstep : kernelStore img kernel divisor (some buf) c.1 c.2 =
        some (buf.set (c.1 * img.width + c.2)
          ⟨toByte (clampInt (Int.tdiv s.sum_r divisor) 0 255).toNat,
            toByte (clampInt (Int.tdiv s.sum_g divisor) 0 255).toNat,
            toByte (clampInt (Int.tdiv s.sum_b divisor) 0 255).toNat⟩) := by
      simp only [kernelStore, hs, kernelPixel_eq s divisor hd hsafe, h1, hbuf, if_pos h0]
    simp only [List.foldl_cons]
    rw [hstep]
    exact ih (fun c2 h2 => hcs c2 (List.mem_cons_of_mem _ h2)) _
      (by rw [List.length_set]; exact hbuf)

/-- The division by the divisor 0 traps whatever the sums are. -/
theorem kernelPixel_zero (s : ChannelSums) : kernelPixel s 0 = none := rfl

/-- With the divisor 0 no step of the outer loops of `applyKernel` has a result. -/
theorem kernelStore_zero (img : Flat.UncompressedImage) (kernel : List (List Int))
    (b : Option (List Pixel)) (y x : Nat) : kernelStore img kernel 0 b y x = none := by
  unfold kernelStore
  split
  · rw [kernelPixel_zero]
  · rfl

/-- A loop whose body never has a result has none as soon as it runs once. -/
theorem foldl_none_of_step {α β : Type} (f : Option α → β → Option α)
    (hf : ∀ b x, f b x = none) :
    ∀ (l : List β) (init : Option α), l ≠ [] → l.foldl f init = none := by
  intro l
  induction l with
  | nil => intro _ h; exact absurd rfl h
  | cons x t ih =>
    intro init _
    rw [List.foldl_cons, hf]
    cases t with
    | nil => rfl
    | cons x2 t2 => exact ih none (List.cons_ne_nil _ _)

/-- On an image with at least one pixel, `applyKernel` with an accepted kernel and the
divisor 0 has no result. -/
theorem applyKernel_zero_divisor (img : Flat.UncompressedImage) (kernel : List (List Int))
    (hk : kernelRejected kernel = false) (hw : 0 < img.width) (hh : 0 < img.height) :
    applyKernel img kernel 0 = none := by
  unfold applyKernel
  rw [if_neg (by rw [hk]; exact Bool.false_ne_true)]
  simp only []
  rw [foldl_none_of_step
    (fun buf y => (List.range img.width).foldl (fun buf x => kernelStore img kernel 0 buf y x) buf)
    (fun b y => foldl_none_of_step (fun buf x => kernelStore img kernel 0 buf y x)
      (fun b2 x => kernelStore_zero img kernel b2 y x) (List.range img.width) b
      (by rw [Ne, List.range_eq_nil]; omega))
    (List.range img.height) _ (by rw [Ne, List.range_eq_nil]; omega)]
  rfl

/-- C30 as amended: on a well-formed image whose width and height, increased by the side
of the kernel, stay within `int`, and for a square kernel of odd side, `applyKernel`
completes (every kernel entry and every pixel read in bounds, no division trapping) for
every divisor other than 0 and -1, and for the divisor -1 when 255 times the sum of the
absolute kernel entries is below 2^31, and the result keeps width, height, flag and buffer
size; for a kernel that the validation rejects it completes, with the image unchanged,
for every divisor; with the divisor 0, on an image with at least one pixel, the reads for
the first pixel are in bounds, the division of its sums traps and the run has no
result. -/
theorem C30_applyKernel_total (img : Flat.UncompressedImage) (kernel : List (List Int))
    (m : Nat) (divisor : Int) (hwf : img.WellFormed)
    (hK : kernel.length = 2 * m + 1) (hrows : ∀ row ∈ kernel, row.length = 2 * m + 1)
    (hwm : img.width + (2 * m + 1) ≤ 2147483648)
    (hhm : img.height + (2 * m + 1) ≤ 2147483648) :
    (divisor ≠ 0 → (divisor ≠ -1 ∨ 255 * kernelAbsSum kernel < 2147483648) →
      ∃ out, applyKernel img kernel divisor = some out ∧
        out.width = img.width ∧ out.height = img.height ∧ out.grayscale = img.grayscale ∧
        out.pixels.length = img.width * img.height) ∧
    (∀ (rejected : List (List Int)) (d : Int), kernelRejected rejected = true →
      applyKernel img rejected d = some img) ∧
    (0 < img.width → 0 < img.height →
      (∃ s, kernelSums img kernel 0 0 = some s ∧ kernelPixel s 0 = none) ∧
      applyKernel img kernel 0 = none) := by
  refine ⟨?_, fun rejected d h => applyKernel_rejected img rejected d h, ?_⟩
  · intro hd hd1
    have hinit : (List.replicate ((img.width * img.height) % U32) (rgb 0 0 0)).length =
        img.width * img.height := by
      rw [List.length_replicate, Nat.mod_eq_of_lt hwf.2.2.1]
    obtain ⟨buf, hrun, hlen⟩ :=
      kernelStore_foldl_some img kernel m divisor hwf hK hrows hwm hhm hd hd1
      ((List.range img.height).flatMap (fun y => (List.range img.width).map (fun x => (y, x))))
      (by
        intro c hc
        simp only [List.mem_flatMap, List.mem_map, List.mem_range] at hc
        obtain ⟨y, hy, x, hx, rfl⟩ := hc
        exact ⟨hy, hx⟩)
      _ hinit
    refine ⟨{ img with pixels := buf }, ?_, rfl, rfl, rfl, hlen⟩
    unfold applyKernel
    rw [if_neg (by rw [kernelRejected_square kernel m hK hrows]; exact Bool.false_ne_true)]
    simp only []
    rw [foldl_pixelCells img.height img.width
      (fun b y x => kernelStore img kernel divisor b y x), hrun]
    rfl
  · intro hw hh
    obtain ⟨s, hs⟩ := kernelSums_some img kernel m 0 0 hwf hw hh hK hrows hwm hhm
    exact ⟨⟨s, hs, kernelPixel_zero s⟩,
      applyKernel_zero_divisor img kernel (kernelRejected_square kernel m hK hrows) hw hh⟩

/-- C30 as amended, at the 3 by 2 sample image with the sharpen kernel: the run completes
with the divisor -1, and it has no result with the divisor 0. -/
theorem C30_applyKernel_total_witness :
    image3x2.WellFormed ∧ sharpenKernel.length = 2 * 1 + 1 ∧
    (∀ row ∈ sharpenKernel, row.length = 2 * 1 + 1) ∧
    image3x2.width + (2 * 1 + 1) ≤ 2147483648 ∧
    image3x2.height + (2 * 1 + 1) ≤ 2147483648 ∧ (-1 : Int) ≠ 0 ∧
    255 * kernelAbsSum sharpenKernel < 2147483648 ∧
    0 < image3x2.width ∧ 0 < image3x2.height ∧
    (∃ out, applyKernel image3x2 sharpenKernel (-1) = some out ∧
      out.width = image3x2.width ∧ out.height = image3x2.height ∧
      out.grayscale = image3x2.grayscale ∧
      out.pixels.length = image3x2.width * image3x2.height) ∧
    applyKernel image3x2 sharpenKernel 0 = none :=
  ⟨by decide, by decide, by decide, by decide, by decide, by decide, by decide, by decide,
   by decide,
   (C30_applyKernel_total image3x2 sharpenKernel 1 (-1) (by decide) (by decide) (by decide)
     (by decide) (by decide)).1 (by decide) (Or.inr (by decide)),
   ((C30_applyKernel_total image3x2 sharpenKernel 1 (-1) (by decide) (by decide) (by decide)
     (by decide) (by decide)).2.2 (by decide) (by decide)).2⟩

/-- C30 fails for the divisor 0 and for the divisor -1: on the well-formed 1 by 1 image
(255, 255, 255) with the sharpen kernel (square, side 3) and with the 1 by 1 kernel the
division by the divisor 0 traps; on the well-formed 1 by 1 image (128, 0, 0) with the
1 by 1 kernel of entry -16777216 the red sum is `INT_MIN`, and with the divisor -1 the
division `INT_MIN / -1` traps. -/
theorem C30_division_trap_counterexample :
    whitePixelImage.WellFormed ∧
    whitePixelImage.pixels.length = whitePixelImage.width * whitePixelImage.height ∧
    kernelRejected sharpenKernel = false ∧
    applyKernel whitePixelImage sharpenKernel 0 = none ∧
    applyKernel whitePixelImage [[1]] 0 = none ∧
    redPixelImage.WellFormed ∧
    redPixelImage.pixels.length = redPixelImage.width * redPixelImage.height ∧
    kernelRejected [[-16777216]] = false ∧
    kernelSums redPixelImage [[-16777216]] 0 0 =
      some { sum_r := -2147483648, sum_g := 0, sum_b := 0 } ∧
    divInt32 (-2147483648) (-1) = none ∧
    applyKernel redPixelImage [[-16777216]] (-1) = none := by
  decide

/-! ## Lossless quantization -/

/-- On a table that holds the color itself, `findClosestColorId` returns a key of that
color: the distance 0 is the minimum and only the color itself attains it. -/
theorem findClosestColorId_exact (q : ColorRGB) (t : ColorTable) (k : Byte)
    (hk : t.find k = some q) : t.find (findClosestColorId q t) = some q := by
  have hne : t.isEmpty = false := (t.isEmpty_eq_false_iff).2 ⟨k, q, hk⟩
  obtain ⟨ci, hci, hmin⟩ := findClosestColorId_spec q t hne
  have h0 := (hmin k q hk).1
  have hqq : colorDistanceSq q q = 0 := (colorDistanceSq_eq_zero q q).2 rfl
  rw [hqq] at h0
  have hz : colorDistanceSq q ci = 0 := le_antisymm h0 (colorDistanceSq_nonneg q ci)
  rw [hci, ← (colorDistanceSq_eq_zero q ci).1 hz]

/-- C31: for every image with at most 256 distinct pixel colors and every empty palette
argument, `toUncompressed(toCompressed(img, palette))` is the image itself: the same
width, height and flag and every pixel equal to the pixel of `img` at that position. -/
theorem C31_quantization_lossless (img : Flat.UncompressedImage) (color_table : ColorTable)
    (approximate allow_color_add : Bool) (hempty : color_table.isEmpty = true)
    (hD : img.pixels.toFinset.card ≤ 256) :
    (toUncompressed (toCompressed img color_table approximate allow_color_add)).width =
      img.width ∧
    (toUncompressed (toCompressed img color_table approximate allow_color_add)).height =
      img.height ∧
    (toUncompressed (toCompressed img color_table approximate allow_color_add)).pixels =
      img.pixels ∧
    toUncompressed (toCompressed img color_table approximate allow_color_add) = img := by
  have htab : (toCompressed img color_table approximate allow_color_add).colorTable =
      ColorTable.ofList (firstOccurrences img.pixels) := by
    simp only [toCompressed, hempty, if_true]
    exact buildTable_eq img.pixels hD
  have hlen : (firstOccurrences img.pixels).length ≤ 256 := by
    rw [firstOccurrences_length]; exact hD
  have hpx : (toUncompressed (toCompressed img color_table approximate allow_color_add)).pixels =
      img.pixels := by
    have e : (toUncompressed (toCompressed img color_table approximate allow_color_add)).pixels =
        img.pixels.map (fun q =>
          match (toCompressed img color_table approximate allow_color_add).colorTable.find
              (findClosestColorId q
                (toCompressed img color_table approximate allow_color_add).colorTable) with
          | some c => (⟨c.r, c.g, c.b⟩ : Pixel)
          | none => rgb 0 0 0) := by
      simp only [toUncompressed, toCompressed, List.map_map]
      rfl
    rw [e, htab]
    conv_rhs => rw [← List.map_id img.pixels]
    apply List.map_congr_left
    intro q hq
    have hmem : q ∈ firstOccurrences img.pixels := (firstOccurrences_mem img.pixels q).2 hq
    obtain ⟨k, hk⟩ := (tableContains_iff _ q).1
      ((tableContains_ofList (firstOccurrences img.pixels) q hlen).2 hmem)
    rw [findClosestColorId_exact q _ k hk]
    rfl
  refine ⟨rfl, rfl, hpx, ?_⟩
  have hw : (toUncompressed (toCompressed img color_table approximate allow_color_add)).width =
      img.width := rfl
  have hh : (toUncompressed (toCompressed img color_table approximate allow_color_add)).height =
      img.height := rfl
  have hg : (toUncompressed (toCompressed img color_table approximate allow_color_add)).grayscale =
      img.grayscale := rfl
  generalize toUncompressed (toCompressed img color_table approximate allow_color_add) = out at *
  cases out
  cases img
  simp only at hw hh hg hpx
  subst hw hh hg hpx
  rfl

/-- C31 at the 3 by 2 image with six different colors. -/
theorem C31_quantization_lossless_witness :
    ColorTable.empty.isEmpty = true ∧ image3x2.pixels.toFinset.card ≤ 256 ∧
    toUncompressed (toCompressed image3x2 ColorTable.empty false false) = image3x2 :=
  ⟨ColorTable.empty_isEmpty, by decide,
   (C31_quantization_lossless image3x2 ColorTable.empty false false ColorTable.empty_isEmpty
     (by decide)).2.2.2⟩

/-! ## The header checks on written files -/

theorem writeToFile_take13 (img : UncompressedImage) (cimg : CompressedImage) :
    img.writeToFile.take 13 = charArray10 RAWIMAGE ++ [toByte 1, toByte 0, toByte 0] ∧
    cimg.writeToFile.take 13 = charArray10 CMPRIMAGE ++ [toByte 6, toByte 6, toByte 6] := by
  have h1 : (charArray10 RAWIMAGE ++ [toByte 1, toByte 0, toByte 0]).length = 13 := by
    simp [charArray10_length]
  have h2 : (charArray10 CMPRIMAGE ++ [toByte 6, toByte 6, toByte 6]).length = 13 := by
    simp [charArray10_length]
  constructor
  · rw [raw_writeToFile_eq, List.append_assoc, List.take_left' h1]
  · rw [cmpr_writeToFile_eq, List.append_assoc, List.take_left' h2]

/-- C32, the code on written files: both encoders start their output with the ten bytes
of the `format` array and the version bytes, yet `std::string(format, 10) != "RAWIMAGE\0"`
and `std::string(format, 10) != "CMPRIMAGE\0"` hold for these very ten bytes (the literal
is taken as a C string of 8 and 9 characters), so both `readFromFile` methods return
`false` on every written file and leave the receiving image as it was.  The version
bytes written are the ones the version comparison accepts.  The end-signature comparison
rejects the written `RAWIMGEND` array (a C string of 9 characters) and accepts the
written `CMPRIMGEND` array (10 characters). -/
theorem C32_magic_comparison_rejects_written_files (img start : UncompressedImage)
    (cimg cstart : CompressedImage) (indet : Byte) :
    (img.writeToFile.take 10 = charArray10 RAWIMAGE ∧
      stringNe (charArray10 RAWIMAGE) RAWIMAGE = true ∧
      start.readFromFile img.writeToFile indet = (false, start)) ∧
    (cimg.writeToFile.take 10 = charArray10 CMPRIMAGE ∧
      stringNe (charArray10 CMPRIMAGE) CMPRIMAGE = true ∧
      cstart.readFromFile cimg.writeToFile indet = (false, cstart)) ∧
    ((img.writeToFile.drop 10).take 3 = [toByte 1, toByte 0, toByte 0] ∧
      (cimg.writeToFile.drop 10).take 3 = [toByte 6, toByte 6, toByte 6]) ∧
    (stringNe (charArray10 RAWIMGEND) RAWIMGEND = true ∧
      stringNe (charArray10 CMPRIMGEND) CMPRIMGEND = false) := by
  obtain ⟨h1, h2⟩ := writeToFile_take13 img cimg
  have t1 : img.writeToFile.take 10 = (img.writeToFile.take 13).take 10 := by
    rw [List.take_take]; rfl
  have t2 : cimg.writeToFile.take 10 = (cimg.writeToFile.take 13).take 10 := by
    rw [List.take_take]; rfl
  have d1 : (img.writeToFile.drop 10).take 3 = (img.writeToFile.take 13).drop 10 := by
    rw [List.drop_take]
  have d2 : (cimg.writeToFile.drop 10).take 3 = (cimg.writeToFile.take 13).drop 10 := by
    rw [List.drop_take]
  refine ⟨⟨?_, by decide, raw_readFromFile_fails start _ indet⟩,
    ⟨?_, by decide, cmpr_readFromFile_fails cstart _ indet⟩, ⟨?_, ?_⟩, by decide, by decide⟩
  · rw [t1, h1]; decide
  · rw [t2, h2]; decide
  · rw [d1, h1]; decide
  · rw [d2, h2]; decide

/-! ## The filters on a uniform image -/

/-- On an image whose pixels all have the color `c`, every sampled pixel is `c`: the
clamped coordinates lie inside the image. -/
theorem samplePixel_uniform (img : Flat.UncompressedImage) (c : Pixel) (m x y ky kx : Nat)
    (hwf : img.WellFormed) (hw : 1 ≤ img.width) (hh : 1 ≤ img.height)
    (huni : ∀ p ∈ img.pixels, p = c) : samplePixel img m x y ky kx = c := by
  have hcx := (clampCoord_lt ((x : Int) + (kx : Int) - (m : Int)) img.width hw).1
  have hcy := (clampCoord_lt ((y : Int) + (ky : Int) - (m : Int)) img.height hh).1
  have hl := getPixel_lookup img hwf _ _ hcx hcy
  exact huni _ (List.getElem?_mem hl)

theorem clamp_residue (v : Int) (n : Nat) (h1 : 1 ≤ n) (h2 : n < 4294967296) :
    0 ≤ clampInt (toInt32 v) 0 (toInt32 (toInt32 (n : Int) - 1)) % 4294967296 ∧
    clampInt (toInt32 v) 0 (toInt32 (toInt32 (n : Int) - 1)) % 4294967296 < (n : Int) := by
  unfold clampInt toInt32
  split_ifs <;> omega

/-- An index `iy * w + ix` whose factors are, modulo `2 ^ 32`, a row below `h` and a
column below `w` is, in `uint32_t`, a position of the `w * h` buffer. -/
theorem wrapped_index_lt (ix iy : Int) (w h : Nat)
    (hx : 0 ≤ ix % 4294967296 ∧ ix % 4294967296 < (w : Int))
    (hy : 0 ≤ iy % 4294967296 ∧ iy % 4294967296 < (h : Int)) (hwh : w * h < U32) :
    ((iy * (w : Int) + ix) % (U32 : Int)).toNat < w * h := by
  have ey := Int.ediv_add_emod iy 4294967296
  have ex := Int.ediv_add_emod ix 4294967296
  generalize iy / 4294967296 = qy at *
  generalize ix / 4294967296 = qx at *
  generalize hry : iy % 4294967296 = ry at *
  generalize hrx : ix % 4294967296 = rx at *
  obtain ⟨cy, rfl⟩ := Int.eq_ofNat_of_zero_le hy.1
  obtain ⟨cx, rfl⟩ := Int.eq_ofNat_of_zero_le hx.1
  have hcy : cy < h := by omega
  have hcx : cx < w := by omega
  have hlt : cy * w + cx < w * h := by
    rw [Nat.mul_comm w h]; exact index_lt h w cy cx hcy hcx
  have e : iy * (w : Int) + ix =
      ((cy * w + cx : Nat) : Int) + (U32 : Int) * (qy * (w : Int) + qx) := by
    rw [← ey, ← ex]
    simp only [U32]
    push_cast
    ring
  rw [e, Int.add_mul_emod_self_left,
    Int.emod_eq_of_lt (Int.ofNat_nonneg _) (by exact_mod_cast Nat.lt_trans hlt hwh),
    Int.toNat_ofNat]
  exact hlt

/-- On a uniform image every step of the inner loops is exact, whatever the width and the
height: the clamped coordinates, also after conversion to `int`, address a pixel of the
buffer, and every pixel is `c`. -/
theorem cellsExact_uniform (img : Flat.UncompressedImage) (kernel : List (List Int))
    (c : Pixel) (m : Nat) (hwf : img.WellFormed) (hw : 1 ≤ img.width) (hh : 1 ≤ img.height)
    (huni : ∀ p ∈ img.pixels, p = c)
    (hK : kernel.length = 2 * m + 1) (hrows : ∀ row ∈ kernel, row.length = 2 * m + 1) :
    CellsExact img kernel m := by
  intro x y ky kx s hx hy hky hkx
  have hU : U32 = 4294967296 := rfl
  have hrx := clamp_residue ((x : Int) + (kx : Int) - (m : Int)) img.width hw
    (by have := hwf.1; omega)
  have hry := clamp_residue ((y : Int) + (ky : Int) - (m : Int)) img.height hh
    (by have := hwf.2.1; omega)
  have hidx := wrapped_index_lt _ _ img.width img.height hrx hry hwf.2.2.1
  rw [← hwf.2.2.2] at hidx
  have hpix : img.pixels[((clampInt (toInt32 ((y : Int) + (ky : Int) - (m : Int))) 0
      (toInt32 (toInt32 (img.height : Int) - 1)) * (img.width : Int) +
      clampInt (toInt32 ((x : Int) + (kx : Int) - (m : Int))) 0
        (toInt32 (toInt32 (img.width : Int) - 1))) % (U32 : Int)).toNat]? = some c := by
    rw [List.getElem?_eq_getElem hidx]
    exact congrArg some (huni _ (List.getElem_mem hidx))
  simp only [kernelCell, hpix,
    kernelEntry_lookup kernel (2 * m + 1) ky kx hK hrows hky hkx,
    samplePixel_uniform img c m x y ky kx hwf hw hh huni, ChannelSums.add]

theorem sum_map_mul_const (l : List Nat) (f : Nat → Int) (v : Int) :
    (l.map (fun i => f i * v)).sum = (l.map f).sum * v := by
  induction l with
  | nil => simp
  | cons a t ih => simp only [List.map_cons, List.sum_cons, ih]; ring

/-- On a uniform image the weighted sum of a channel is the sum of the kernel entries
times the channel value. -/
theorem weightedSum_uniform (img : Flat.UncompressedImage) (kernel : List (List Int))
    (c : Pixel) (m x y : Nat) (channel : Pixel → Byte)
    (hwf : img.WellFormed) (hw : 1 ≤ img.width) (hh : 1 ≤ img.height)
    (huni : ∀ p ∈ img.pixels, p = c) :
    weightedSum img kernel m channel x y =
      kernelEntrySum kernel (2 * m + 1) * ((channel c).val : Int) := by
  unfold weightedSum kernelEntrySum
  rw [← sum_map_mul_const]
  congr 1
  apply List.map_congr_left
  intro ky _
  rw [← sum_map_mul_const]
  congr 1
  apply List.map_congr_left
  intro kx _
  rw [samplePixel_uniform img c m x y ky kx hwf hw hh huni]

/-- Writing the same value at every position `y * W + x` of a `W * H` buffer leaves the
buffer filled with that value. -/
theorem foldl_set_const {α : Type} (W H : Nat) (v : α) (init : List α)
    (hlen : init.length = W * H) :
    (((List.range H).flatMap (fun y => (List.range W).map (fun x => (y, x)))).map
        (fun c => (c.1 * W + c.2, v))).foldl (fun b w => b.set w.1 w.2) init =
      List.replicate (W * H) v := by
  apply List.ext_getElem?
  intro j
  by_cases hj : j < W * H
  · have hW : 0 < W := by
      rcases Nat.eq_zero_or_pos W with h | h
      · rw [h, Nat.zero_mul] at hj; omega
      · exact h
    have hy : j / W < H := Nat.div_lt_of_lt_mul hj
    have hx : j % W < W := Nat.mod_lt j hW
    have hdm : j / W * W + j % W = j := by
      rw [Nat.mul_comm]; exact Nat.div_add_mod j W
    rw [List.getElem?_replicate, if_pos hj]
    apply foldl_set_written
    · rintro ⟨i, u⟩ hw _
      simp only [List.mem_map, Prod.mk.injEq] at hw
      obtain ⟨_, _, _, rfl⟩ := hw
      rfl
    · simp only [List.mem_map, List.mem_flatMap, List.mem_range, Prod.mk.injEq]
      exact ⟨(j / W, j % W), ⟨j / W, hy, j % W, hx, rfl⟩, hdm, trivial⟩
    · rw [hlen]; exact hj
  · rw [List.getElem?_eq_none (by rw [foldl_set_length, hlen]; omega),
      List.getElem?_eq_none (by rw [List.length_replicate]; omega)]

/-- On a uniform image, when the convolved pixel is the same value `v` at every position,
`applyKernel` returns the image filled with `v`. -/
theorem applyKernel_uniform (img : Flat.UncompressedImage) (kernel : List (List Int))
    (m : Nat) (divisor : Int) (v : Pixel) (hwf : img.WellFormed)
    (hK : kernel.length = 2 * m + 1) (hrows : ∀ row ∈ kernel, row.length = 2 * m + 1)
    (hd : divisor ≠ 0)
    (hcell : CellsExact img kernel m) (hside : 2 * m + 1 < 2147483648)
    (hsum : 255 * kernelAbsSum kernel < 2147483648)
    (hv : ∀ x y, x < img.width → y < img.height →
      convolvedPixel img kernel m divisor x y = v) :
    applyKernel img kernel divisor =
      some { img with pixels := List.replicate (img.width * img.height) v } := by
  have hinit : (List.replicate ((img.width * img.height) % U32) (rgb 0 0 0)).length =
      img.width * img.height := by
    rw [List.length_replicate, Nat.mod_eq_of_lt hwf.2.2.1]
  have hcells : ∀ c ∈ (List.range img.height).flatMap (fun y =>
      (List.range img.width).map (fun x => (y, x))), c.1 < img.height ∧ c.2 < img.width := by
    intro c hc
    simp only [List.mem_flatMap, List.mem_map, List.mem_range] at hc
    obtain ⟨y, hy, x, hx, rfl⟩ := hc
    exact ⟨hy, hx⟩
  have hrun := kernelStore_foldl img kernel m divisor hwf hK hrows hcell hside hsum hd _ hcells
    _ hinit
  have hmap : ((List.range img.height).flatMap (fun y =>
      (List.range img.width).map (fun x => (y, x)))).map
        (fun c => (c.1 * img.width + c.2, convolvedPixel img kernel m divisor c.2 c.1)) =
      ((List.range img.height).flatMap (fun y =>
        (List.range img.width).map (fun x => (y, x)))).map
          (fun c => (c.1 * img.width + c.2, v)) := by
    apply List.map_congr_left
    intro c hc
    rw [hv c.2 c.1 (hcells c hc).2 (hcells c hc).1]
  rw [hmap, foldl_set_const img.width img.height v _ hinit] at hrun
  unfold applyKernel
  rw [if_neg (by rw [kernelRejected_square kernel m hK hrows]; exact Bool.false_ne_true)]
  simp only []
  rw [foldl_pixelCells img.height img.width
    (fun buf y x => kernelStore img kernel divisor buf y x), hrun]
  rfl

theorem toByte_clamp_channel (b : Byte) : toByte (clampInt (b.val : Int) 0 255).toNat = b := by
  have hb := b.isLt
  have e : clampInt (b.val : Int) 0 255 = (b.val : Int) := by
    unfold clampInt
    rw [if_neg (by omega), if_neg (by omega)]
  rw [e, Int.toNat_ofNat]
  apply Fin.ext
  show b.val % 256 = b.val
  exact Nat.mod_eq_of_lt hb

/-- On a uniform image of color `c`, a kernel whose entries sum to the positive divisor
gives the convolved pixel `c`. -/
theorem convolvedPixel_uniform_same (img : Flat.UncompressedImage) (kernel : List (List Int))
    (c : Pixel) (m x y : Nat) (divisor : Int)
    (hwf : img.WellFormed) (hw : 1 ≤ img.width) (hh : 1 ≤ img.height)
    (huni : ∀ p ∈ img.pixels, p = c) (hd : 0 < divisor)
    (hs : kernelEntrySum kernel (2 * m + 1) = divisor) :
    convolvedPixel img kernel m divisor x y = c := by
  have hdiv : ∀ b : Byte, Int.tdiv (divisor * (b.val : Int)) divisor = (b.val : Int) := by
    intro b
    rw [Int.tdiv_eq_ediv (Int.mul_nonneg (le_of_lt hd) (Int.ofNat_nonneg _)) (le_of_lt hd),
      Int.mul_ediv_cancel_left _ (ne_of_gt hd)]
  unfold convolvedPixel
  rw [weightedSum_uniform img kernel c m x y (fun p => p.r) hwf hw hh huni,
    weightedSum_uniform img kernel c m x y (fun p => p.g) hwf hw hh huni,
    weightedSum_uniform img kernel c m x y (fun p => p.b) hwf hw hh huni, hs,
    hdiv, hdiv, hdiv, toByte_clamp_channel, toByte_clamp_channel, toByte_clamp_channel]

/-- On a uniform image a kernel whose entries sum to 0 gives the convolved pixel
(0, 0, 0). -/
theorem convolvedPixel_uniform_zero (img : Flat.UncompressedImage) (kernel : List (List Int))
    (c : Pixel) (m x y : Nat) (divisor : Int)
    (hwf : img.WellFormed) (hw : 1 ≤ img.width) (hh : 1 ≤ img.height)
    (huni : ∀ p ∈ img.pixels, p = c)
    (hs : kernelEntrySum kernel (2 * m + 1) = 0) :
    convolvedPixel img kernel m divisor x y = rgb 0 0 0 := by
  unfold convolvedPixel
  rw [weightedSum_uniform img kernel c m x y (fun p => p.r) hwf hw hh huni,
    weightedSum_uniform img kernel c m x y (fun p => p.g) hwf hw hh huni,
    weightedSum_uniform img kernel c m x y (fun p => p.b) hwf hw hh huni, hs]
  simp only [Int.zero_mul, Int.zero_tdiv]
  rfl

theorem uniform_pixels (img : Flat.UncompressedImage) (c : Pixel) (hwf : img.WellFormed)
    (huni : ∀ p ∈ img.pixels, p = c) :
    img.pixels = List.replicate (img.width * img.height) c := by
  rw [List.eq_replicate_iff]
  exact ⟨hwf.2.2.2, huni⟩

/-- C33: for every well-formed image with width and height at least 1 in which all pixels
have the same color `c`:
`sharpen`, `gaussianBlurApprox(hard_blur = false)` and `gaussianBlurApprox(hard_blur =
true)` each return the image with every pixel equal to `c` (the image itself), and
`edgeDetect` returns it with every pixel (0, 0, 0); border pixels included. -/
theorem C33_filters_on_uniform_image (img : Flat.UncompressedImage) (c : Pixel)
    (hwf : img.WellFormed) (hw : 1 ≤ img.width) (hh : 1 ≤ img.height)
    (huni : ∀ p ∈ img.pixels, p = c) :
    sharpen img = some img ∧
    gaussianBlurApprox img false = some img ∧
    gaussianBlurApprox img true = some img ∧
    edgeDetect img =
      some { img with pixels := List.replicate (img.width * img.height) (rgb 0 0 0) } := by
  have himg : ({ img with pixels := List.replicate (img.width * img.height) c } :
      Flat.UncompressedImage) = img := by
    rw [← uniform_pixels img c hwf huni]
  refine ⟨?_, ?_, ?_, ?_⟩
  · unfold sharpen
    rw [applyKernel_uniform img sharpenKernel 1 1 c hwf (by decide) (by decide) (by decide)
      (cellsExact_uniform img sharpenKernel c 1 hwf hw hh huni (by decide) (by decide)) (by decide)
      (by decide)
      (fun x y _ _ => convolvedPixel_uniform_same img sharpenKernel c 1 x y 1 hwf hw hh huni
        (by decide) (by decide)), himg]
  · unfold gaussianBlurApprox
    simp only [Bool.not_false, if_true]
    rw [applyKernel_uniform img gaussianKernel 1 16 c hwf (by decide) (by decide) (by decide)
      (cellsExact_uniform img gaussianKernel c 1 hwf hw hh huni (by decide) (by decide)) (by decide)
      (by decide)
      (fun x y _ _ => convolvedPixel_uniform_same img gaussianKernel c 1 x y 16 hwf hw hh huni
        (by decide) (by decide)), himg]
  · unfold gaussianBlurApprox
    simp only [Bool.not_true, Bool.false_eq_true, if_false]
    rw [applyKernel_uniform img boxKernel 1 9 c hwf (by decide) (by decide) (by decide)
      (cellsExact_uniform img boxKernel c 1 hwf hw hh huni (by decide) (by decide)) (by decide)
      (by decide)
      (fun x y _ _ => convolvedPixel_uniform_same img boxKernel c 1 x y 9 hwf hw hh huni
        (by decide) (by decide)), himg]
  · unfold edgeDetect
    exact applyKernel_uniform img edgeKernel 1 1 (rgb 0 0 0) hwf (by decide) (by decide)
      (by decide) (cellsExact_uniform img edgeKernel c 1 hwf hw hh huni (by decide) (by decide))
      (by decide) (by decide)
      (fun x y _ _ => convolvedPixel_uniform_zero img edgeKernel c 1 x y 1 hwf hw hh huni
        (by decide))

/-- C33 at the 2 by 2 image whose four pixels are (10, 20, 30): every pixel is a border
pixel. -/
theorem C33_filters_on_uniform_image_witness :
    uniformImage.WellFormed ∧ 1 ≤ uniformImage.width ∧ 1 ≤ uniformImage.height ∧
    (∀ p ∈ uniformImage.pixels, p = rgb 10 20 30) ∧
    sharpen uniformImage = some uniformImage ∧
    gaussianBlurApprox uniformImage false = some uniformImage ∧
    gaussianBlurApprox uniformImage true = some uniformImage ∧
    edgeDetect uniformImage =
      some { uniformImage with
        pixels := List.replicate (uniformImage.width * uniformImage.height) (rgb 0 0 0) } :=
  ⟨by decide, by decide, by decide, by decide,
   C33_filters_on_uniform_image uniformImage (rgb 10 20 30) (by decide) (by decide) (by decide)
     (by decide)⟩
